import Mathlib

/-!
# minijson_writer: a streaming JSON writer

Shallow embedding of `minijson_writer.hpp` and the properties of its
writer state machine, text escaper and sequence encoder.

Conventions of the embedding.

* A byte is a `Nat` below 256; a C string (`const char*`) is the list of the
  bytes stored at the pointer, read up to the first `0` byte or the end of the
  list, whichever comes first.  A null pointer is `none`.
* `std::ostream` is an append-only byte sink together with the part of its
  formatting state that the library reads or writes (radix, adjustment, the
  show-base, upper-case, show-plus and show-point flags, field width, fill
  character and the digit grouping of the imbued locale).  The sink accepts
  every append, as `std::stringstream` does.
* `char` may be a signed or an unsigned type; the choice is the parameter
  `signed_char` of the functions that inspect characters.
* Member functions take the object and the stream it refers to and return the
  updated pair.  A value writer is a function on streams.
* A well-formed sequence of calls is a list of `call`s: a nest operation
  carries the calls made on the child, after which the child is closed.

The first part of the file holds the definitions: the program, then the
notions the properties are stated with (the escape rules of the
specification, a decoder of string literals, a recogniser of JSON syntax).
The second part holds the theorems; those named `C1` to `C23` state the
numbered properties of the specification.
-/

namespace minijson

/-! ## The output stream -/

/-- Bytes of an ASCII literal. -/
def bytes (s : String) : List Nat := s.toList.map Char.toNat

/-- Radix selected by `std::ios_base::basefield`. -/
inductive fmt_base where
  | dec
  | hex
  | oct
deriving DecidableEq, Repr

/-- Adjustment selected by `std::ios_base::adjustfield` (`unset` is the
state of a freshly constructed stream and pads like `right`). -/
inductive fmt_adjust where
  | unset
  | left
  | right
  | internal
deriving DecidableEq, Repr

/-- The numeric punctuation of a `std::locale` that integer output reads:
the thousands separator and the digit grouping (`numpunct::grouping`). -/
structure locale where
  thousands_sep : Nat
  grouping : List Nat
deriving DecidableEq, Repr

/-- The classic "C" locale `std::locale::classic()`: no digit grouping. -/
def locale.classic : locale := { thousands_sep := 44, grouping := [] }

/-- A `std::ostream`: the identity of the stream object, the bytes it has
received so far, and its formatting state. -/
structure ostream where
  id : Nat
  data : List Nat
  basefield : fmt_base
  adjustfield : fmt_adjust
  showbase : Bool
  uppercase : Bool
  showpos : Bool
  showpoint : Bool
  width : Nat
  fill : Nat
  loc : locale
deriving DecidableEq, Repr

/-- A freshly constructed stream (for instance a `std::stringstream`) in the
classic locale: decimal, no flags, width 0, fill character space. -/
def ostream.fresh (id : Nat) : ostream :=
  { id := id, data := [], basefield := fmt_base.dec, adjustfield := fmt_adjust.unset,
    showbase := false, uppercase := false, showpos := false, showpoint := false,
    width := 0, fill := 32, loc := locale.classic }

/-- Unformatted output `stream.write(buf, n)`: the bytes are appended as they
are; width and fill are not consulted. -/
def ostream.write (st : ostream) (buf : List Nat) : ostream :=
  { st with data := st.data ++ buf }

/-- Padding of a formatted field to the stream width: `lead` is a sign or a
`0x` marker (after which `internal` adjustment pads), `body` the rest. -/
def ostream.pad (st : ostream) (lead body : List Nat) : List Nat :=
  let fillc := List.replicate (st.width - (lead.length + body.length)) st.fill
  match st.adjustfield with
  | fmt_adjust.left => lead ++ body ++ fillc
  | fmt_adjust.internal => lead ++ fillc ++ body
  | _ => fillc ++ lead ++ body

/-- Formatted output of a character sequence, `stream << "text"`: padded to
the field width, which is then reset to 0. -/
def ostream.put_str (st : ostream) (s : List Nat) : ostream :=
  { st with data := st.data ++ st.pad [] s, width := 0 }

/-- Formatted output of one character, `stream << c`. -/
def ostream.put_char (st : ostream) (c : Nat) : ostream :=
  st.put_str [c]

/-- The character of a digit `d < 16`. -/
def digit_char (upper : Bool) (d : Nat) : Nat :=
  if d < 10 then 48 + d else if upper then 55 + d else 87 + d

/-- Digits of `v` in the given base, most significant first, accumulated. -/
def to_digits_aux (base : Nat) : Nat → Nat → List Nat → List Nat
  | 0, _, acc => acc
  | fuel + 1, v, acc =>
    if v / base = 0 then (v % base) :: acc
    else to_digits_aux base fuel (v / base) ((v % base) :: acc)

/-- Digits of `v` in the given base, most significant first; `0` is `[0]`. -/
def to_digits (base v : Nat) : List Nat :=
  to_digits_aux base (v + 1) v []

/-- Digit grouping on the reversed digit sequence (least significant first):
each entry of `grouping` is the size of the next group, the last entry
repeats, and an entry of 0 or at least 127 ends the grouping. -/
def group_rev (sep : Nat) : Nat → List Nat → List Nat → List Nat
  | 0, _, ds => ds
  | _ + 1, [], ds => ds
  | fuel + 1, g :: gs, ds =>
    if g = 0 ∨ 127 ≤ g ∨ ds.length ≤ g then ds
    else ds.take g ++ sep :: group_rev sep fuel (if gs = [] then [g] else gs) (ds.drop g)

/-- The digit characters of `v` in the radix of the stream, with the digit
grouping of its locale. -/
def ostream.digits (st : ostream) (v : Nat) : List Nat :=
  let base := match st.basefield with
    | fmt_base.dec => 10
    | fmt_base.hex => 16
    | fmt_base.oct => 8
  let ds := (to_digits base v).map (digit_char st.uppercase)
  (group_rev st.loc.thousands_sep ds.length st.loc.grouping ds.reverse).reverse

/-- The radix marker that `showbase` puts before a non-zero value: `0x` or
`0X` (split off for `internal` padding) in hex, a leading `0` in octal. -/
def ostream.base_mark (st : ostream) (v : Nat) : List Nat × List Nat :=
  if st.showbase ∧ v ≠ 0 then
    match st.basefield with
    | fmt_base.hex => ([48, if st.uppercase then 88 else 120], [])
    | fmt_base.oct => ([], [48])
    | fmt_base.dec => ([], [])
  else ([], [])

/-- Formatted output of an unsigned integer, `stream << v`. -/
def ostream.put_unsigned (st : ostream) (v : Nat) : ostream :=
  let mark := st.base_mark v
  { st with data := st.data ++ st.pad mark.1 (mark.2 ++ st.digits v), width := 0 }

/-- Formatted output of a signed integer of the given bit width,
`stream << v`: in decimal a sign and the magnitude, in hex and octal the
two-complement bit pattern. -/
def ostream.put_signed (st : ostream) (nbits : Nat) (v : Int) : ostream :=
  match st.basefield with
  | fmt_base.dec =>
    let sign := if v < 0 then [45] else if st.showpos then [43] else []
    { st with data := st.data ++ st.pad sign (st.digits v.natAbs), width := 0 }
  | _ => st.put_unsigned (v % (2 ^ nbits : Int)).toNat

/-- The manipulator `std::setw(n)`. -/
def ostream.setw (st : ostream) (n : Nat) : ostream := { st with width := n }

/-- The manipulator `std::setfill(c)`. -/
def ostream.setfill (st : ostream) (c : Nat) : ostream := { st with fill := c }

/-- The manipulator `std::hex`. -/
def ostream.hex (st : ostream) : ostream := { st with basefield := fmt_base.hex }

/-- The manipulator `std::dec`. -/
def ostream.dec (st : ostream) : ostream := { st with basefield := fmt_base.dec }

/-- The manipulator `std::right`. -/
def ostream.right (st : ostream) : ostream := { st with adjustfield := fmt_adjust.right }

/-- The call `stream.imbue(l)`. -/
def ostream.imbue (st : ostream) (l : locale) : ostream := { st with loc := l }

/-! ## detail::buffered_writer -/

namespace detail

/-- The class `buffered_writer<Size>`: the staging buffer and the number of
bytes staged.  The stream it refers to is passed to each operation. -/
structure buffered_writer where
  m_buffer : List Nat
  m_offset : Nat
deriving DecidableEq, Repr

/-- Constructor of `buffered_writer<Size>`: an array of `Size` bytes, nothing
staged. -/
def buffered_writer.new (Size : Nat) : buffered_writer :=
  { m_buffer := List.replicate Size 0, m_offset := 0 }

/-- The member `flush()`: hands the staged bytes to the stream. -/
def buffered_writer.flush (bw : buffered_writer) (st : ostream) : buffered_writer × ostream :=
  ({ bw with m_offset := 0 }, st.write (bw.m_buffer.take bw.m_offset))

/-- The member `operator<<(char c)`. -/
def buffered_writer.put (Size : Nat) (bw : buffered_writer) (st : ostream) (c : Nat) :
    buffered_writer × ostream :=
  let p := if bw.m_offset = Size then bw.flush st else (bw, st)
  ({ m_buffer := p.1.m_buffer.set p.1.m_offset c, m_offset := p.1.m_offset + 1 }, p.2)

/-- The member `operator<<(const char (&str)[N])`: the `N - 1` characters of
a string literal, one by one. -/
def buffered_writer.put_str (Size : Nat) (bw : buffered_writer) (st : ostream) (str : List Nat) :
    buffered_writer × ostream :=
  str.foldl (fun p c => buffered_writer.put Size p.1 p.2 c) (bw, st)

/-- The value of a `char` holding byte `b`, as the integer the comparisons
and the `switch` see: bytes from 128 are negative where `char` is signed. -/
def char_value (signed_char : Bool) (b : Nat) : Int :=
  if signed_char = true ∧ 128 ≤ b then (b : Int) - 256 else (b : Int)

/-- The function `adjust_stream_settings`. -/
def adjust_stream_settings (st : ostream) : ostream :=
  let st := st.imbue locale.classic
  let st := { st with showpoint := false, showpos := false }
  (st.dec).setw 0

/-- One iteration of the loop of `write_quoted_string`, for the character
`c`, which is not the terminator. -/
def write_quoted_char (signed_char : Bool) (bw : buffered_writer) (st : ostream) (c : Nat) :
    buffered_writer × ostream :=
  let v := char_value signed_char c
  if v = 34 then bw.put_str 128 st [92, 34]
  else if v = 92 then bw.put_str 128 st [92, 92]
  else if v = 10 then bw.put_str 128 st [92, 110]
  else if v = 13 then bw.put_str 128 st [92, 114]
  else if v = 9 then bw.put_str 128 st [92, 116]
  else if (0 < v ∧ v < 32) ∨ v = 127 then
    let p := bw.put_str 128 st [92, 117]
    let q := p.1.flush p.2
    (q.1, (q.2.setw 4).put_unsigned (v % (2 ^ 32 : Int)).toNat)
  else bw.put 128 st c

/-- The loop `while (*str != 0)` of `write_quoted_string`. -/
def write_quoted_loop (signed_char : Bool) :
    List Nat → buffered_writer → ostream → buffered_writer × ostream
  | [], bw, st => (bw, st)
  | c :: rest, bw, st =>
    if c = 0 then (bw, st)
    else
      let p := write_quoted_char signed_char bw st c
      write_quoted_loop signed_char rest p.1 p.2

/-- The function `write_quoted_string`. -/
def write_quoted_string (signed_char : Bool) (st : ostream) (str : List Nat) : ostream :=
  let st := ((st.hex).right).setfill 48
  let p := (buffered_writer.new 128).put 128 st 34
  let p := write_quoted_loop signed_char str p.1 p.2
  let p := p.1.put 128 p.2 34
  let p := p.1.flush p.2
  p.2.dec

end detail

/-! ## The writer state machine -/

/-- The enumeration `writer::status`. -/
inductive status where
  | EMPTY
  | OPEN
  | CLOSED
deriving DecidableEq, Repr

/-- The class `writer`; `m_stream` is the identity of the stream it points
to.  `object_writer` and `array_writer` add no members. -/
structure writer where
  m_array : Bool
  m_status : status
  m_stream : Nat
deriving DecidableEq, Repr

/-- A value writer: the functor called as `value_writer(stream, value)`. -/
abbrev value_writer (V : Type) := ostream → V → ostream

namespace writer

/-- The constructor `writer(stream, array)`. -/
def new (stream : ostream) (array : Bool) : writer :=
  { m_array := array, m_status := status.EMPTY, m_stream := stream.id }

/-- The member `write_opening_bracket`. -/
def write_opening_bracket (w : writer) (st : ostream) : ostream :=
  if w.m_array then st.put_char 91 else st.put_char 123

/-- The member `write_closing_bracket`. -/
def write_closing_bracket (w : writer) (st : ostream) : ostream :=
  if w.m_array then st.put_char 93 else st.put_char 125

/-- The member `next_field`. -/
def next_field (w : writer) (st : ostream) : writer × ostream :=
  let st :=
    if w.m_status = status.EMPTY then w.write_opening_bracket st
    else if w.m_status = status.OPEN then st.put_char 44
    else st
  ({ w with m_status := status.OPEN }, st)

/-- The member `write_field_name`. -/
def write_field_name (signed_char : Bool) (st : ostream) (name : List Nat) : ostream :=
  (detail.write_quoted_string signed_char st name).put_char 58

/-- The member `write_helper`; a null `field_name` is `none`. -/
def write_helper {V : Type} (signed_char : Bool) (w : writer) (st : ostream)
    (field_name : Option (List Nat)) (value : V) (vw : value_writer V) : writer × ostream :=
  if w.m_status = status.CLOSED then (w, st)
  else
    let st := detail.adjust_stream_settings st
    let p := w.next_field st
    let st := match field_name with
      | some name => write_field_name signed_char p.2 name
      | none => p.2
    (p.1, vw st value)

/-- The member `close`. -/
def close (w : writer) (st : ostream) : writer × ostream :=
  if w.m_status = status.CLOSED then (w, st)
  else
    let st := detail.adjust_stream_settings st
    let st := if w.m_status = status.EMPTY then w.write_opening_bracket st else st
    let st := w.write_closing_bracket st
    ({ w with m_status := status.CLOSED }, st)

end writer

/-! ## array_writer, the free function write_array, object_writer -/

namespace array_writer

/-- The constructor `array_writer(stream)`. -/
def new (stream : ostream) : writer := writer.new stream true

/-- The member `array_writer::write(value, value_writer)`. -/
def write {V : Type} (signed_char : Bool) (w : writer) (st : ostream) (value : V)
    (vw : value_writer V) : writer × ostream :=
  w.write_helper signed_char st none value vw

/-- The member `array_writer::nested_object()`: the parent, the child and
the stream. -/
def nested_object (w : writer) (st : ostream) : writer × writer × ostream :=
  let st := detail.adjust_stream_settings st
  let p := w.next_field st
  (p.1, writer.new p.2 false, p.2)

/-- The member `array_writer::nested_array()`. -/
def nested_array (w : writer) (st : ostream) : writer × writer × ostream :=
  let st := detail.adjust_stream_settings st
  let p := w.next_field st
  (p.1, writer.new p.2 true, p.2)

end array_writer

/-- The free function `write_array(stream, begin, end, value_writer)`; the
range is the list of its elements. -/
def write_array {V : Type} (signed_char : Bool) (stream : ostream) (range : List V)
    (vw : value_writer V) : ostream :=
  let w := array_writer.new stream
  let p := range.foldl (fun p x => array_writer.write signed_char p.1 p.2 x vw) (w, stream)
  (p.1.close p.2).2

/-- The functor `detail::range_writer`: writes a range as an array. -/
def detail.range_writer {V : Type} (signed_char : Bool) (vw : value_writer V) :
    value_writer (List V) :=
  fun stream range => write_array signed_char stream range vw

/-- The member `array_writer::write_array(begin, end, value_writer)`. -/
def array_writer.write_array {V : Type} (signed_char : Bool) (w : writer) (st : ostream)
    (range : List V) (vw : value_writer V) : writer × ostream :=
  array_writer.write signed_char w st range (detail.range_writer signed_char vw)

namespace object_writer

/-- The constructor `object_writer(stream)`. -/
def new (stream : ostream) : writer := writer.new stream false

/-- The member `object_writer::write(field_name, value, value_writer)`. -/
def write {V : Type} (signed_char : Bool) (w : writer) (st : ostream)
    (field_name : Option (List Nat)) (value : V) (vw : value_writer V) : writer × ostream :=
  w.write_helper signed_char st field_name value vw

/-- The member `object_writer::write_array(field_name, begin, end,
value_writer)`. -/
def write_array {V : Type} (signed_char : Bool) (w : writer) (st : ostream)
    (field_name : Option (List Nat)) (range : List V) (vw : value_writer V) : writer × ostream :=
  write signed_char w st field_name range (detail.range_writer signed_char vw)

/-- The member `object_writer::nested_object(field_name)`; the name is
dereferenced, so it is not null. -/
def nested_object (signed_char : Bool) (w : writer) (st : ostream) (field_name : List Nat) :
    writer × writer × ostream :=
  let st := detail.adjust_stream_settings st
  let p := w.next_field st
  let st := writer.write_field_name signed_char p.2 field_name
  (p.1, writer.new st false, st)

/-- The member `object_writer::nested_array(field_name)`. -/
def nested_array (signed_char : Bool) (w : writer) (st : ostream) (field_name : List Nat) :
    writer × writer × ostream :=
  let st := detail.adjust_stream_settings st
  let p := w.next_field st
  let st := writer.write_field_name signed_char p.2 field_name
  (p.1, writer.new st true, st)

end object_writer

/-! ## Default value writers -/

/-- The specialisation `default_value_writer<null_t>`. -/
def default_value_writer_null : value_writer Unit :=
  fun stream _ => stream.put_str (bytes "null")

/-- The specialisation `default_value_writer<bool>`. -/
def default_value_writer_bool : value_writer Bool :=
  fun stream value => if value then stream.put_str (bytes "true") else stream.put_str (bytes "false")

/-- The specialisation `default_value_writer<IntegralType>` for a signed
type; `nbits` is the width of the type `+value` has after promotion. -/
def default_value_writer_signed (nbits : Nat) : value_writer Int :=
  fun stream value => stream.put_signed nbits value

/-- The specialisation `default_value_writer<IntegralType>` for an unsigned
type. -/
def default_value_writer_unsigned : value_writer Nat :=
  fun stream value => stream.put_unsigned value

/-- The specialisation `default_value_writer<char*>` (and, through
`c_str()`, `std::string`). -/
def default_value_writer_string (signed_char : Bool) : value_writer (List Nat) :=
  fun stream str => detail.write_quoted_string signed_char stream str

/-! ## The escaper without its staging buffer, and what it emits -/

namespace detail

/-- One iteration of the escaper loop without the staging buffer: every
escaped character goes to the stream directly. -/
def write_quoted_char_direct (signed_char : Bool) (st : ostream) (c : Nat) : ostream :=
  let v := char_value signed_char c
  if v = 34 then st.write [92, 34]
  else if v = 92 then st.write [92, 92]
  else if v = 10 then st.write [92, 110]
  else if v = 13 then st.write [92, 114]
  else if v = 9 then st.write [92, 116]
  else if (0 < v ∧ v < 32) ∨ v = 127 then
    ((st.write [92, 117]).setw 4).put_unsigned (v % (2 ^ 32 : Int)).toNat
  else st.write [c]

/-- The escaper loop without the staging buffer. -/
def write_quoted_loop_direct (signed_char : Bool) : List Nat → ostream → ostream
  | [], st => st
  | c :: rest, st =>
    if c = 0 then st
    else write_quoted_loop_direct signed_char rest (write_quoted_char_direct signed_char st c)

/-- The escaper without the staging buffer. -/
def write_quoted_string_direct (signed_char : Bool) (st : ostream) (str : List Nat) : ostream :=
  let st := ((st.hex).right).setfill 48
  let st := st.write [34]
  let st := write_quoted_loop_direct signed_char str st
  let st := st.write [34]
  st.dec

/-- The stream as it is once the staged bytes are handed over. -/
def buffered_writer.commit (bw : buffered_writer) (st : ostream) : ostream :=
  st.write (bw.m_buffer.take bw.m_offset)

/-- Representation invariant of `buffered_writer<Size>`. -/
def buffered_writer.inv (Size : Nat) (bw : buffered_writer) : Prop :=
  bw.m_offset ≤ Size ∧ bw.m_buffer.length = Size


/-- The field that `stream << std::setw(4) << v` produces inside the escaper
(radix hex, right adjustment, fill character `0`), as a function of the
flags of the stream the escaper does not set. -/
def hex_field (upper showbase : Bool) (l : locale) (v : Nat) : List Nat :=
  let st : ostream :=
    { id := 0, data := [], basefield := fmt_base.hex, adjustfield := fmt_adjust.right,
      showbase := showbase, uppercase := upper, showpos := false, showpoint := false,
      width := 4, fill := 48, loc := l }
  st.pad (st.base_mark v).1 ((st.base_mark v).2 ++ st.digits v)

/-- Whether the escaper takes the hex-escape branch for the byte `c`. -/
def is_control (signed_char : Bool) (c : Nat) : Bool :=
  let v := char_value signed_char c
  decide (v ≠ 34 ∧ v ≠ 92 ∧ v ≠ 10 ∧ v ≠ 13 ∧ v ≠ 9 ∧ ((0 < v ∧ v < 32) ∨ v = 127))

/-- The bytes the escaper emits for the byte `c`. -/
def escaped_char (signed_char upper showbase : Bool) (l : locale) (c : Nat) : List Nat :=
  let v := char_value signed_char c
  if v = 34 then [92, 34]
  else if v = 92 then [92, 92]
  else if v = 10 then [92, 110]
  else if v = 13 then [92, 114]
  else if v = 9 then [92, 116]
  else if (0 < v ∧ v < 32) ∨ v = 127 then
    [92, 117] ++ hex_field upper showbase l (v % (2 ^ 32 : Int)).toNat
  else [c]

/-- The characters of a C string: the bytes before the first `0`. -/
def c_str (s : List Nat) : List Nat := s.takeWhile (fun b => decide (b ≠ 0))

/-- The bytes the escaper emits for the string `s` on the stream `st`. -/
def quoted_on (signed_char : Bool) (st : ostream) (s : List Nat) : List Nat :=
  [34] ++ (c_str s).flatMap (escaped_char signed_char st.uppercase st.showbase st.loc) ++ [34]

/-- Whether the escaper emits a hex escape for some character of `s`. -/
def has_control (signed_char : Bool) (s : List Nat) : Bool :=
  (c_str s).any (is_control signed_char)

end detail

/-! ## The escape rules of the specification -/

/-- A byte string without NUL: every element is a byte other than `0`. -/
def nul_free (s : List Nat) : Prop := ∀ b ∈ s, 0 < b ∧ b < 256

instance (s : List Nat) : Decidable (nul_free s) := by
  unfold nul_free; infer_instance

/-- The lowercase hex digit of `d < 16`. -/
def lower_hex (d : Nat) : Nat := (bytes "0123456789abcdef").getD d 0

/-- The escape of one byte as the specification words it: short forms for
the quote, the backslash, newline, carriage return and tab; `\u00` and two
lowercase hex digits for the other codes in [1,31] and for 127; every other
byte as it is. -/
def esc (c : Nat) : List Nat :=
  if c = 34 then bytes "\\\""
  else if c = 92 then bytes "\\\\"
  else if c = 10 then bytes "\\n"
  else if c = 13 then bytes "\\r"
  else if c = 9 then bytes "\\t"
  else if (1 ≤ c ∧ c ≤ 31) ∨ c = 127 then bytes "\\u00" ++ [lower_hex (c / 16), lower_hex (c % 16)]
  else [c]

/-! ## Value writers and fields -/

/-- The formatting state `adjust_stream_settings` establishes: classic
locale, no show-point and show-plus flags, decimal radix, width 0. -/
def ostream.adjusted (st : ostream) : Prop :=
  st.basefield = fmt_base.dec ∧ st.width = 0 ∧ st.showpos = false ∧ st.showpoint = false ∧
  st.loc = locale.classic

instance (st : ostream) : Decidable st.adjusted := by
  unfold ostream.adjusted; infer_instance

/-- What `next_field` writes for a writer: the opening bracket of its kind
when it is EMPTY, a comma when it is OPEN, nothing when it is CLOSED. -/
def writer.lead (w : writer) : List Nat :=
  match w.m_status with
  | status.EMPTY => if w.m_array then [91] else [123]
  | status.OPEN => [44]
  | status.CLOSED => []

/-- The bytes the text escaper emits for a field name written through a
writer on the stream `st`: the writer puts the stream in the classic locale
first. -/
def quote (signed_char : Bool) (st : ostream) (name : List Nat) : List Nat :=
  detail.quoted_on signed_char (detail.adjust_stream_settings st) name

/-- The value writer `vw` emits `out` for `value` on sinks whose upper-case
and show-base flags are `upper` and `showbase`: called on such a stream in the
state `adjust_stream_settings` establishes, it appends exactly the bytes `out`
and leaves the two flags as they are. -/
def emits {V : Type} (upper showbase : Bool) (vw : value_writer V) (value : V)
    (out : List Nat) : Prop :=
  ∀ st : ostream, st.adjusted → st.uppercase = upper → st.showbase = showbase →
    (vw st value).data = st.data ++ out ∧ (vw st value).uppercase = upper ∧
    (vw st value).showbase = showbase

/-- One call `write(name, value, value_writer)` on an object writer. -/
structure field_write (V : Type) where
  name : List Nat
  value : V
  vw : value_writer V

/-- The calls `write(name_i, value_i, vw_i)` on an object writer, in order. -/
def object_writer.write_fields {V : Type} (signed_char : Bool) (w : writer) (st : ostream)
    (fields : List (field_write V)) : writer × ostream :=
  fields.foldl (fun p f => object_writer.write signed_char p.1 p.2 (some f.name) f.value f.vw)
    (w, st)

/-- What `close` writes for a writer: both brackets of its kind when it is
EMPTY, the closing bracket when it is OPEN, nothing when it is CLOSED. -/
def writer.tail (w : writer) : List Nat :=
  match w.m_status with
  | status.EMPTY => if w.m_array then [91, 93] else [123, 125]
  | status.OPEN => if w.m_array then [93] else [125]
  | status.CLOSED => []

/-- The order EMPTY < OPEN < CLOSED of the emission status. -/
def status.rank : status → Nat
  | status.EMPTY => 0
  | status.OPEN => 1
  | status.CLOSED => 2

/-- The decimal representation of an integer: a minus sign for a negative
value, then the digits of the magnitude. -/
def dec_repr (v : Int) : List Nat :=
  (if v < 0 then [45] else []) ++ (to_digits 10 v.natAbs).map (fun d => 48 + d)

/-- Fields with a repeated name and a control character in a name. -/
def example_fields : List (field_write Int) :=
  [{ name := bytes "a", value := 1, vw := default_value_writer_signed 32 },
   { name := bytes "b\x01", value := -2, vw := default_value_writer_signed 32 },
   { name := bytes "a", value := 30, vw := default_value_writer_signed 32 }]

/-- An object writer on a fresh stream after `close()`. -/
def closed_object : writer × ostream :=
  (object_writer.new (ostream.fresh 0)).close (ostream.fresh 0)

/-- An array writer on a fresh stream after `close()`. -/
def closed_array : writer × ostream :=
  (array_writer.new (ostream.fresh 0)).close (ostream.fresh 0)

/-- The value of a hex digit character. -/
def hex_value (c : Nat) : Option Nat :=
  if 48 ≤ c ∧ c ≤ 57 then some (c - 48)
  else if 97 ≤ c ∧ c ≤ 102 then some (c - 87)
  else if 65 ≤ c ∧ c ≤ 70 then some (c - 55)
  else none

/-- The UTF-8 bytes of a code point below 65536. -/
def utf8 (n : Nat) : List Nat :=
  if n < 128 then [n]
  else if n < 2048 then [192 + n / 64, 128 + n % 64]
  else [224 + n / 4096, 128 + (n / 64) % 64, 128 + n % 64]

/-- State of the string literal decoder: in plain text, after a backslash,
or inside a `\\u` escape with `k` hex digits read whose value so far is
`acc`. -/
inductive unescape_state where
  | text
  | backslash
  | unicode (k acc : Nat)
deriving DecidableEq, Repr

/-- Decoder of the inside of a JSON string literal up to and including the
closing quote, which must be the last byte.  Surrogate escapes are not
decoded. -/
def unescape_run : unescape_state → List Nat → Option (List Nat)
  | _, [] => none
  | unescape_state.text, c :: rest =>
    if c = 34 then (if rest.isEmpty then some [] else none)
    else if c = 92 then unescape_run unescape_state.backslash rest
    else if c < 32 then none
    else (unescape_run unescape_state.text rest).map (fun t => c :: t)
  | unescape_state.backslash, e :: rest =>
    if e = 117 then unescape_run (unescape_state.unicode 0 0) rest
    else
      let r := unescape_run unescape_state.text rest
      if e = 34 then r.map (fun t => 34 :: t)
      else if e = 92 then r.map (fun t => 92 :: t)
      else if e = 47 then r.map (fun t => 47 :: t)
      else if e = 98 then r.map (fun t => 8 :: t)
      else if e = 102 then r.map (fun t => 12 :: t)
      else if e = 110 then r.map (fun t => 10 :: t)
      else if e = 114 then r.map (fun t => 13 :: t)
      else if e = 116 then r.map (fun t => 9 :: t)
      else none
  | unescape_state.unicode k acc, c :: rest =>
    match hex_value c with
    | none => none
    | some h =>
      let n := acc * 16 + h
      if k < 3 then unescape_run (unescape_state.unicode (k + 1) n) rest
      else if 55296 ≤ n ∧ n < 57344 then none
      else (unescape_run unescape_state.text rest).map (fun t => utf8 n ++ t)

/-- Decoder of a JSON string literal: the opening quote, the escaped text,
the closing quote. -/
def unescape : List Nat → Option (List Nat)
  | [] => none
  | c :: rest => if c = 34 then unescape_run unescape_state.text rest else none

/-! ## JSON syntax (RFC 8259) as a byte-level recogniser -/

/-- Control state of the JSON recogniser.  `value`: a value must start;
`arr_start`, `obj_start`: just after an opening bracket or brace; `key`: after a
comma in an object; `colon`: after a key; `after_value`: a value is complete;
`str`, `str_esc`, `str_hex`: inside a string (a key when the flag is set), after
a backslash, inside a `u` escape with the given number of hex digits to come;
`lit`: inside `true`, `false` or `null` with the given bytes to come; the
remaining states are the positions inside a number. -/
inductive json_state where
  | value
  | arr_start
  | obj_start
  | key
  | colon
  | after_value
  | str (is_key : Bool)
  | str_esc (is_key : Bool)
  | str_hex (is_key : Bool) (k : Nat)
  | lit (rest : List Nat)
  | minus
  | zero
  | int
  | dot
  | frac
  | exp_mark
  | exp_sign
  | exp
deriving DecidableEq, Repr

/-- JSON whitespace: space, tab, line feed, carriage return. -/
def is_ws (c : Nat) : Bool := c = 32 || c = 9 || c = 10 || c = 13

/-- A decimal digit character. -/
def is_digit (c : Nat) : Bool := decide (48 ≤ c ∧ c ≤ 57)

/-- A hex digit character of either case. -/
def is_hex_digit (c : Nat) : Bool :=
  is_digit c || decide (97 ≤ c ∧ c ≤ 102) || decide (65 ≤ c ∧ c ≤ 70)

/-- The first byte of a value: the state it leads to and the container kind
it opens, if any (`true` for an array). -/
def start_class (c : Nat) : Option (json_state × List Bool) :=
  if c = 123 then some (json_state.obj_start, [false])
  else if c = 91 then some (json_state.arr_start, [true])
  else if c = 34 then some (json_state.str false, [])
  else if c = 45 then some (json_state.minus, [])
  else if c = 48 then some (json_state.zero, [])
  else if 49 ≤ c ∧ c ≤ 57 then some (json_state.int, [])
  else if c = 116 then some (json_state.lit [114, 117, 101], [])
  else if c = 102 then some (json_state.lit [97, 108, 115, 101], [])
  else if c = 110 then some (json_state.lit [117, 108, 108], [])
  else none

/-- The first byte of a value; the stack holds the kinds of the open
containers, innermost first. -/
def start_value (stack : List Bool) (c : Nat) : Option (json_state × List Bool) :=
  match start_class c with
  | some p => some (p.1, p.2 ++ stack)
  | none => none

/-- The byte after a complete value: whitespace, or a comma or the closing
bracket of the innermost open container. -/
def end_value (stack : List Bool) (c : Nat) : Option (json_state × List Bool) :=
  if is_ws c then some (json_state.after_value, stack)
  else
    match stack with
    | [] => none
    | true :: below =>
      if c = 44 then some (json_state.value, true :: below)
      else if c = 93 then some (json_state.after_value, below)
      else none
    | false :: below =>
      if c = 44 then some (json_state.key, false :: below)
      else if c = 125 then some (json_state.after_value, below)
      else none

/-- One step of the recogniser; `none` is a syntax error. -/
def json_step : json_state → List Bool → Nat → Option (json_state × List Bool)
  | json_state.value, stack, c =>
    if is_ws c then some (json_state.value, stack) else start_value stack c
  | json_state.arr_start, stack, c =>
    if is_ws c then some (json_state.arr_start, stack)
    else if c = 93 then
      match stack with
      | [] => none
      | _ :: below => some (json_state.after_value, below)
    else start_value stack c
  | json_state.obj_start, stack, c =>
    if is_ws c then some (json_state.obj_start, stack)
    else if c = 125 then
      match stack with
      | [] => none
      | _ :: below => some (json_state.after_value, below)
    else if c = 34 then some (json_state.str true, stack)
    else none
  | json_state.key, stack, c =>
    if is_ws c then some (json_state.key, stack)
    else if c = 34 then some (json_state.str true, stack)
    else none
  | json_state.colon, stack, c =>
    if is_ws c then some (json_state.colon, stack)
    else if c = 58 then some (json_state.value, stack)
    else none
  | json_state.after_value, stack, c => end_value stack c
  | json_state.str k, stack, c =>
    if c = 34 then some (if k then json_state.colon else json_state.after_value, stack)
    else if c = 92 then some (json_state.str_esc k, stack)
    else if c < 32 then none
    else some (json_state.str k, stack)
  | json_state.str_esc k, stack, c =>
    if c = 117 then some (json_state.str_hex k 4, stack)
    else if c = 34 ∨ c = 92 ∨ c = 47 ∨ c = 98 ∨ c = 102 ∨ c = 110 ∨ c = 114 ∨ c = 116 then
      some (json_state.str k, stack)
    else none
  | json_state.str_hex k n, stack, c =>
    if is_hex_digit c then
      some (if n ≤ 1 then json_state.str k else json_state.str_hex k (n - 1), stack)
    else none
  | json_state.lit [], _, _ => none
  | json_state.lit (x :: rest), stack, c =>
    if c = x then
      some (if rest.isEmpty then json_state.after_value else json_state.lit rest, stack)
    else none
  | json_state.minus, stack, c =>
    if c = 48 then some (json_state.zero, stack)
    else if 49 ≤ c ∧ c ≤ 57 then some (json_state.int, stack)
    else none
  | json_state.zero, stack, c =>
    if c = 46 then some (json_state.dot, stack)
    else if c = 101 ∨ c = 69 then some (json_state.exp_mark, stack)
    else if is_digit c then none
    else end_value stack c
  | json_state.int, stack, c =>
    if is_digit c then some (json_state.int, stack)
    else if c = 46 then some (json_state.dot, stack)
    else if c = 101 ∨ c = 69 then some (json_state.exp_mark, stack)
    else end_value stack c
  | json_state.dot, stack, c =>
    if is_digit c then some (json_state.frac, stack) else none
  | json_state.frac, stack, c =>
    if is_digit c then some (json_state.frac, stack)
    else if c = 101 ∨ c = 69 then some (json_state.exp_mark, stack)
    else end_value stack c
  | json_state.exp_mark, stack, c =>
    if c = 43 ∨ c = 45 then some (json_state.exp_sign, stack)
    else if is_digit c then some (json_state.exp, stack)
    else none
  | json_state.exp_sign, stack, c =>
    if is_digit c then some (json_state.exp, stack) else none
  | json_state.exp, stack, c =>
    if is_digit c then some (json_state.exp, stack) else end_value stack c

/-- The recogniser run over a byte string. -/
def json_run : json_state → List Bool → List Nat → Option (json_state × List Bool)
  | q, stack, [] => some (q, stack)
  | q, stack, c :: rest =>
    match json_step q stack c with
    | some p => json_run p.1 p.2 rest
    | none => none

/-- The states in which a value is complete. -/
def json_complete : json_state → Bool
  | json_state.after_value => true
  | json_state.zero => true
  | json_state.int => true
  | json_state.frac => true
  | json_state.exp => true
  | _ => false

/-- A byte string is one syntactically valid JSON value (RFC 8259, at the
level of bytes: bytes from 128 are accepted inside strings as they are). -/
def json_valid (s : List Nat) : Bool :=
  match json_run json_state.value [] s with
  | some (q, []) => json_complete q
  | _ => false

/-- The text is a JSON value wherever a value may start: from the state in
which a value is expected, or just after an opening bracket, the recogniser
reads it to a state in which a value is complete, with the stack unchanged. -/
def accepts_value (t : List Nat) : Prop :=
  ∀ (q0 : json_state) (stack : List Bool),
    (q0 = json_state.value ∨ q0 = json_state.arr_start) →
    ∃ q, json_complete q = true ∧ json_run q0 stack t = some (q, stack)

/-- A byte string: every element is below 256. -/
def is_bytes (s : List Nat) : Prop := ∀ b ∈ s, b < 256

instance (s : List Nat) : Decidable (is_bytes s) := by
  unfold is_bytes; infer_instance

/-! ## Well-formed call sequences -/

/-- One call on a writer together with, for a nest operation, the calls made
on the child before it is closed.  A well-formed sequence of calls (every
child closed before its parent is used again, every writer closed at the
end) is a list of these.  The name is used when the writer is an object
writer; an array writer takes no name. -/
inductive call (V : Type) where
  | write (name : List Nat) (value : V) (vw : value_writer V)
  | write_array (name : List Nat) (range : List V) (vw : value_writer V)
  | nested_object (name : List Nat) (body : List (call V))
  | nested_array (name : List Nat) (body : List (call V))

mutual
/-- Runs one call on the writer `w`; a nest operation runs the calls on the
child and closes the child. -/
def run_call {V : Type} (signed_char : Bool) (w : writer) (st : ostream) :
    call V → writer × ostream
  | call.write name value vw =>
    if w.m_array then array_writer.write signed_char w st value vw
    else object_writer.write signed_char w st (some name) value vw
  | call.write_array name range vw =>
    if w.m_array then array_writer.write_array signed_char w st range vw
    else object_writer.write_array signed_char w st (some name) range vw
  | call.nested_object name body =>
    let r := if w.m_array then array_writer.nested_object w st
      else object_writer.nested_object signed_char w st name
    let c := run_calls signed_char r.2.1 r.2.2 body
    (r.1, (c.1.close c.2).2)
  | call.nested_array name body =>
    let r := if w.m_array then array_writer.nested_array w st
      else object_writer.nested_array signed_char w st name
    let c := run_calls signed_char r.2.1 r.2.2 body
    (r.1, (c.1.close c.2).2)
/-- Runs a list of calls on the writer `w`, in order. -/
def run_calls {V : Type} (signed_char : Bool) (w : writer) (st : ostream) :
    List (call V) → writer × ostream
  | [] => (w, st)
  | c :: cs =>
    let p := run_call signed_char w st c
    run_calls signed_char p.1 p.2 cs
end

/-- A fresh writer of the given kind on the stream, the calls, then `close()`. -/
def run_program {V : Type} (signed_char : Bool) (array : Bool) (st : ostream)
    (body : List (call V)) : writer × ostream :=
  let p := run_calls signed_char (writer.new st array) st body
  p.1.close p.2

mutual
/-- The preconditions on one call, on a sink whose upper-case and show-base
flags are `upper` and `showbase`: the name is a byte string and each value
writer emits a valid JSON value. -/
def call_ok {V : Type} (upper showbase : Bool) : call V → Prop
  | call.write name value vw =>
    is_bytes name ∧ ∃ out, emits upper showbase vw value out ∧ json_valid out = true
  | call.write_array name range vw =>
    is_bytes name ∧ ∀ x ∈ range, ∃ out, emits upper showbase vw x out ∧ json_valid out = true
  | call.nested_object name body => is_bytes name ∧ calls_ok upper showbase body
  | call.nested_array name body => is_bytes name ∧ calls_ok upper showbase body
/-- The preconditions on a list of calls. -/
def calls_ok {V : Type} (upper showbase : Bool) : List (call V) → Prop
  | [] => True
  | c :: cs => call_ok upper showbase c ∧ calls_ok upper showbase cs
end

/-- The recogniser configurations in which the next byte of the writer `w`
may arrive, `below` being the containers open around `w`: before the opening
bracket when `w` is EMPTY, after a complete member when it is OPEN. -/
def entry (w : writer) (below : List Bool) (q : json_state) (stack : List Bool) : Prop :=
  match w.m_status with
  | status.EMPTY => (q = json_state.value ∨ q = json_state.arr_start) ∧ stack = below
  | status.OPEN => json_complete q = true ∧ stack = w.m_array :: below
  | status.CLOSED => False

/-- The recogniser reads the text `t` from every configuration of entry of
`w` to a configuration of entry of `w2`. -/
def reads (w : writer) (t : List Nat) (w2 : writer) : Prop :=
  ∀ (below : List Bool) (q : json_state) (stack : List Bool), entry w below q stack →
    ∃ q2 stack2, json_run q stack t = some (q2, stack2) ∧ entry w2 below q2 stack2

/-- The effect of calls on the writer `w` and the stream `st` with result
`r`: the upper-case and show-base flags are as before, and the bytes appended
lead the recogniser from the configurations of entry of `w` to those of the
writer after the calls. -/
def step_ok (w : writer) (st : ostream) (r : writer × ostream) : Prop :=
  r.2.uppercase = st.uppercase ∧ r.2.showbase = st.showbase ∧
  ∃ t, r.2.data = st.data ++ t ∧ reads w t r.1

/-- A fresh stream on which the caller has set `std::showbase`. -/
def showbase_stream : ostream := { ostream.fresh 0 with showbase := true }

/-- The single call `write("\x01", null)`. -/
def control_name_program : List (call Unit) :=
  [call.write [1] () default_value_writer_null]

/-- The calls of the test `nesting_complex`, with integers for the values. -/
def nesting_program : List (call Int) :=
  [call.write [] 1 (default_value_writer_signed 32),
   call.nested_object []
     [call.write (bytes "field2") 2 (default_value_writer_signed 32),
      call.nested_array (bytes "nested2")
        [call.write [] 3 (default_value_writer_signed 32),
         call.nested_array []
           [call.write [] 5 (default_value_writer_signed 32), call.nested_object [] []],
         call.write_array [] [6, -7] (default_value_writer_signed 32)],
      call.nested_array (bytes "nestedempty") []]]

/-! ## String literals as the specification describes them -/

/-- A byte the escape rules leave as it is: not `0`, not in [1,31], not
127, not the quote and not the backslash. -/
def plain_byte (b : Nat) : Prop := 32 ≤ b ∧ b < 256 ∧ b ≠ 127 ∧ b ≠ 34 ∧ b ≠ 92

instance (b : Nat) : Decidable (plain_byte b) := by
  unfold plain_byte; infer_instance

/-- Position inside a string literal: in the text, after a backslash, or in
a `u` escape with `k` hex digits to come. -/
inductive literal_state where
  | text
  | backslash
  | hex (k : Nat)
deriving DecidableEq, Repr

/-- The inside of a well-formed string literal followed by its closing
quote, which is the last byte: no byte in [1,31] or equal to 127, no quote
other than after a backslash, and every backslash begins one of the escapes
`\"`, `\\`, `\n`, `\r`, `\t` or `\u` with four hex digits. -/
def literal_body : literal_state → List Nat → Bool
  | _, [] => false
  | literal_state.text, c :: rest =>
    if c = 34 then rest.isEmpty
    else if c = 92 then literal_body literal_state.backslash rest
    else if (1 ≤ c ∧ c ≤ 31) ∨ c = 127 then false
    else literal_body literal_state.text rest
  | literal_state.backslash, e :: rest =>
    if e = 117 then literal_body (literal_state.hex 4) rest
    else if e = 34 ∨ e = 92 ∨ e = 110 ∨ e = 114 ∨ e = 116 then
      literal_body literal_state.text rest
    else false
  | literal_state.hex k, c :: rest =>
    if is_hex_digit c then
      (if k ≤ 1 then literal_body literal_state.text rest
       else literal_body (literal_state.hex (k - 1)) rest)
    else false

/-- A well-formed JSON string literal in the sense of the specification: an
opening quote, then a well-formed inside up to the closing quote. -/
def well_formed_literal : List Nat → Bool
  | [] => false
  | c :: rest => decide (c = 34) && literal_body literal_state.text rest

/-! ## Floating-point values and decimal tokens -/

/-- A value of a floating-point type (IEEE 754): a finite number
`± significand * 2 ^ exponent`, an infinity, or a NaN with its payload. -/
inductive floating where
  | finite (negative : Bool) (significand : Nat) (exponent : Int)
  | infinity (negative : Bool)
  | nan (negative : Bool) (payload : Nat)
deriving DecidableEq, Repr

/-- The classification `std::isfinite` (the macro `MJW_ISFINITE`). -/
def floating.isfinite : floating → Bool
  | floating.finite _ _ _ => true
  | _ => false

/-- The specialisation `default_value_writer<FloatingPoint>`; `put_float` is
the formatted output `stream << value` of the stream for a floating-point
value, which the library leaves to the stream. -/
def default_value_writer_floating (put_float : ostream → floating → ostream) :
    value_writer floating :=
  fun stream value =>
    if !value.isfinite then default_value_writer_null stream ()
    else put_float stream value

/-- The number a sequence of digit values denotes in base ten. -/
def digits_value (ds : List Nat) : Nat := ds.foldl (fun a d => a * 10 + d) 0

/-- Reads a non-empty sequence of decimal digit characters as a number. -/
def parse_digits (ds : List Nat) : Option Nat :=
  if ds ≠ [] ∧ ds.all is_digit then some (digits_value (ds.map (fun c => c - 48))) else none

/-- Reads a decimal integer token: an optional minus sign, then digits. -/
def parse_dec : List Nat → Option Int
  | [] => none
  | c :: rest =>
    if c = 45 then
      match parse_digits rest with
      | some n => some (-(Int.ofNat n))
      | none => none
    else
      match parse_digits (c :: rest) with
      | some n => some (Int.ofNat n)
      | none => none

/-- A canonical decimal token for the integer `n`: a minus sign exactly when
`n` is negative, then digits only, at least one, without a leading zero
unless the token denotes `0` and is the single digit `0`. -/
def canonical_dec (n : Int) (t : List Nat) : Prop :=
  ∃ ds : List Nat, t = (if n < 0 then [45] else []) ++ ds ∧ ds ≠ [] ∧
    (∀ c ∈ ds, 48 ≤ c ∧ c ≤ 57) ∧ (ds.head? = some 48 → ds = [48]) ∧
    parse_dec t = some n

/-- The stream with its radix, show-plus and show-point flags, field width
and fill character replaced. -/
def ostream.reformat (st : ostream) (base : fmt_base) (showpos showpoint : Bool)
    (width fill : Nat) : ostream :=
  { st with basefield := base, showpos := showpos, showpoint := showpoint, width := width,
            fill := fill }

/-- What `write` appends for a decimal token on the writer `w`: nothing when
`w` is CLOSED, otherwise the bracket or comma and the token. -/
def writer.token_bytes (w : writer) (token : List Nat) : List Nat :=
  if w.m_status = status.CLOSED then [] else w.lead ++ token

/-- The fields of the test `invalid_floats`: positive infinity, negative
infinity and a NaN, written with the default floating-point value writer. -/
def invalid_float_fields (put_float : ostream → floating → ostream) :
    List (field_write floating) :=
  [{ name := bytes "posinfinity", value := floating.infinity false,
     vw := default_value_writer_floating put_float },
   { name := bytes "neginfinity", value := floating.infinity true,
     vw := default_value_writer_floating put_float },
   { name := bytes "nan", value := floating.nan false 1,
     vw := default_value_writer_floating put_float }]

/-! ## Nesting -/

/-- The stream as a nest operation or a write of an object writer leaves it
before the value: normalised, with the bracket or comma, the quoted name and
the colon appended. -/
def ostream.after_name (signed_char : Bool) (w : writer) (st : ostream) (name : List Nat) :
    ostream :=
  { detail.adjust_stream_settings st with
    data := st.data ++ (w.lead ++ (quote signed_char st name ++ [58])),
    adjustfield := fmt_adjust.right, fill := 48 }

/-- The stream as a nest operation or a write of an array writer leaves it
before the value: normalised, with the bracket or comma appended. -/
def ostream.after_lead (w : writer) (st : ostream) : ostream :=
  (detail.adjust_stream_settings st).write w.lead

/-- The explicit nesting path on an object writer: `nested_array(name)`, then
`write(x, vw)` on the child for each element in order, then `close()` on the
child.  The result is the parent and the stream. -/
def object_writer.nested_array_path {V : Type} (signed_char : Bool) (w : writer)
    (st : ostream) (name : List Nat) (range : List V) (vw : value_writer V) :
    writer × ostream :=
  let r := object_writer.nested_array signed_char w st name
  let c := range.foldl (fun p x => array_writer.write signed_char p.1 p.2 x vw) (r.2.1, r.2.2)
  (r.1, (c.1.close c.2).2)

/-- The explicit nesting path on an array writer. -/
def array_writer.nested_array_path {V : Type} (signed_char : Bool) (w : writer)
    (st : ostream) (range : List V) (vw : value_writer V) : writer × ostream :=
  let r := array_writer.nested_array w st
  let c := range.foldl (fun p x => array_writer.write signed_char p.1 p.2 x vw) (r.2.1, r.2.2)
  (r.1, (c.1.close c.2).2)

/-- A fresh stream on which the caller has set `std::uppercase`. -/
def uppercase_stream : ostream := { ostream.fresh 0 with uppercase := true }

/-- A fresh stream on which the caller has set the field width to 5. -/
def width_stream : ostream := { ostream.fresh 0 with width := 5 }


/-! ## Calls on a buffered_writer and the chunks it hands to the stream -/

namespace detail

/-- A call of a public member of `buffered_writer`: `operator<<(char)`,
`operator<<` of a string literal with the given characters, or `flush()`. -/
inductive buffered_call where
  | put_char (c : Nat)
  | put_literal (str : List Nat)
  | flush
deriving DecidableEq, Repr

/-- One call on a `buffered_writer<Size>`. -/
def buffered_writer.call (Size : Nat) (bw : buffered_writer) (st : ostream) :
    buffered_call → buffered_writer × ostream
  | buffered_call.put_char c => bw.put Size st c
  | buffered_call.put_literal str => bw.put_str Size st str
  | buffered_call.flush => bw.flush st

/-- A sequence of calls on a `buffered_writer<Size>`, in order. -/
def buffered_writer.calls (Size : Nat) (cs : List buffered_call) (bw : buffered_writer)
    (st : ostream) : buffered_writer × ostream :=
  cs.foldl (fun p c => p.1.call Size p.2 c) (bw, st)

/-- The index of the store `m_buffer[m_offset++] = c` in `operator<<(char)`:
the offset, or 0 after the flush of a full buffer. -/
def buffered_writer.store_index (Size : Nat) (bw : buffered_writer) : Nat :=
  if bw.m_offset = Size then 0 else bw.m_offset

/-- The member `flush()`, with a record of the bytes each call of
`m_stream.write` is given. -/
def buffered_writer.flush_logged (bw : buffered_writer) (st : ostream)
    (log : List (List Nat)) : buffered_writer × ostream × List (List Nat) :=
  ({ bw with m_offset := 0 }, st.write (bw.m_buffer.take bw.m_offset),
    log ++ [bw.m_buffer.take bw.m_offset])

/-- The member `operator<<(char c)`, with the record of the flushes. -/
def buffered_writer.put_logged (Size : Nat) (bw : buffered_writer) (st : ostream)
    (log : List (List Nat)) (c : Nat) : buffered_writer × ostream × List (List Nat) :=
  let p := if bw.m_offset = Size then bw.flush_logged st log else (bw, st, log)
  ({ m_buffer := p.1.m_buffer.set p.1.m_offset c, m_offset := p.1.m_offset + 1 }, p.2.1, p.2.2)

/-- The member `operator<<` for a string literal, with the record of the
flushes. -/
def buffered_writer.put_str_logged (Size : Nat) (bw : buffered_writer) (st : ostream)
    (log : List (List Nat)) (str : List Nat) : buffered_writer × ostream × List (List Nat) :=
  str.foldl (fun p c => buffered_writer.put_logged Size p.1 p.2.1 p.2.2 c) (bw, st, log)

/-- One iteration of the loop of `write_quoted_string`, with the record of
the flushes. -/
def write_quoted_char_logged (signed_char : Bool) (bw : buffered_writer) (st : ostream)
    (log : List (List Nat)) (c : Nat) : buffered_writer × ostream × List (List Nat) :=
  let v := char_value signed_char c
  if v = 34 then bw.put_str_logged 128 st log [92, 34]
  else if v = 92 then bw.put_str_logged 128 st log [92, 92]
  else if v = 10 then bw.put_str_logged 128 st log [92, 110]
  else if v = 13 then bw.put_str_logged 128 st log [92, 114]
  else if v = 9 then bw.put_str_logged 128 st log [92, 116]
  else if (0 < v ∧ v < 32) ∨ v = 127 then
    let p := bw.put_str_logged 128 st log [92, 117]
    let q := p.1.flush_logged p.2.1 p.2.2
    (q.1, (q.2.1.setw 4).put_unsigned (v % (2 ^ 32 : Int)).toNat, q.2.2)
  else bw.put_logged 128 st log c

/-- The loop of `write_quoted_string`, with the record of the flushes. -/
def write_quoted_loop_logged (signed_char : Bool) :
    List Nat → buffered_writer → ostream → List (List Nat) →
      buffered_writer × ostream × List (List Nat)
  | [], bw, st, log => (bw, st, log)
  | c :: rest, bw, st, log =>
    if c = 0 then (bw, st, log)
    else
      let p := write_quoted_char_logged signed_char bw st log c
      write_quoted_loop_logged signed_char rest p.1 p.2.1 p.2.2

/-- The function `write_quoted_string`, with the record of the bytes each of
its flushes hands to the stream. -/
def write_quoted_string_logged (signed_char : Bool) (st : ostream) (str : List Nat) :
    ostream × List (List Nat) :=
  let st := ((st.hex).right).setfill 48
  let p := (buffered_writer.new 128).put_logged 128 st [] 34
  let p := write_quoted_loop_logged signed_char str p.1 p.2.1 p.2.2
  let p := p.1.put_logged 128 p.2.1 p.2.2 34
  let p := p.1.flush_logged p.2.1 p.2.2
  (p.2.1.dec, p.2.2)

/-- A chunk a flush of `buffered_writer<Size>` may hand over: at least one
byte and at most `Size`. -/
def good_chunk (Size : Nat) (chunk : List Nat) : Prop :=
  1 ≤ chunk.length ∧ chunk.length ≤ Size

instance (Size : Nat) (chunk : List Nat) : Decidable (good_chunk Size chunk) := by
  unfold good_chunk; infer_instance

end detail

/-- A string longer than the staging buffer whose hex escape straddles the
buffer boundary: 126 letters `a`, the control character 1 and a letter `b`. -/
def straddling_string : List Nat := List.replicate 126 97 ++ [1, 98]

/-- A string that fills the staging buffer exactly: 126 letters `a`. -/
def filling_string : List Nat := List.replicate 126 97


namespace detail

/-- One iteration of the escaper loop with formatted output in place of the
staging buffer: every escaped character goes to the stream with `stream << `. -/
def write_quoted_char_formatted (signed_char : Bool) (st : ostream) (c : Nat) : ostream :=
  let v := char_value signed_char c
  if v = 34 then st.put_str [92, 34]
  else if v = 92 then st.put_str [92, 92]
  else if v = 10 then st.put_str [92, 110]
  else if v = 13 then st.put_str [92, 114]
  else if v = 9 then st.put_str [92, 116]
  else if (0 < v ∧ v < 32) ∨ v = 127 then
    ((st.put_str [92, 117]).setw 4).put_unsigned (v % (2 ^ 32 : Int)).toNat
  else st.put_char c

/-- The escaper loop with formatted output in place of the staging buffer. -/
def write_quoted_loop_formatted (signed_char : Bool) : List Nat → ostream → ostream
  | [], st => st
  | c :: rest, st =>
    if c = 0 then st
    else
      write_quoted_loop_formatted signed_char rest (write_quoted_char_formatted signed_char st c)

/-- The escaper with formatted output in place of the staging buffer. -/
def write_quoted_string_formatted (signed_char : Bool) (st : ostream) (str : List Nat) :
    ostream :=
  let st := ((st.hex).right).setfill 48
  let st := st.put_char 34
  let st := write_quoted_loop_formatted signed_char str st
  let st := st.put_char 34
  st.dec

end detail

/-! # Theorems -/

open detail

/-! ## The staging buffer and the escaper -/

theorem take_set_succ {α : Type} (l : List α) (n : Nat) (c : α) (h : n < l.length) :
    (l.set n c).take (n + 1) = l.take n ++ [c] := by
  induction l generalizing n with
  | nil => simp at h
  | cons x xs ih =>
    cases n with
    | zero => simp
    | succ k =>
      have hk : k < xs.length := by simpa using h
      simp [ih k hk]

theorem ostream.write_nil (st : ostream) : st.write [] = st := by
  simp [ostream.write]

theorem ostream.write_write (st : ostream) (a b : List Nat) :
    (st.write a).write b = st.write (a ++ b) := by
  simp [ostream.write]

theorem buffered_writer.inv_new (Size : Nat) : (buffered_writer.new Size).inv Size := by
  simp [buffered_writer.inv, buffered_writer.new]

theorem buffered_writer.commit_new (Size : Nat) (st : ostream) :
    (buffered_writer.new Size).commit st = st := by
  simp [buffered_writer.commit, buffered_writer.new, ostream.write]

theorem buffered_writer.flush_spec (Size : Nat) (bw : buffered_writer) (st : ostream)
    (h : bw.inv Size) :
    (bw.flush st).1.inv Size ∧ (bw.flush st).1.m_offset = 0 ∧ (bw.flush st).2 = bw.commit st := by
  refine ⟨?_, rfl, rfl⟩
  exact ⟨Nat.zero_le _, h.2⟩

theorem buffered_writer.commit_of_offset_zero (bw : buffered_writer) (st : ostream)
    (h : bw.m_offset = 0) : bw.commit st = st := by
  simp [buffered_writer.commit, h, ostream.write]

theorem buffered_writer.put_spec (Size : Nat) (hS : 0 < Size) (bw : buffered_writer)
    (st : ostream) (c : Nat) (h : bw.inv Size) :
    (buffered_writer.put Size bw st c).1.inv Size ∧
    (buffered_writer.put Size bw st c).1.commit (buffered_writer.put Size bw st c).2
      = (bw.commit st).write [c] := by
  obtain ⟨h1, h2⟩ := h
  unfold buffered_writer.put
  by_cases hfull : bw.m_offset = Size
  · simp only [hfull, if_true, buffered_writer.flush, buffered_writer.inv,
      buffered_writer.commit, List.length_set]
    refine ⟨⟨by omega, h2⟩, ?_⟩
    have : (bw.m_buffer.set 0 c).take (0 + 1) = [c] := by
      have := take_set_succ bw.m_buffer 0 c (by omega)
      simpa using this
    rw [this, ostream.write_write]
  · simp only [hfull, if_false, buffered_writer.inv, buffered_writer.commit, List.length_set]
    refine ⟨⟨by omega, h2⟩, ?_⟩
    have hlt : bw.m_offset < bw.m_buffer.length := by omega
    rw [take_set_succ _ _ _ hlt, ostream.write_write]

theorem buffered_writer.put_str_spec (Size : Nat) (hS : 0 < Size) (str : List Nat) :
    ∀ (bw : buffered_writer) (st : ostream), bw.inv Size →
    (buffered_writer.put_str Size bw st str).1.inv Size ∧
    (buffered_writer.put_str Size bw st str).1.commit (buffered_writer.put_str Size bw st str).2
      = (bw.commit st).write str := by
  induction str with
  | nil =>
    intro bw st h
    exact ⟨h, by simp [buffered_writer.put_str, ostream.write_nil]⟩
  | cons c cs ih =>
    intro bw st h
    have hp := buffered_writer.put_spec Size hS bw st c h
    have hr := ih (buffered_writer.put Size bw st c).1 (buffered_writer.put Size bw st c).2 hp.1
    have e : buffered_writer.put_str Size bw st (c :: cs)
        = buffered_writer.put_str Size (buffered_writer.put Size bw st c).1
            (buffered_writer.put Size bw st c).2 cs := rfl
    rw [e]
    refine ⟨hr.1, ?_⟩
    rw [hr.2, hp.2, ostream.write_write]
    rfl

theorem write_quoted_char_spec (sc : Bool) (bw : buffered_writer) (st : ostream) (c : Nat)
    (h : bw.inv 128) :
    (write_quoted_char sc bw st c).1.inv 128 ∧
    (write_quoted_char sc bw st c).1.commit (write_quoted_char sc bw st c).2
      = write_quoted_char_direct sc (bw.commit st) c := by
  unfold write_quoted_char write_quoted_char_direct
  simp only
  split_ifs
  · exact buffered_writer.put_str_spec 128 (by decide) _ bw st h
  · exact buffered_writer.put_str_spec 128 (by decide) _ bw st h
  · exact buffered_writer.put_str_spec 128 (by decide) _ bw st h
  · exact buffered_writer.put_str_spec 128 (by decide) _ bw st h
  · exact buffered_writer.put_str_spec 128 (by decide) _ bw st h
  · have hp := buffered_writer.put_str_spec 128 (by decide) [92, 117] bw st h
    have hf := buffered_writer.flush_spec 128 _ (buffered_writer.put_str 128 bw st [92, 117]).2 hp.1
    refine ⟨hf.1, ?_⟩
    rw [buffered_writer.commit_of_offset_zero _ _ hf.2.1, hf.2.2, hp.2]
  · exact buffered_writer.put_spec 128 (by decide) bw st c h

theorem write_quoted_loop_spec (sc : Bool) (str : List Nat) :
    ∀ (bw : buffered_writer) (st : ostream), bw.inv 128 →
    (write_quoted_loop sc str bw st).1.inv 128 ∧
    (write_quoted_loop sc str bw st).1.commit (write_quoted_loop sc str bw st).2
      = write_quoted_loop_direct sc str (bw.commit st) := by
  induction str with
  | nil => intro bw st h; exact ⟨h, rfl⟩
  | cons c cs ih =>
    intro bw st h
    by_cases hc : c = 0
    · simp only [write_quoted_loop, write_quoted_loop_direct, hc, if_true]
      exact ⟨h, trivial⟩
    · simp only [write_quoted_loop, write_quoted_loop_direct, hc, if_false]
      have hp := write_quoted_char_spec sc bw st c h
      have hr := ih _ (write_quoted_char sc bw st c).2 hp.1
      exact ⟨hr.1, by rw [hr.2, hp.2]⟩

theorem write_quoted_string_eq_direct (sc : Bool) (st : ostream) (str : List Nat) :
    write_quoted_string sc st str = write_quoted_string_direct sc st str := by
  unfold write_quoted_string write_quoted_string_direct
  simp only
  have h0 := buffered_writer.put_spec 128 (by decide) (buffered_writer.new 128)
    (((st.hex).right).setfill 48) 34 (buffered_writer.inv_new 128)
  rw [buffered_writer.commit_new] at h0
  generalize buffered_writer.put 128 (buffered_writer.new 128) (((st.hex).right).setfill 48) 34
    = p0 at h0 ⊢
  have h1 := write_quoted_loop_spec sc str p0.1 p0.2 h0.1
  generalize write_quoted_loop sc str p0.1 p0.2 = p1 at h1 ⊢
  have h2 := buffered_writer.put_spec 128 (by decide) p1.1 p1.2 34 h1.1
  generalize buffered_writer.put 128 p1.1 p1.2 34 = p2 at h2 ⊢
  have h3 := buffered_writer.flush_spec 128 p2.1 p2.2 h2.1
  rw [h3.2.2, h2.2, h1.2, h0.2]

theorem hex_field_eq (st : ostream) (v : Nat) (hb : st.basefield = fmt_base.hex)
    (ha : st.adjustfield = fmt_adjust.right) (hf : st.fill = 48) (hw : st.width = 4) :
    st.pad (st.base_mark v).1 ((st.base_mark v).2 ++ st.digits v)
      = hex_field st.uppercase st.showbase st.loc v := by
  simp [ostream.pad, ostream.base_mark, ostream.digits, hex_field, hb, ha, hf, hw]

theorem put_hex_escape_eq (st : ostream) (v : Nat) (hb : st.basefield = fmt_base.hex)
    (ha : st.adjustfield = fmt_adjust.right) (hf : st.fill = 48) :
    ((st.write [92, 117]).setw 4).put_unsigned v =
      { st with
        data := st.data ++ ([92, 117] ++ hex_field st.uppercase st.showbase st.loc v),
        width := 0 } := by
  have h := hex_field_eq ((st.write [92, 117]).setw 4) v hb ha hf rfl
  simp only [ostream.put_unsigned, h]
  simp [ostream.write, ostream.setw]

theorem write_quoted_char_direct_eq (sc : Bool) (st : ostream) (c : Nat)
    (hb : st.basefield = fmt_base.hex) (ha : st.adjustfield = fmt_adjust.right)
    (hf : st.fill = 48) :
    write_quoted_char_direct sc st c =
      { st with
        data := st.data ++ escaped_char sc st.uppercase st.showbase st.loc c,
        width := if is_control sc c = true then 0 else st.width } := by
  unfold write_quoted_char_direct escaped_char is_control
  simp only [decide_eq_true_eq]
  split_ifs with h1 h2 h3 h4 h5 h6 h7 h7 h7 h7 h7 h7 h7
  all_goals first
    | rfl
    | exact put_hex_escape_eq st _ hb ha hf
    | (exfalso; tauto)

theorem write_quoted_loop_direct_eq (sc : Bool) (s : List Nat) :
    ∀ st : ostream, st.basefield = fmt_base.hex → st.adjustfield = fmt_adjust.right →
      st.fill = 48 →
    write_quoted_loop_direct sc s st =
      { st with
        data := st.data ++ (c_str s).flatMap (escaped_char sc st.uppercase st.showbase st.loc),
        width := if has_control sc s = true then 0 else st.width } := by
  induction s with
  | nil => intro st _ _ _; simp [write_quoted_loop_direct, c_str, has_control]
  | cons c cs ih =>
    intro st hb ha hf
    by_cases hc : c = 0
    · simp [write_quoted_loop_direct, c_str, has_control, hc]
    · simp only [write_quoted_loop_direct, hc, if_false]
      rw [write_quoted_char_direct_eq sc st c hb ha hf]
      rw [ih { st with
          data := st.data ++ escaped_char sc st.uppercase st.showbase st.loc c,
          width := if is_control sc c = true then 0 else st.width } hb ha hf]
      by_cases hk : is_control sc c = true <;>
        simp [c_str, has_control, hc, hk, List.takeWhile_cons, List.append_assoc]

theorem write_quoted_string_eq (sc : Bool) (st : ostream) (s : List Nat) :
    write_quoted_string sc st s =
      { st with
        data := st.data ++ quoted_on sc st s,
        basefield := fmt_base.dec, adjustfield := fmt_adjust.right, fill := 48,
        width := if has_control sc s = true then 0 else st.width } := by
  rw [write_quoted_string_eq_direct]
  unfold write_quoted_string_direct
  simp only
  rw [write_quoted_loop_direct_eq sc s _ rfl rfl rfl]
  simp [ostream.write, ostream.dec, ostream.hex, ostream.right, ostream.setfill, quoted_on]

theorem escaped_char_eq_esc (sc : Bool) (c : Nat) (h1 : c < 256) :
    escaped_char sc false false locale.classic c = esc c := by
  interval_cases c <;> cases sc <;> decide

theorem c_str_of_nul_free (s : List Nat) (hs : nul_free s) : c_str s = s := by
  unfold c_str
  rw [List.takeWhile_eq_self_iff]
  intro b hb
  have := (hs b hb).1
  simp; omega

theorem quoted_on_canonical (sc : Bool) (st : ostream) (s : List Nat)
    (hu : st.uppercase = false) (hsb : st.showbase = false) (hl : st.loc = locale.classic)
    (hs : nul_free s) :
    quoted_on sc st s = [34] ++ s.flatMap esc ++ [34] := by
  unfold quoted_on
  rw [c_str_of_nul_free s hs, hu, hsb, hl]
  congr 2
  apply List.flatMap_congr
  intro b hb
  exact escaped_char_eq_esc sc b (hs b hb).2

/-- With the upper-case and show-base flags of the sink clear and the classic locale,
whatever the radix, adjustment, width, fill and other flags are, the text escaper appends
for a NUL-free byte string `s` a quote, the escapes of the bytes of `s` in order, and a
quote; code 31 gives `\u001f`, code 127 gives `\u007f`, code 32 is written as it is, and the
empty string gives two quotes. -/
theorem escaper_output_of_flags_clear (sc : Bool) (st : ostream) (s : List Nat)
    (hu : st.uppercase = false) (hsb : st.showbase = false) (hl : st.loc = locale.classic)
    (hs : nul_free s) :
    (write_quoted_string sc st s).data = st.data ++ ([34] ++ s.flatMap esc ++ [34]) ∧
    esc 31 = bytes "\\u001f" ∧ esc 127 = bytes "\\u007f" ∧ esc 32 = bytes " " ∧
    esc 34 = bytes "\\\"" ∧ esc 92 = bytes "\\\\" ∧ esc 10 = bytes "\\n" ∧
    esc 13 = bytes "\\r" ∧ esc 9 = bytes "\\t" ∧
    (write_quoted_string sc st []).data = st.data ++ bytes "\"\"" := by
  refine ⟨?_, by decide, by decide, by decide, by decide, by decide, by decide, by decide,
    by decide, ?_⟩
  · rw [write_quoted_string_eq]
    simp only [quoted_on_canonical sc st s hu hsb hl hs]
  · rw [write_quoted_string_eq]
    rfl

theorem escaper_output_of_flags_clear_witness :
    nul_free (bytes "a\x01\x1f\x7f b\n") ∧
    (write_quoted_string true
        (write_quoted_string true (adjust_stream_settings (ostream.fresh 0)) (bytes "k"))
        (bytes "a\x01\x1f\x7f b\n")).data
      = bytes "\"k\"\"a\\u0001\\u001f\\u007f b\\n\"" :=
  ⟨by decide,
    ((escaper_output_of_flags_clear true
      (write_quoted_string true (adjust_stream_settings (ostream.fresh 0)) (bytes "k"))
      (bytes "a\x01\x1f\x7f b\n") (by decide) (by decide) (by decide) (by decide)).1).trans
      (by decide)⟩

/-- C9: on a sink in the state `adjust_stream_settings` establishes that has
`std::showbase` set, the text escaper appends `"\u00x1"` for the NUL-free string `"\x01"`,
where the escape rules give `"\u0001"`; with `std::uppercase` set it appends `"\u001F"` for
`"\x1f"`, where the rules give `"\u001f"`.  On a fresh stream it appends what the rules
give. -/
theorem C9_escape_differs_with_showbase :
    (adjust_stream_settings showbase_stream).adjusted ∧
    nul_free [1] ∧
    (write_quoted_string false
        (adjust_stream_settings showbase_stream) [1]).data
      = bytes "\"\\u00x1\"" ∧
    (write_quoted_string true
        (adjust_stream_settings showbase_stream) [1]).data
      = bytes "\"\\u00x1\"" ∧
    bytes "\"" ++ [1].flatMap esc ++ bytes "\"" = bytes "\"\\u0001\"" ∧
    (adjust_stream_settings uppercase_stream).adjusted ∧
    nul_free [31] ∧
    (write_quoted_string false
        (adjust_stream_settings uppercase_stream) [31]).data
      = bytes "\"\\u001F\"" ∧
    bytes "\"" ++ [31].flatMap esc ++ bytes "\"" = bytes "\"\\u001f\"" ∧
    (write_quoted_string false (ostream.fresh 0) [1]).data = bytes "\"\\u0001\"" := by
  decide

/-! ## The writer state machine -/

theorem ostream.pad_of_width_zero (st : ostream) (hw : st.width = 0) (lead body : List Nat) :
    st.pad lead body = lead ++ body := by
  unfold ostream.pad
  cases st.adjustfield <;> simp [hw]

theorem ostream.put_str_of_width_zero (st : ostream) (hw : st.width = 0) (s : List Nat) :
    st.put_str s = st.write s := by
  unfold ostream.put_str ostream.write
  rw [ostream.pad_of_width_zero st hw, ← hw]
  rfl

theorem ostream.put_char_of_width_zero (st : ostream) (hw : st.width = 0) (c : Nat) :
    st.put_char c = st.write [c] :=
  ostream.put_str_of_width_zero st hw [c]

theorem adjust_stream_settings_adjusted (st : ostream) :
    (adjust_stream_settings st).adjusted := by
  simp [ostream.adjusted, adjust_stream_settings, ostream.imbue, ostream.dec, ostream.setw]

theorem adjust_stream_settings_of_adjusted (st : ostream) (h : st.adjusted) :
    adjust_stream_settings st = st := by
  obtain ⟨h1, h2, h3, h4, h5⟩ := h
  cases st
  simp only at h1 h2 h3 h4 h5
  subst h1 h2 h3 h4 h5
  rfl

theorem ostream.adjusted_write (st : ostream) (h : st.adjusted) (buf : List Nat) :
    (st.write buf).adjusted := h

theorem writer.next_field_eq (w : writer) (st : ostream) (h : st.adjusted) :
    w.next_field st = ({ w with m_status := status.OPEN }, st.write w.lead) := by
  unfold writer.next_field writer.lead writer.write_opening_bracket
  cases hs : w.m_status <;> cases ha : w.m_array <;>
    simp [ostream.put_char_of_width_zero st h.2.1, ostream.write_nil]

theorem writer.write_field_name_eq (sc : Bool) (st : ostream) (h : st.adjusted)
    (name : List Nat) :
    writer.write_field_name sc st name =
      { st with
        data := st.data ++ (quoted_on sc st name ++ [58]),
        adjustfield := fmt_adjust.right, fill := 48 } := by
  unfold writer.write_field_name
  rw [ostream.put_char_of_width_zero, write_quoted_string_eq]
  · obtain ⟨h1, h2, h3, h4, h5⟩ := h
    simp [ostream.write, h1, h2]
  · rw [write_quoted_string_eq]
    simp [h.2.1]

theorem writer.write_helper_some {V : Type} (sc : Bool) (w : writer) (st : ostream)
    (name : List Nat) (v : V) (vw : value_writer V) (hw : w.m_status ≠ status.CLOSED) :
    w.write_helper sc st (some name) v vw =
      ({ w with m_status := status.OPEN },
        vw { adjust_stream_settings st with
             data := st.data ++ (w.lead ++ (quote sc st name ++ [58])),
             adjustfield := fmt_adjust.right, fill := 48 } v) := by
  unfold writer.write_helper
  simp only [hw, if_false]
  rw [writer.next_field_eq w _ (adjust_stream_settings_adjusted st)]
  simp only
  rw [writer.write_field_name_eq sc _
    (ostream.adjusted_write _ (adjust_stream_settings_adjusted st) _)]
  simp [ostream.write, quote, quoted_on, adjust_stream_settings, ostream.imbue, ostream.dec,
    ostream.setw]

theorem writer.write_helper_none {V : Type} (sc : Bool) (w : writer) (st : ostream)
    (v : V) (vw : value_writer V) (hw : w.m_status ≠ status.CLOSED) :
    w.write_helper sc st none v vw =
      ({ w with m_status := status.OPEN }, vw ((adjust_stream_settings st).write w.lead) v) := by
  unfold writer.write_helper
  simp only [hw, if_false]
  rw [writer.next_field_eq w _ (adjust_stream_settings_adjusted st)]

theorem writer.close_eq (w : writer) (st : ostream) (hw : w.m_status ≠ status.CLOSED) :
    w.close st =
      ({ w with m_status := status.CLOSED }, (adjust_stream_settings st).write w.tail) := by
  have hz : (adjust_stream_settings st).width = 0 := (adjust_stream_settings_adjusted st).2.1
  unfold writer.close writer.tail writer.write_opening_bracket writer.write_closing_bracket
  cases hs : w.m_status <;> cases ha : w.m_array <;>
    simp_all [ostream.put_char_of_width_zero, ostream.write_write] <;>
    simp [ostream.put_char, ostream.put_str, ostream.write, ostream.pad_of_width_zero, hz]

theorem writer.close_closed (w : writer) (st : ostream) (hw : w.m_status = status.CLOSED) :
    w.close st = (w, st) := by
  simp [writer.close, hw]

theorem writer.close_status (w : writer) (st : ostream) :
    (w.close st).1.m_status = status.CLOSED := by
  by_cases hw : w.m_status = status.CLOSED
  · rw [writer.close_closed w st hw]; exact hw
  · rw [writer.close_eq w st hw]

/-- C4: `close()` on a fresh writer appends exactly `{}` for an object writer and `[]` for
an array writer, and leaves the writer CLOSED. -/
theorem C4_close_fresh (st : ostream) :
    ((object_writer.new st).close st).2.data = st.data ++ bytes "\x7b\x7d" ∧
    ((object_writer.new st).close st).1.m_status = status.CLOSED ∧
    ((array_writer.new st).close st).2.data = st.data ++ bytes "[]" ∧
    ((array_writer.new st).close st).1.m_status = status.CLOSED ∧
    (object_writer.new st).m_status = status.EMPTY ∧
    (array_writer.new st).m_status = status.EMPTY := by
  refine ⟨?_, writer.close_status _ _, ?_, writer.close_status _ _, rfl, rfl⟩
  · rw [writer.close_eq _ _ (by simp [object_writer.new, writer.new])]
    rfl
  · rw [writer.close_eq _ _ (by simp [array_writer.new, writer.new])]
    rfl

/-- C5: `close()` is idempotent: after a first `close()`, any number of further `close()`
calls leaves the writer and the stream (contents and formatting state) as the first call
left them. -/
theorem C5_close_idempotent (w : writer) (st : ostream) (k : Nat) :
    (fun p : writer × ostream => p.1.close p.2)^[k] (w.close st) = w.close st := by
  induction k with
  | zero => rfl
  | succ n ih =>
    rw [Function.iterate_succ_apply', ih]
    exact writer.close_closed _ _ (writer.close_status w st)

/-- C6: on a CLOSED writer every write operation (`write` and `write_array` of both
writer kinds, for any field name, value and value writer) returns the writer and the
stream unchanged: nothing is appended, the value writer has no effect, the status stays
CLOSED. -/
theorem C6_write_after_close {V : Type} (sc : Bool) (w : writer) (st : ostream)
    (hw : w.m_status = status.CLOSED) (name : Option (List Nat)) (v : V) (range : List V)
    (vw : value_writer V) :
    object_writer.write sc w st name v vw = (w, st) ∧
    array_writer.write sc w st v vw = (w, st) ∧
    object_writer.write_array sc w st name range vw = (w, st) ∧
    array_writer.write_array sc w st range vw = (w, st) := by
  simp [object_writer.write, array_writer.write, object_writer.write_array,
    array_writer.write_array, writer.write_helper, hw]

/-! ## Writes with value writers -/

theorem intercalate_cons {α : Type} (sep a : List α) (l : List (List α)) :
    List.intercalate sep (a :: l) = a ++ l.flatMap (fun x => sep ++ x) := by
  induction l generalizing a with
  | nil => simp [List.intercalate]
  | cons b l ih =>
    have h := ih b
    simp only [List.intercalate, List.intersperse_cons₂, List.flatten_cons,
      List.flatMap_cons, List.append_assoc] at h ⊢
    cases l with
    | nil => simp
    | cons c l => simp only [List.intersperse_cons₂, List.flatten_cons] at h ⊢; rw [h]

theorem writer.set_open_of_open (w : writer) (h : w.m_status = status.OPEN) :
    { w with m_status := status.OPEN } = w := by
  cases w; simp only at h; subst h; rfl

theorem adjust_stream_settings_data (st : ostream) :
    (adjust_stream_settings st).data = st.data := rfl

theorem writer.close_data (w : writer) (st : ostream) :
    (w.close st).2.data = st.data ++ w.tail := by
  by_cases hw : w.m_status = status.CLOSED
  · rw [writer.close_closed w st hw]; simp [writer.tail, hw]
  · rw [writer.close_eq w st hw]; rfl

theorem writer.close_flags (w : writer) (st : ostream) :
    (w.close st).2.uppercase = st.uppercase ∧ (w.close st).2.showbase = st.showbase := by
  by_cases hw : w.m_status = status.CLOSED
  · rw [writer.close_closed w st hw]; exact ⟨rfl, rfl⟩
  · rw [writer.close_eq w st hw]; exact ⟨rfl, rfl⟩

theorem quote_congr (sc : Bool) (st st2 : ostream) (name : List Nat)
    (hu : st2.uppercase = st.uppercase) (hsb : st2.showbase = st.showbase) :
    quote sc st2 name = quote sc st name := by
  simp [quote, quoted_on, adjust_stream_settings, ostream.imbue, ostream.dec, ostream.setw,
    hu, hsb]

theorem writer.write_some_step {V : Type} (sc : Bool) (w : writer) (st : ostream)
    (name : List Nat) (v : V) (vw : value_writer V) (out : List Nat)
    (hw : w.m_status ≠ status.CLOSED) (he : emits st.uppercase st.showbase vw v out) :
    (w.write_helper sc st (some name) v vw).1 = { w with m_status := status.OPEN } ∧
    (w.write_helper sc st (some name) v vw).2.data
      = st.data ++ (w.lead ++ (quote sc st name ++ [58] ++ out)) ∧
    (w.write_helper sc st (some name) v vw).2.uppercase = st.uppercase ∧
    (w.write_helper sc st (some name) v vw).2.showbase = st.showbase := by
  rw [writer.write_helper_some sc w st name v vw hw]
  have hadj : ostream.adjusted { adjust_stream_settings st with
      data := st.data ++ (w.lead ++ (quote sc st name ++ [58])),
      adjustfield := fmt_adjust.right, fill := 48 } := adjust_stream_settings_adjusted st
  obtain ⟨h1, h2, h3⟩ := he _ hadj rfl rfl
  refine ⟨rfl, ?_, h2, h3⟩
  rw [h1]; simp

theorem writer.write_none_step {V : Type} (sc : Bool) (w : writer) (st : ostream)
    (v : V) (vw : value_writer V) (out : List Nat)
    (hw : w.m_status ≠ status.CLOSED) (he : emits st.uppercase st.showbase vw v out) :
    (w.write_helper sc st none v vw).1 = { w with m_status := status.OPEN } ∧
    (w.write_helper sc st none v vw).2.data = st.data ++ (w.lead ++ out) ∧
    (w.write_helper sc st none v vw).2.uppercase = st.uppercase ∧
    (w.write_helper sc st none v vw).2.showbase = st.showbase := by
  rw [writer.write_helper_none sc w st v vw hw]
  obtain ⟨h1, h2, h3⟩ := he ((adjust_stream_settings st).write w.lead)
    (ostream.adjusted_write _ (adjust_stream_settings_adjusted st) _) rfl rfl
  refine ⟨rfl, ?_, h2, h3⟩
  rw [h1]; simp [ostream.write, adjust_stream_settings_data]

theorem array_writes_open {V : Type} (sc : Bool) (vw : value_writer V) (e : V → List Nat)
    (xs : List V) :
    ∀ (w : writer) (st : ostream), w.m_status = status.OPEN →
      (∀ x ∈ xs, emits st.uppercase st.showbase vw x (e x)) →
      (xs.foldl (fun p x => array_writer.write sc p.1 p.2 x vw) (w, st)).1 = w ∧
      (xs.foldl (fun p x => array_writer.write sc p.1 p.2 x vw) (w, st)).2.data
        = st.data ++ xs.flatMap (fun x => [44] ++ e x) ∧
      (xs.foldl (fun p x => array_writer.write sc p.1 p.2 x vw) (w, st)).2.uppercase
        = st.uppercase ∧
      (xs.foldl (fun p x => array_writer.write sc p.1 p.2 x vw) (w, st)).2.showbase
        = st.showbase := by
  induction xs with
  | nil => intro w st _ _; simp
  | cons x xs ih =>
    intro w st hw he
    obtain ⟨s1, s2, s3, s4⟩ := writer.write_none_step sc w st x vw (e x) (by simp [hw])
      (he x (List.mem_cons_self _ _))
    rw [writer.set_open_of_open w hw] at s1
    have hfold : (x :: xs).foldl (fun p x => array_writer.write sc p.1 p.2 x vw) (w, st)
        = xs.foldl (fun p x => array_writer.write sc p.1 p.2 x vw)
            (w, (w.write_helper sc st none x vw).2) := by
      rw [List.foldl_cons]
      exact congrArg (fun p => xs.foldl (fun p x => array_writer.write sc p.1 p.2 x vw) p)
        (Prod.ext s1 rfl)
    rw [hfold]
    obtain ⟨r1, r2, r3, r4⟩ := ih w (w.write_helper sc st none x vw).2 hw
      (fun y hy => by rw [s3, s4]; exact he y (List.mem_cons_of_mem _ hy))
    refine ⟨r1, ?_, r3.trans s3, r4.trans s4⟩
    rw [r2, s2]
    simp [writer.lead, hw]

theorem write_array_spec {V : Type} (sc : Bool) (st : ostream) (xs : List V)
    (vw : value_writer V) (e : V → List Nat)
    (he : ∀ x ∈ xs, emits st.uppercase st.showbase vw x (e x)) :
    (write_array sc st xs vw).data
      = st.data ++ ([91] ++ List.intercalate [44] (xs.map e) ++ [93]) ∧
    (write_array sc st xs vw).uppercase = st.uppercase ∧
    (write_array sc st xs vw).showbase = st.showbase := by
  unfold write_array
  simp only
  refine ⟨?_, ?_⟩
  · rw [writer.close_data]
    cases xs with
    | nil => simp [writer.tail, array_writer.new, writer.new]; rfl
    | cons x xs =>
      obtain ⟨s1, s2, s3, s4⟩ := writer.write_none_step sc (array_writer.new st) st x vw (e x)
        (by simp [array_writer.new, writer.new]) (he x (List.mem_cons_self _ _))
      have hfold : (x :: xs).foldl (fun p x => array_writer.write sc p.1 p.2 x vw)
          (array_writer.new st, st)
          = xs.foldl (fun p x => array_writer.write sc p.1 p.2 x vw)
              ({ array_writer.new st with m_status := status.OPEN },
                ((array_writer.new st).write_helper sc st none x vw).2) := by
        rw [List.foldl_cons]
        exact congrArg (fun p => xs.foldl (fun p x => array_writer.write sc p.1 p.2 x vw) p)
          (Prod.ext s1 rfl)
      rw [hfold]
      obtain ⟨r1, r2, _, _⟩ := array_writes_open sc vw e xs
        { array_writer.new st with m_status := status.OPEN }
        ((array_writer.new st).write_helper sc st none x vw).2 rfl
        (fun y hy => by rw [s3, s4]; exact he y (List.mem_cons_of_mem _ hy))
      rw [r1, r2, s2]
      simp [writer.lead, writer.tail, array_writer.new, writer.new, intercalate_cons,
        List.flatMap_map]
  · have hflags : ∀ (w : writer), w.m_status ≠ status.CLOSED →
        (xs.foldl (fun p x => array_writer.write sc p.1 p.2 x vw) (w, st)).2.uppercase
          = st.uppercase ∧
        (xs.foldl (fun p x => array_writer.write sc p.1 p.2 x vw) (w, st)).2.showbase
          = st.showbase := by
      intro w hw
      cases xs with
      | nil => exact ⟨rfl, rfl⟩
      | cons x xs =>
        obtain ⟨s1, s2, s3, s4⟩ := writer.write_none_step sc w st x vw (e x) hw
          (he x (List.mem_cons_self _ _))
        have hfold : (x :: xs).foldl (fun p x => array_writer.write sc p.1 p.2 x vw) (w, st)
            = xs.foldl (fun p x => array_writer.write sc p.1 p.2 x vw)
                ({ w with m_status := status.OPEN }, (w.write_helper sc st none x vw).2) := by
          rw [List.foldl_cons]
          exact congrArg (fun p => xs.foldl (fun p x => array_writer.write sc p.1 p.2 x vw) p)
            (Prod.ext s1 rfl)
        rw [hfold]
        obtain ⟨_, _, r3, r4⟩ := array_writes_open sc vw e xs
          { w with m_status := status.OPEN } (w.write_helper sc st none x vw).2 rfl
          (fun y hy => by rw [s3, s4]; exact he y (List.mem_cons_of_mem _ hy))
        exact ⟨r3.trans s3, r4.trans s4⟩
    obtain ⟨f1, f2⟩ := hflags (array_writer.new st) (by simp [array_writer.new, writer.new])
    obtain ⟨c1, c2⟩ := writer.close_flags
      (xs.foldl (fun p x => array_writer.write sc p.1 p.2 x vw) (array_writer.new st, st)).1
      (xs.foldl (fun p x => array_writer.write sc p.1 p.2 x vw) (array_writer.new st, st)).2
    exact ⟨c1.trans f1, c2.trans f2⟩

theorem emits_range_writer {V : Type} (sc up sb : Bool) (xs : List V) (vw : value_writer V)
    (e : V → List Nat) (he : ∀ x ∈ xs, emits up sb vw x (e x)) :
    emits up sb (range_writer sc vw) xs ([91] ++ List.intercalate [44] (xs.map e) ++ [93]) := by
  intro st _ hu hs
  subst hu hs
  exact write_array_spec sc st xs vw e he

/-- C3: the free function `write_array` appends an opening bracket, the encodings of the
elements in iteration order separated by single commas, and a closing bracket; for the
empty range it appends exactly `[]`. -/
theorem C3_write_array {V : Type} (sc : Bool) (st : ostream) (xs : List V)
    (vw : value_writer V) (e : V → List Nat)
    (he : ∀ x ∈ xs, emits st.uppercase st.showbase vw x (e x)) :
    (write_array sc st xs vw).data
      = st.data ++ (bytes "[" ++ List.intercalate (bytes ",") (xs.map e) ++ bytes "]") ∧
    (write_array sc st [] vw).data = st.data ++ bytes "[]" :=
  ⟨(write_array_spec sc st xs vw e he).1,
   (write_array_spec sc st [] vw e (fun _ h => absurd h (List.not_mem_nil _))).1⟩

/-! ## Default value writers -/

theorem to_digits_aux_lt (base : Nat) (hb : 0 < base) :
    ∀ (fuel v : Nat) (acc : List Nat), (∀ d ∈ acc, d < base) →
      ∀ d ∈ to_digits_aux base fuel v acc, d < base := by
  intro fuel
  induction fuel with
  | zero => intro v acc h; simpa [to_digits_aux] using h
  | succ n ih =>
    intro v acc h
    have hacc : ∀ d ∈ (v % base) :: acc, d < base := by
      intro d hd
      rcases List.mem_cons.mp hd with rfl | hd
      · exact Nat.mod_lt _ hb
      · exact h d hd
    unfold to_digits_aux
    split_ifs
    · exact hacc
    · exact ih _ _ hacc

theorem to_digits_lt (base : Nat) (hb : 0 < base) (v : Nat) :
    ∀ d ∈ to_digits base v, d < base :=
  to_digits_aux_lt base hb _ _ [] (by simp)

theorem group_rev_nil (sep fuel : Nat) (ds : List Nat) : group_rev sep fuel [] ds = ds := by
  cases fuel <;> rfl

theorem ostream.digits_dec (st : ostream) (v : Nat) (hb : st.basefield = fmt_base.dec)
    (hl : st.loc = locale.classic) :
    st.digits v = (to_digits 10 v).map (fun d => 48 + d) := by
  unfold ostream.digits
  simp only [hb, hl, locale.classic, group_rev_nil, List.reverse_reverse]
  apply List.map_congr_left
  intro d hd
  have := to_digits_lt 10 (by decide) v d hd
  simp [digit_char, this]

theorem put_signed_adjusted (st : ostream) (h : st.adjusted) (nbits : Nat) (v : Int) :
    st.put_signed nbits v = st.write (dec_repr v) := by
  have hd := ostream.digits_dec st v.natAbs h.1 h.2.2.2.2
  have hp := ostream.pad_of_width_zero st h.2.1
  obtain ⟨h1, h2, h3, h4, h5⟩ := h
  cases st
  simp only at h1 h2 h3 h4 h5
  subst h1 h2 h3 h4 h5
  simp only [ostream.put_signed, hp, hd, dec_repr, ostream.write]
  simp

theorem put_unsigned_adjusted (st : ostream) (h : st.adjusted) (v : Nat) :
    st.put_unsigned v = st.write (dec_repr v) := by
  have hd := ostream.digits_dec st v h.1 h.2.2.2.2
  have hp := ostream.pad_of_width_zero st h.2.1
  have hm : st.base_mark v = ([], []) := by
    unfold ostream.base_mark
    split_ifs <;> simp [h.1]
  obtain ⟨h1, h2, h3, h4, h5⟩ := h
  cases st
  simp only at h1 h2 h3 h4 h5
  subst h1 h2 h3 h4 h5
  simp only [ostream.put_unsigned, hp, hd, hm, dec_repr, ostream.write]
  simp

theorem emits_signed (up sb : Bool) (nbits : Nat) (v : Int) :
    emits up sb (default_value_writer_signed nbits) v (dec_repr v) := by
  intro st h hu hs
  simp [default_value_writer_signed, put_signed_adjusted st h, ostream.write, hu, hs]

theorem emits_unsigned (up sb : Bool) (v : Nat) :
    emits up sb default_value_writer_unsigned v (dec_repr v) := by
  intro st h hu hs
  simp [default_value_writer_unsigned, put_unsigned_adjusted st h, ostream.write, hu, hs]

theorem emits_null (up sb : Bool) : emits up sb default_value_writer_null () (bytes "null") := by
  intro st h hu hs
  simp [default_value_writer_null, ostream.put_str_of_width_zero st h.2.1, ostream.write, hu, hs]

theorem emits_bool (up sb : Bool) (b : Bool) :
    emits up sb default_value_writer_bool b (if b then bytes "true" else bytes "false") := by
  intro st h hu hs
  cases b <;>
    simp [default_value_writer_bool, ostream.put_str_of_width_zero st h.2.1, ostream.write,
      hu, hs]

theorem emits_string (sc up sb : Bool) (s : List Nat) :
    emits up sb (default_value_writer_string sc) s
      ([34] ++ (c_str s).flatMap (escaped_char sc up sb locale.classic) ++ [34]) := by
  intro st h hu hs
  simp only [default_value_writer_string]
  rw [write_quoted_string_eq]
  simp [quoted_on, hu, hs, h.2.2.2.2]

theorem emits_string_canonical (sc : Bool) (s : List Nat) (hs : nul_free s) :
    emits false false (default_value_writer_string sc) s ([34] ++ s.flatMap esc ++ [34]) := by
  have h := emits_string sc false false s
  rw [c_str_of_nul_free s hs] at h
  have e : s.flatMap (escaped_char sc false false locale.classic) = s.flatMap esc :=
    List.flatMap_congr (fun b hb => escaped_char_eq_esc sc b (hs b hb).2)
  rw [e] at h
  exact h

theorem C3_write_array_witness :
    (write_array true (ostream.fresh 0) [bytes "nitrogen", bytes "oxygen"]
      (default_value_writer_string true)).data
      = bytes "[\"nitrogen\",\"oxygen\"]" :=
  ((C3_write_array true (ostream.fresh 0) [bytes "nitrogen", bytes "oxygen"]
      (default_value_writer_string true) (fun s => [34] ++ s.flatMap esc ++ [34])
      (fun s hs => emits_string_canonical true s (by
        simp only [List.mem_cons, List.mem_singleton, List.not_mem_nil, or_false] at hs
        rcases hs with rfl | rfl <;> decide))).1).trans (by decide)

theorem C6_write_after_close_witness :
    ((object_writer.new (ostream.fresh 0)).close (ostream.fresh 0)).1.m_status
      = status.CLOSED ∧
    object_writer.write true
      ((object_writer.new (ostream.fresh 0)).close (ostream.fresh 0)).1
      ((object_writer.new (ostream.fresh 0)).close (ostream.fresh 0)).2
      (some (bytes "foo")) (bytes "bar") (default_value_writer_string true)
      = (object_writer.new (ostream.fresh 0)).close (ostream.fresh 0) :=
  ⟨by decide,
    (C6_write_after_close true
      ((object_writer.new (ostream.fresh 0)).close (ostream.fresh 0)).1
      ((object_writer.new (ostream.fresh 0)).close (ostream.fresh 0)).2
      (by decide) (some (bytes "foo")) (bytes "bar") [] (default_value_writer_string true)).1⟩

/-! ## Objects written field by field -/

theorem object_writes_open {V : Type} (sc : Bool) (out : field_write V → List Nat)
    (fs : List (field_write V)) :
    ∀ (w : writer) (st : ostream), w.m_status = status.OPEN →
      (∀ f ∈ fs, emits st.uppercase st.showbase f.vw f.value (out f)) →
      (object_writer.write_fields sc w st fs).1 = w ∧
      (object_writer.write_fields sc w st fs).2.data
        = st.data ++ fs.flatMap (fun f => [44] ++ (quote sc st f.name ++ [58] ++ out f)) ∧
      (object_writer.write_fields sc w st fs).2.uppercase = st.uppercase ∧
      (object_writer.write_fields sc w st fs).2.showbase = st.showbase := by
  induction fs with
  | nil => intro w st _ _; simp [object_writer.write_fields]
  | cons f fs ih =>
    intro w st hw he
    obtain ⟨s1, s2, s3, s4⟩ := writer.write_some_step sc w st f.name f.value f.vw (out f)
      (by simp [hw]) (he f (List.mem_cons_self _ _))
    rw [writer.set_open_of_open w hw] at s1
    have e : object_writer.write_fields sc w st (f :: fs)
        = object_writer.write_fields sc
            (w.write_helper sc st (some f.name) f.value f.vw).1
            (w.write_helper sc st (some f.name) f.value f.vw).2 fs := rfl
    rw [e, s1]
    obtain ⟨r1, r2, r3, r4⟩ := ih w (w.write_helper sc st (some f.name) f.value f.vw).2 hw
      (fun g hg => by rw [s3, s4]; exact he g (List.mem_cons_of_mem _ hg))
    have hq : ∀ n, quote sc (w.write_helper sc st (some f.name) f.value f.vw).2 n
        = quote sc st n := fun n => quote_congr sc st _ n s3 s4
    refine ⟨r1, ?_, r3.trans s3, r4.trans s4⟩
    rw [r2, s2]
    simp only [hq, writer.lead, hw, List.flatMap_cons, List.append_assoc]

theorem quote_eq_escaper (sc : Bool) (st : ostream) (name : List Nat) :
    (write_quoted_string sc (adjust_stream_settings st) name).data
      = st.data ++ quote sc st name := by
  rw [write_quoted_string_eq]
  rfl

theorem quote_canonical (sc : Bool) (st : ostream) (name : List Nat)
    (hu : st.uppercase = false) (hsb : st.showbase = false) (hn : nul_free name) :
    quote sc st name = [34] ++ name.flatMap esc ++ [34] :=
  quoted_on_canonical sc (adjust_stream_settings st) name hu hsb rfl hn

/-- C2: fields written in order with `write(name, value, value_writer)` to a fresh object
writer that is then closed give an opening brace, the members `quote(name):encoding` in
insertion order (duplicate names included) separated by single commas, and a closing
brace.  Here `quote(name)` is what the text escaper emits for the name on that sink; with
the upper-case and show-base flags of the sink clear it is the quoted escape of the
specification. -/
theorem C2_object_fields {V : Type} (sc : Bool) (st : ostream) (fs : List (field_write V))
    (out : field_write V → List Nat)
    (he : ∀ f ∈ fs, emits st.uppercase st.showbase f.vw f.value (out f)) :
    ((object_writer.write_fields sc (object_writer.new st) st fs).1.close
        (object_writer.write_fields sc (object_writer.new st) st fs).2).2.data
      = st.data ++ (bytes "\x7b" ++
          List.intercalate (bytes ",")
            (fs.map (fun f => quote sc st f.name ++ bytes ":" ++ out f)) ++
          bytes "\x7d") ∧
    (∀ name, (write_quoted_string sc (adjust_stream_settings st) name).data
      = st.data ++ quote sc st name) ∧
    (st.uppercase = false → st.showbase = false → ∀ name, nul_free name →
      quote sc st name = bytes "\"" ++ name.flatMap esc ++ bytes "\"") := by
  refine ⟨?_, quote_eq_escaper sc st, fun hu hsb name hn => quote_canonical sc st name hu hsb hn⟩
  rw [writer.close_data]
  cases fs with
  | nil =>
    simp [object_writer.write_fields, writer.tail, object_writer.new, writer.new, bytes]
    rfl
  | cons f fs =>
    obtain ⟨s1, s2, s3, s4⟩ := writer.write_some_step sc (object_writer.new st) st f.name
      f.value f.vw (out f) (by simp [object_writer.new, writer.new])
      (he f (List.mem_cons_self _ _))
    have e : object_writer.write_fields sc (object_writer.new st) st (f :: fs)
        = object_writer.write_fields sc
            ((object_writer.new st).write_helper sc st (some f.name) f.value f.vw).1
            ((object_writer.new st).write_helper sc st (some f.name) f.value f.vw).2 fs := rfl
    rw [e, s1]
    obtain ⟨r1, r2, r3, r4⟩ := object_writes_open sc out fs
      { object_writer.new st with m_status := status.OPEN }
      ((object_writer.new st).write_helper sc st (some f.name) f.value f.vw).2 rfl
      (fun g hg => by rw [s3, s4]; exact he g (List.mem_cons_of_mem _ hg))
    have hq : ∀ n, quote sc
        ((object_writer.new st).write_helper sc st (some f.name) f.value f.vw).2 n
          = quote sc st n := fun n => quote_congr sc st _ n s3 s4
    rw [r1, r2, s2]
    simp only [hq]
    simp [writer.lead, writer.tail, object_writer.new, writer.new,
      intercalate_cons, bytes, List.flatMap_map]

theorem C2_object_fields_witness :
    ((object_writer.write_fields true (object_writer.new (ostream.fresh 0)) (ostream.fresh 0)
        example_fields).1.close
      (object_writer.write_fields true (object_writer.new (ostream.fresh 0)) (ostream.fresh 0)
        example_fields).2).2.data
      = bytes "\x7b\"a\":1,\"b\\u0001\":-2,\"a\":30\x7d" :=
  ((C2_object_fields true (ostream.fresh 0) example_fields (fun f => dec_repr f.value)
    (fun f hf => by
      simp only [example_fields, List.mem_cons, List.mem_singleton, List.not_mem_nil,
        or_false] at hf
      rcases hf with rfl | rfl | rfl <;> exact emits_signed _ _ 32 _)).1).trans (by decide)

/-! ## Writers used after close, and the escaper round trip -/

/-- C7: on a CLOSED object writer `nested_object` and `nested_array` are not no-ops: they
append the quoted field name and a colon and set the status of the parent back to OPEN;
on a CLOSED array writer they append nothing but also set the status back to OPEN, so that
a later `close()` writes a second closing bracket. -/
theorem C7_nest_after_close_not_noop :
    closed_object.1.m_status = status.CLOSED ∧ closed_object.2.data = bytes "\x7b\x7d" ∧
    (object_writer.nested_object false closed_object.1 closed_object.2 (bytes "a")).2.2.data
      = bytes "\x7b\x7d\"a\":" ∧
    (object_writer.nested_object false closed_object.1 closed_object.2 (bytes "a")).1.m_status
      = status.OPEN ∧
    (object_writer.nested_array false closed_object.1 closed_object.2 (bytes "a")).2.2.data
      = bytes "\x7b\x7d\"a\":" ∧
    (object_writer.nested_array false closed_object.1 closed_object.2 (bytes "a")).1.m_status
      = status.OPEN ∧
    closed_array.1.m_status = status.CLOSED ∧ closed_array.2.data = bytes "[]" ∧
    (array_writer.nested_object closed_array.1 closed_array.2).1.m_status = status.OPEN ∧
    (array_writer.nested_array closed_array.1 closed_array.2).1.m_status = status.OPEN ∧
    ((array_writer.nested_array closed_array.1 closed_array.2).1.close
      (array_writer.nested_array closed_array.1 closed_array.2).2.2).2.data = bytes "[]]" := by
  decide

theorem writer.write_helper_status_le {V : Type} (sc : Bool) (w : writer) (st : ostream)
    (name : Option (List Nat)) (v : V) (vw : value_writer V) :
    w.m_status.rank ≤ (w.write_helper sc st name v vw).1.m_status.rank := by
  unfold writer.write_helper writer.next_field
  cases h : w.m_status <;> simp [status.rank, h]

/-- C8: `write`, `write_array` and `close` never move the status backward, but every nest
operation leaves the parent OPEN whatever its status was, so on a CLOSED writer it moves
the status backward from CLOSED to OPEN. -/
theorem C8_status_moves_backward :
    (∀ (sc : Bool) (w : writer) (st : ostream) (name : Option (List Nat)) (v : Nat)
        (vw : value_writer Nat),
      w.m_status.rank ≤ (object_writer.write sc w st name v vw).1.m_status.rank ∧
      w.m_status.rank ≤ (array_writer.write sc w st v vw).1.m_status.rank) ∧
    (∀ (sc : Bool) (w : writer) (st : ostream) (name : Option (List Nat)) (range : List Nat)
        (vw : value_writer Nat),
      w.m_status.rank ≤ (object_writer.write_array sc w st name range vw).1.m_status.rank ∧
      w.m_status.rank ≤ (array_writer.write_array sc w st range vw).1.m_status.rank) ∧
    (∀ (w : writer) (st : ostream), w.m_status.rank ≤ (w.close st).1.m_status.rank) ∧
    (∀ (sc : Bool) (w : writer) (st : ostream) (name : List Nat),
      (object_writer.nested_object sc w st name).1.m_status = status.OPEN ∧
      (object_writer.nested_array sc w st name).1.m_status = status.OPEN ∧
      (array_writer.nested_object w st).1.m_status = status.OPEN ∧
      (array_writer.nested_array w st).1.m_status = status.OPEN) ∧
    closed_array.1.m_status = status.CLOSED ∧
    (array_writer.nested_object closed_array.1 closed_array.2).1.m_status.rank
      < closed_array.1.m_status.rank ∧
    (object_writer.nested_array true closed_object.1 closed_object.2 (bytes "k")).1.m_status.rank
      < closed_object.1.m_status.rank := by
  refine ⟨fun sc w st name v vw => ⟨writer.write_helper_status_le sc w st name v vw,
      writer.write_helper_status_le sc w st none v vw⟩,
    fun sc w st name range vw => ⟨writer.write_helper_status_le sc w st name range _,
      writer.write_helper_status_le sc w st none range _⟩, ?_, ?_, by decide, by decide,
    by decide⟩
  · intro w st
    rw [writer.close_status]
    cases w.m_status <;> simp [status.rank]
  · intro sc w st name
    exact ⟨rfl, rfl, rfl, rfl⟩

theorem unescape_run_esc (c : Nat) (h0 : 0 < c) (h1 : c < 256) (rest : List Nat) :
    unescape_run unescape_state.text (esc c ++ rest)
      = (unescape_run unescape_state.text rest).map (fun t => c :: t) := by
  interval_cases c <;> rfl

theorem unescape_run_escaped (s : List Nat) (hs : nul_free s) :
    unescape_run unescape_state.text (s.flatMap esc ++ [34]) = some s := by
  induction s with
  | nil => rfl
  | cons c cs ih =>
    have hc := hs c (List.mem_cons_self _ _)
    have hcs : nul_free cs := fun b hb => hs b (List.mem_cons_of_mem _ hb)
    rw [List.flatMap_cons, List.append_assoc, unescape_run_esc c hc.1 hc.2, ih hcs]
    rfl

theorem unescape_quoted (s : List Nat) (hs : nul_free s) :
    unescape ([34] ++ s.flatMap esc ++ [34]) = some s := by
  have h := unescape_run_escaped s hs
  simpa [unescape] using h

theorem unescape_run_escaped_char (sc up : Bool) (c : Nat) (h0 : 0 < c) (h1 : c < 256)
    (rest : List Nat) :
    unescape_run unescape_state.text (escaped_char sc up false locale.classic c ++ rest)
      = (unescape_run unescape_state.text rest).map (fun t => c :: t) := by
  interval_cases c <;> cases sc <;> cases up <;> rfl

theorem unescape_run_escaped_on (sc up : Bool) (s : List Nat) (hs : nul_free s) :
    unescape_run unescape_state.text
      (s.flatMap (escaped_char sc up false locale.classic) ++ [34]) = some s := by
  induction s with
  | nil => rfl
  | cons c cs ih =>
    have hc := hs c (List.mem_cons_self _ _)
    have hcs : nul_free cs := fun b hb => hs b (List.mem_cons_of_mem _ hb)
    rw [List.flatMap_cons, List.append_assoc, unescape_run_escaped_char sc up c hc.1 hc.2,
      ih hcs]
    rfl

/-- With the show-base flag of the sink clear and the classic locale, whatever the other
flags are (upper-case included), escaping is reversible: the decoder `unescape` of JSON
string literals returns `s` on what the text escaper appends for a NUL-free byte string
`s`, so the escaper is injective on NUL-free strings; for `a"\b` the escaper appends the
literal `"a\"\\b"`, which decodes to `a"\b`. -/
theorem escape_roundtrip_of_showbase_clear (sc : Bool) (st : ostream) (s : List Nat)
    (hsb : st.showbase = false) (hl : st.loc = locale.classic) (hs : nul_free s) :
    unescape ((write_quoted_string sc st s).data.drop st.data.length) = some s ∧
    (∀ t, nul_free t → (write_quoted_string sc st t).data = (write_quoted_string sc st s).data →
      t = s) ∧
    (write_quoted_string sc st (bytes "a\"\\b")).data = st.data ++ bytes "\"a\\\"\\\\b\"" ∧
    unescape (bytes "\"a\\\"\\\\b\"") = some (bytes "a\"\\b") := by
  have hr : ∀ t, nul_free t →
      unescape ((write_quoted_string sc st t).data.drop st.data.length) = some t := by
    intro t ht
    rw [write_quoted_string_eq]
    simp only [List.drop_left, quoted_on, c_str_of_nul_free t ht, hsb, hl]
    have h := unescape_run_escaped_on sc st.uppercase t ht
    simpa [unescape] using h
  refine ⟨hr s hs, ?_, ?_, by decide⟩
  · intro t ht heq
    have h1 := hr t ht
    rw [heq, hr s hs] at h1
    exact (Option.some.inj h1).symm
  · rw [write_quoted_string_eq]
    simp only [quoted_on, hsb, hl]
    cases sc <;> cases st.uppercase <;> rfl

theorem escape_roundtrip_of_showbase_clear_witness :
    nul_free (bytes "a\"\\b\x01\x1f\n") ∧
    (write_quoted_string true { ostream.fresh 0 with uppercase := true, width := 5 }
        (bytes "a\"\\b\x01\x1f\n")).data = bytes "\"a\\\"\\\\b\\u0001\\u001F\\n\"" ∧
    unescape ((write_quoted_string true { ostream.fresh 0 with uppercase := true, width := 5 }
        (bytes "a\"\\b\x01\x1f\n")).data.drop
      ({ ostream.fresh 0 with uppercase := true, width := 5 } : ostream).data.length)
      = some (bytes "a\"\\b\x01\x1f\n") :=
  ⟨by decide, by decide,
    (escape_roundtrip_of_showbase_clear true
      { ostream.fresh 0 with uppercase := true, width := 5 } (bytes "a\"\\b\x01\x1f\n")
      rfl rfl (by decide)).1⟩

theorem json_run_append (a b : List Nat) :
    ∀ (q : json_state) (stack : List Bool),
      json_run q stack (a ++ b) =
        match json_run q stack a with
        | some p => json_run p.1 p.2 b
        | none => none := by
  induction a with
  | nil => intro q stack; rfl
  | cons c cs ih =>
    intro q stack
    simp only [List.cons_append, json_run]
    cases h : json_step q stack c with
    | none => rfl
    | some p => exact ih p.1 p.2

theorem json_run_append_of (a b : List Nat) (q q1 : json_state) (s s1 : List Bool)
    (h : json_run q s a = some (q1, s1)) :
    json_run q s (a ++ b) = json_run q1 s1 b := by
  rw [json_run_append, h]

theorem start_value_frame (s ext : List Bool) (c : Nat) (q1 : json_state) (s1 : List Bool)
    (h : start_value s c = some (q1, s1)) :
    start_value (s ++ ext) c = some (q1, s1 ++ ext) := by
  unfold start_value at h ⊢
  cases hc : start_class c with
  | none => rw [hc] at h; exact absurd h (by simp)
  | some p =>
    rw [hc] at h
    simp only [Option.some.injEq, Prod.mk.injEq] at h ⊢
    exact ⟨h.1, by rw [← h.2, List.append_assoc]⟩

theorem end_value_frame (s ext : List Bool) (c : Nat) (q1 : json_state) (s1 : List Bool)
    (h : end_value s c = some (q1, s1)) :
    end_value (s ++ ext) c = some (q1, s1 ++ ext) := by
  unfold end_value at h ⊢
  by_cases hw : is_ws c = true
  · simp only [hw, if_true] at h ⊢
    cases h; rfl
  · simp only [hw] at h ⊢
    cases s with
    | nil => exact absurd h (by simp)
    | cons k below =>
      cases k <;> simp only [List.cons_append] at h ⊢ <;> split_ifs at h ⊢ <;>
        (cases h; rfl)

theorem json_step_frame (q : json_state) (s ext : List Bool) (c : Nat) (q1 : json_state)
    (s1 : List Bool) (h : json_step q s c = some (q1, s1)) :
    json_step q (s ++ ext) c = some (q1, s1 ++ ext) := by
  cases q with
  | value =>
    simp only [json_step] at h ⊢
    split_ifs at h ⊢
    · simp_all
    · exact start_value_frame s ext c q1 s1 h
  | arr_start =>
    simp only [json_step] at h ⊢
    split_ifs at h ⊢
    · simp_all
    · cases s with
      | nil => simp at h
      | cons k below => simp_all
    · exact start_value_frame s ext c q1 s1 h
  | obj_start =>
    simp only [json_step] at h ⊢
    split_ifs at h ⊢
    · simp_all
    · cases s with
      | nil => simp at h
      | cons k below => simp_all
    · simp_all
  | key => simp only [json_step] at h ⊢; split_ifs at h ⊢ <;> simp_all
  | colon => simp only [json_step] at h ⊢; split_ifs at h ⊢ <;> simp_all
  | after_value => exact end_value_frame s ext c q1 s1 h
  | str k => simp only [json_step] at h ⊢; split_ifs at h ⊢ <;> simp_all
  | str_esc k => simp only [json_step] at h ⊢; split_ifs at h ⊢ <;> simp_all
  | str_hex k n => simp only [json_step] at h ⊢; split_ifs at h ⊢ <;> simp_all
  | lit rest =>
    cases rest with
    | nil => simp [json_step] at h
    | cons x xs => simp only [json_step] at h ⊢; split_ifs at h ⊢ <;> simp_all
  | minus => simp only [json_step] at h ⊢; split_ifs at h ⊢ <;> simp_all
  | zero =>
    simp only [json_step] at h ⊢
    split_ifs at h ⊢
    · simp_all
    · simp_all
    · exact end_value_frame s ext c q1 s1 h
  | int =>
    simp only [json_step] at h ⊢
    split_ifs at h ⊢
    · simp_all
    · simp_all
    · simp_all
    · exact end_value_frame s ext c q1 s1 h
  | dot => simp only [json_step] at h ⊢; split_ifs at h ⊢; simp_all
  | frac =>
    simp only [json_step] at h ⊢
    split_ifs at h ⊢
    · simp_all
    · simp_all
    · exact end_value_frame s ext c q1 s1 h
  | exp_mark => simp only [json_step] at h ⊢; split_ifs at h ⊢ <;> simp_all
  | exp_sign => simp only [json_step] at h ⊢; split_ifs at h ⊢; simp_all
  | exp =>
    simp only [json_step] at h ⊢
    split_ifs at h ⊢
    · simp_all
    · exact end_value_frame s ext c q1 s1 h

theorem json_run_frame (ext : List Bool) (t : List Nat) :
    ∀ (q : json_state) (s : List Bool) (q1 : json_state) (s1 : List Bool),
      json_run q s t = some (q1, s1) → json_run q (s ++ ext) t = some (q1, s1 ++ ext) := by
  induction t with
  | nil =>
    intro q s q1 s1 h
    simp only [json_run, Option.some.injEq, Prod.mk.injEq] at h ⊢
    exact ⟨h.1, by rw [h.2]⟩
  | cons c cs ih =>
    intro q s q1 s1 h
    simp only [json_run] at h ⊢
    cases hs : json_step q s c with
    | none => simp [hs] at h
    | some p =>
      obtain ⟨p1, p2⟩ := p
      rw [hs] at h
      rw [json_step_frame q s ext c p1 p2 hs]
      exact ih p1 p2 q1 s1 h

theorem json_run_arr_start (t : List Nat) :
    ∀ (stack : List Bool) (r : json_state × List Bool),
      json_run json_state.value stack t = some r → r.1 ≠ json_state.value →
      json_run json_state.arr_start stack t = some r := by
  induction t with
  | nil =>
    intro stack r h hr
    simp only [json_run, Option.some.injEq] at h
    exact absurd (by rw [← h]) hr
  | cons c cs ih =>
    intro stack r h hr
    simp only [json_run, json_step] at h ⊢
    by_cases hw : is_ws c = true
    · simp only [hw, if_true] at h ⊢
      exact ih stack r h hr
    · simp only [hw] at h ⊢
      have hc : c ≠ 93 := by
        intro h93
        subst h93
        simp [start_value, start_class] at h
      simpa [hc] using h

theorem accepts_value_of_valid (t : List Nat) (h : json_valid t = true) : accepts_value t := by
  unfold json_valid at h
  cases hr : json_run json_state.value [] t with
  | none => simp [hr] at h
  | some r =>
    obtain ⟨q, s⟩ := r
    rw [hr] at h
    cases s with
    | cons k below => simp at h
    | nil =>
      simp only at h
      intro q0 stack hq0
      have hf := json_run_frame stack t json_state.value [] q [] hr
      simp only [List.nil_append] at hf
      refine ⟨q, h, ?_⟩
      rcases hq0 with rfl | rfl
      · exact hf
      · exact json_run_arr_start t stack (q, stack) hf (by
          intro hq
          simp only at hq
          subst hq
          simp [json_complete] at h)

theorem json_run_escaped_char (sc up k : Bool) (stack : List Bool) (c : Nat) (h0 : 0 < c)
    (h1 : c < 256) :
    json_run (json_state.str k) stack (escaped_char sc up false locale.classic c)
      = some (json_state.str k, stack) := by
  interval_cases c <;> cases sc <;> cases up <;> rfl

theorem reads_refl (w : writer) : reads w [] w :=
  fun _ q stack h => ⟨q, stack, rfl, h⟩

theorem reads_trans (w w1 w2 : writer) (a b : List Nat) (h1 : reads w a w1)
    (h2 : reads w1 b w2) : reads w (a ++ b) w2 := by
  intro below q stack he
  obtain ⟨q1, s1, r1, e1⟩ := h1 below q stack he
  obtain ⟨q2, s2, r2, e2⟩ := h2 below q1 s1 e1
  exact ⟨q2, s2, by rw [json_run_append_of a b q q1 stack s1 r1, r2], e2⟩

theorem json_step_complete_comma (q : json_state) (hq : json_complete q = true) (k : Bool)
    (below : List Bool) :
    json_step q (k :: below) 44
      = some (if k then json_state.value else json_state.key, k :: below) := by
  cases q <;> simp [json_complete] at hq <;> cases k <;> rfl

theorem json_step_complete_close (q : json_state) (hq : json_complete q = true) (k : Bool)
    (below : List Bool) :
    json_step q (k :: below) (if k then 93 else 125) = some (json_state.after_value, below) := by
  cases q <;> simp [json_complete] at hq <;> cases k <;> rfl

theorem json_run_lead (w : writer) (below : List Bool) (q : json_state) (stack : List Bool)
    (he : entry w below q stack) :
    ∃ q1, json_run q stack w.lead = some (q1, w.m_array :: below) ∧
      (if w.m_array then q1 = json_state.value ∨ q1 = json_state.arr_start
       else q1 = json_state.key ∨ q1 = json_state.obj_start) := by
  unfold entry at he
  unfold writer.lead
  cases hs : w.m_status with
  | EMPTY =>
    simp only [hs] at he ⊢
    obtain ⟨hq, rfl⟩ := he
    cases ha : w.m_array with
    | false =>
      rcases hq with rfl | rfl <;> exact ⟨json_state.obj_start, rfl, Or.inr rfl⟩
    | true =>
      rcases hq with rfl | rfl <;> exact ⟨json_state.arr_start, rfl, Or.inr rfl⟩
  | OPEN =>
    simp only [hs] at he ⊢
    obtain ⟨hq, rfl⟩ := he
    have h := json_step_complete_comma q hq w.m_array below
    cases ha : w.m_array with
    | false =>
      rw [ha] at h
      exact ⟨json_state.key, by simp [json_run, h], Or.inl rfl⟩
    | true =>
      rw [ha] at h
      exact ⟨json_state.value, by simp [json_run, h], Or.inl rfl⟩
  | CLOSED => simp [hs] at he

theorem json_run_tail (w : writer) (below : List Bool) (q : json_state) (stack : List Bool)
    (he : entry w below q stack) :
    json_run q stack w.tail = some (json_state.after_value, below) := by
  unfold entry at he
  unfold writer.tail
  cases hs : w.m_status with
  | EMPTY =>
    simp only [hs] at he ⊢
    obtain ⟨hq, rfl⟩ := he
    cases ha : w.m_array <;> rcases hq with rfl | rfl <;> rfl
  | OPEN =>
    simp only [hs] at he ⊢
    obtain ⟨hq, rfl⟩ := he
    have h := json_step_complete_close q hq w.m_array below
    cases ha : w.m_array with
    | false =>
      rw [ha] at h
      have h2 : json_step q (false :: below) 125 = some (json_state.after_value, below) := h
      simp [json_run, h2]
    | true =>
      rw [ha] at h
      have h2 : json_step q (true :: below) 93 = some (json_state.after_value, below) := h
      simp [json_run, h2]
  | CLOSED => simp [hs] at he

theorem c_str_nul_free (s : List Nat) (hs : is_bytes s) : nul_free (c_str s) := by
  intro b hb
  unfold c_str at hb
  have h1 := List.mem_takeWhile_imp hb
  have h2 := hs b ((List.takeWhile_sublist _).subset hb)
  simp only [ne_eq, decide_not, Bool.not_eq_eq_eq_not, Bool.not_true,
    decide_eq_false_iff_not] at h1
  exact ⟨Nat.pos_of_ne_zero h1, h2⟩

theorem json_run_escaped (sc up k : Bool) (stack : List Bool) (s : List Nat)
    (hs : nul_free s) :
    json_run (json_state.str k) stack
        (s.flatMap (escaped_char sc up false locale.classic) ++ [34])
      = some (if k then json_state.colon else json_state.after_value, stack) := by
  induction s with
  | nil => cases k <;> rfl
  | cons c cs ih =>
    have hc := hs c (List.mem_cons_self _ _)
    rw [List.flatMap_cons, List.append_assoc,
      json_run_append_of _ _ _ _ _ _ (json_run_escaped_char sc up k stack c hc.1 hc.2)]
    exact ih (fun b hb => hs b (List.mem_cons_of_mem _ hb))

theorem json_run_key (sc : Bool) (st : ostream) (hsb : st.showbase = false) (name : List Nat)
    (hn : is_bytes name) (q : json_state) (stack : List Bool)
    (hq : q = json_state.key ∨ q = json_state.obj_start) :
    json_run q stack (quote sc st name ++ [58]) = some (json_state.value, stack) := by
  have hbody := json_run_escaped sc st.uppercase true stack (c_str name) (c_str_nul_free name hn)
  have hquote : quote sc st name
      = [34] ++ ((c_str name).flatMap (escaped_char sc st.uppercase false locale.classic)
          ++ [34]) := by
    simp [quote, quoted_on, adjust_stream_settings, ostream.imbue, ostream.dec, ostream.setw,
      hsb]
  have hopen : json_run q stack [34] = some (json_state.str true, stack) := by
    rcases hq with rfl | rfl <;> rfl
  rw [hquote, List.append_assoc, json_run_append_of _ _ _ _ _ _ hopen,
    json_run_append_of _ _ _ _ _ _ hbody]
  rfl

theorem json_run_string_value (sc up : Bool) (s : List Nat) (hs : is_bytes s) :
    accepts_value ([34] ++ (c_str s).flatMap (escaped_char sc up false locale.classic) ++ [34])
    := by
  intro q0 stack hq0
  have hbody := json_run_escaped sc up false stack (c_str s) (c_str_nul_free s hs)
  have hopen : json_run q0 stack [34] = some (json_state.str false, stack) := by
    rcases hq0 with rfl | rfl <;> rfl
  refine ⟨json_state.after_value, rfl, ?_⟩
  rw [List.append_assoc, json_run_append_of _ _ _ _ _ _ hopen]
  exact hbody

/-- What a writer emits before a value: the bracket or comma, and for an object writer the
quoted name and the colon. -/
theorem json_run_preamble (sc : Bool) (w : writer) (st : ostream) (hsb : st.showbase = false)
    (name : List Nat) (hn : is_bytes name) (below : List Bool) (q : json_state)
    (stack : List Bool) (he : entry w below q stack) :
    ∃ q1, (q1 = json_state.value ∨ q1 = json_state.arr_start) ∧
      json_run q stack (w.lead ++ (if w.m_array then [] else quote sc st name ++ [58]))
        = some (q1, w.m_array :: below) := by
  obtain ⟨q1, hrun, hq1⟩ := json_run_lead w below q stack he
  cases ha : w.m_array with
  | true =>
    rw [ha] at hrun hq1
    simp only [if_true] at hq1 ⊢
    exact ⟨q1, hq1, by simpa using hrun⟩
  | false =>
    rw [ha] at hrun hq1
    simp only [Bool.false_eq_true, if_false] at hq1 ⊢
    refine ⟨json_state.value, Or.inl rfl, ?_⟩
    rw [json_run_append_of _ _ _ _ _ _ hrun]
    exact json_run_key sc st hsb name hn q1 _ hq1

theorem accepts_array (ts : List (List Nat)) (h : ∀ t ∈ ts, accepts_value t) :
    accepts_value ([91] ++ List.intercalate [44] ts ++ [93]) := by
  intro q0 stack hq0
  have hopen : json_run q0 stack [91] = some (json_state.arr_start, true :: stack) := by
    rcases hq0 with rfl | rfl <;> rfl
  refine ⟨json_state.after_value, rfl, ?_⟩
  rw [List.append_assoc, json_run_append_of _ _ _ _ _ _ hopen]
  cases ts with
  | nil => rfl
  | cons t rest =>
    obtain ⟨q1, hq1, hr1⟩ := h t (List.mem_cons_self _ _) json_state.arr_start (true :: stack)
      (Or.inr rfl)
    rw [intercalate_cons, List.append_assoc, json_run_append_of _ _ _ _ _ _ hr1]
    have hrest : ∀ (l : List (List Nat)), (∀ t ∈ l, accepts_value t) →
        ∀ q, json_complete q = true →
        json_run q (true :: stack) (l.flatMap (fun x => [44] ++ x) ++ [93])
          = some (json_state.after_value, stack) := by
      intro l
      induction l with
      | nil =>
        intro _ q hq
        have := json_step_complete_close q hq true stack
        simp only [if_true] at this
        simp [json_run, this]
      | cons u us ih =>
        intro hl q hq
        have hc := json_step_complete_comma q hq true stack
        simp only [if_true] at hc
        obtain ⟨q2, hq2, hr2⟩ := hl u (List.mem_cons_self _ _) json_state.value
          (true :: stack) (Or.inl rfl)
        have hcomma : json_run q (true :: stack) [44] = some (json_state.value, true :: stack)
          := by simp [json_run, hc]
        rw [List.flatMap_cons, List.append_assoc, List.append_assoc,
          json_run_append_of _ _ _ _ _ _ hcomma, json_run_append_of _ _ _ _ _ _ hr2]
        exact ih (fun t ht => hl t (List.mem_cons_of_mem _ ht)) q2 hq2
    exact hrest rest (fun t ht => h t (List.mem_cons_of_mem _ ht)) q1 hq1

/-! ## Well-formed call sequences produce valid JSON -/

theorem step_ok_refl (w : writer) (st : ostream) : step_ok w st (w, st) :=
  ⟨rfl, rfl, [], by simp, reads_refl w⟩

theorem step_ok_trans (w : writer) (st : ostream) (r1 r2 : writer × ostream)
    (h1 : step_ok w st r1) (h2 : step_ok r1.1 r1.2 r2) : step_ok w st r2 := by
  obtain ⟨a1, a2, t1, a3, a4⟩ := h1
  obtain ⟨b1, b2, t2, b3, b4⟩ := h2
  exact ⟨b1.trans a1, b2.trans a2, t1 ++ t2, by rw [b3, a3, List.append_assoc],
    reads_trans _ _ _ _ _ a4 b4⟩

theorem reads_value (sc : Bool) (w : writer) (st : ostream) (hsb : st.showbase = false)
    (name : List Nat) (hn : is_bytes name) (out : List Nat) (ho : accepts_value out) :
    reads w (w.lead ++ (if w.m_array then [] else quote sc st name ++ [58]) ++ out)
      { w with m_status := status.OPEN } := by
  intro below q stack he
  obtain ⟨q1, hq1, hr1⟩ := json_run_preamble sc w st hsb name hn below q stack he
  obtain ⟨q2, hq2, hr2⟩ := ho q1 (w.m_array :: below) hq1
  exact ⟨q2, w.m_array :: below, by rw [json_run_append_of _ _ _ _ _ _ hr1, hr2], hq2, rfl⟩

theorem write_call_spec {V : Type} (sc : Bool) (w : writer) (st : ostream)
    (hw : w.m_status ≠ status.CLOSED) (hsb : st.showbase = false) (name : List Nat)
    (hn : is_bytes name) (v : V) (vw : value_writer V) (out : List Nat)
    (he : emits st.uppercase false vw v out) (ho : accepts_value out) :
    (if w.m_array then array_writer.write sc w st v vw
      else object_writer.write sc w st (some name) v vw).1
        = { w with m_status := status.OPEN } ∧
    step_ok w st (if w.m_array then array_writer.write sc w st v vw
      else object_writer.write sc w st (some name) v vw) := by
  rw [← hsb] at he
  have hr := reads_value sc w st hsb name hn out ho
  by_cases ha : w.m_array = true
  · rw [if_pos ha] at hr ⊢
    obtain ⟨s1, s2, s3, s4⟩ := writer.write_none_step sc w st v vw out hw he
    refine ⟨s1, s3, s4, w.lead ++ out, s2, ?_⟩
    rw [show (array_writer.write sc w st v vw).1 = _ from s1]
    simpa using hr
  · rw [if_neg ha] at hr ⊢
    obtain ⟨s1, s2, s3, s4⟩ := writer.write_some_step sc w st name v vw out hw he
    refine ⟨s1, s3, s4, w.lead ++ (quote sc st name ++ [58] ++ out), s2, ?_⟩
    rw [show (object_writer.write sc w st (some name) v vw).1 = _ from s1]
    simpa using hr

theorem nested_spec (sc : Bool) (w : writer) (st : ostream) (name : List Nat) (kind : Bool) :
    (if w.m_array then
        (if kind then array_writer.nested_array w st else array_writer.nested_object w st)
      else (if kind then object_writer.nested_array sc w st name
        else object_writer.nested_object sc w st name)).1
      = { w with m_status := status.OPEN } ∧
    (if w.m_array then
        (if kind then array_writer.nested_array w st else array_writer.nested_object w st)
      else (if kind then object_writer.nested_array sc w st name
        else object_writer.nested_object sc w st name)).2.1.m_status = status.EMPTY ∧
    (if w.m_array then
        (if kind then array_writer.nested_array w st else array_writer.nested_object w st)
      else (if kind then object_writer.nested_array sc w st name
        else object_writer.nested_object sc w st name)).2.2.data
      = st.data ++ (w.lead ++ (if w.m_array then [] else quote sc st name ++ [58])) ∧
    (if w.m_array then
        (if kind then array_writer.nested_array w st else array_writer.nested_object w st)
      else (if kind then object_writer.nested_array sc w st name
        else object_writer.nested_object sc w st name)).2.2.uppercase = st.uppercase ∧
    (if w.m_array then
        (if kind then array_writer.nested_array w st else array_writer.nested_object w st)
      else (if kind then object_writer.nested_array sc w st name
        else object_writer.nested_object sc w st name)).2.2.showbase = st.showbase := by
  have hadj := adjust_stream_settings_adjusted st
  have hnf := writer.next_field_eq w _ hadj
  have hfn := writer.write_field_name_eq sc _
    (ostream.adjusted_write _ hadj w.lead) name
  by_cases ha : w.m_array = true
  · simp only [if_pos ha]
    cases kind <;>
      simp [array_writer.nested_array, array_writer.nested_object, hnf, ostream.write,
        writer.new, adjust_stream_settings_data] <;>
      exact ⟨rfl, rfl⟩
  · simp only [if_neg ha]
    cases kind <;>
      simp only [object_writer.nested_array, object_writer.nested_object, hnf, hfn] <;>
      simp [ostream.write, writer.new, adjust_stream_settings_data, quote, quoted_on] <;>
      exact ⟨rfl, rfl⟩

theorem write_array_call_spec {V : Type} (sc : Bool) (w : writer) (st : ostream)
    (hw : w.m_status ≠ status.CLOSED) (hsb : st.showbase = false) (name : List Nat)
    (hn : is_bytes name) (range : List V) (vw : value_writer V)
    (hok : ∀ x ∈ range, ∃ out, emits st.uppercase false vw x out ∧ json_valid out = true) :
    (if w.m_array then array_writer.write_array sc w st range vw
      else object_writer.write_array sc w st (some name) range vw).1
        = { w with m_status := status.OPEN } ∧
    step_ok w st (if w.m_array then array_writer.write_array sc w st range vw
      else object_writer.write_array sc w st (some name) range vw) := by
  classical
  have hex : ∃ e : V → List Nat,
      ∀ x ∈ range, emits st.uppercase false vw x (e x) ∧ json_valid (e x) = true :=
    ⟨fun x => if h : x ∈ range then (hok x h).choose else [],
      fun x hx => by simp only [hx, dite_true]; exact (hok x hx).choose_spec⟩
  obtain ⟨e, he⟩ := hex
  have hemit := emits_range_writer sc st.uppercase false range vw e (fun x hx => (he x hx).1)
  have hacc : accepts_value ([91] ++ List.intercalate [44] (range.map e) ++ [93]) := by
    apply accepts_array
    intro t ht
    obtain ⟨x, hx, rfl⟩ := List.mem_map.mp ht
    exact accepts_value_of_valid _ (he x hx).2
  exact write_call_spec sc w st hw hsb name hn range (range_writer sc vw) _ hemit hacc

theorem nested_call_spec (sc : Bool) (w : writer) (st : ostream) (hsb : st.showbase = false)
    (name : List Nat) (hn : is_bytes name) (kind : Bool)
    (r : writer × writer × ostream)
    (hr : r = (if w.m_array then
        (if kind then array_writer.nested_array w st else array_writer.nested_object w st)
      else (if kind then object_writer.nested_array sc w st name
        else object_writer.nested_object sc w st name)))
    (c : writer × ostream) (hc : step_ok r.2.1 r.2.2 c) :
    step_ok w st ({ w with m_status := status.OPEN }, (c.1.close c.2).2) := by
  obtain ⟨n1, n2, n3, n4, n5⟩ := nested_spec sc w st name kind
  rw [← hr] at n1 n2 n3 n4 n5
  obtain ⟨c1, c2, tb, c3, c4⟩ := hc
  obtain ⟨f1, f2⟩ := writer.close_flags c.1 c.2
  refine ⟨f1.trans (c1.trans n4), f2.trans (c2.trans n5),
    (w.lead ++ (if w.m_array then [] else quote sc st name ++ [58])) ++ tb ++ c.1.tail, ?_, ?_⟩
  · show (c.1.close c.2).2.data = _
    rw [writer.close_data, c3, n3]
    simp only [List.append_assoc]
  · intro below q stack he
    obtain ⟨q1, hq1, hr1⟩ := json_run_preamble sc w st hsb name hn below q stack he
    have hentry : entry r.2.1 (w.m_array :: below) q1 (w.m_array :: below) := by
      unfold entry
      rw [n2]
      exact ⟨hq1, rfl⟩
    obtain ⟨q2, s2, hr2, he2⟩ := c4 (w.m_array :: below) q1 (w.m_array :: below) hentry
    have hr3 := json_run_tail c.1 (w.m_array :: below) q2 s2 he2
    refine ⟨json_state.after_value, w.m_array :: below, ?_, rfl, rfl⟩
    rw [List.append_assoc, json_run_append_of _ _ _ _ _ _ hr1,
      json_run_append_of _ _ _ _ _ _ hr2]
    exact hr3

mutual
theorem run_call_spec {V : Type} (sc : Bool) :
    ∀ (c : call V) (w : writer) (st : ostream), w.m_status ≠ status.CLOSED →
      st.showbase = false → call_ok st.uppercase false c →
      (run_call sc w st c).1 = { w with m_status := status.OPEN } ∧
      step_ok w st (run_call sc w st c)
  | call.write name v vw, w, st, hw, hsb, hok => by
    simp only [call_ok] at hok
    obtain ⟨hn, out, he, hv⟩ := hok
    simp only [run_call]
    exact write_call_spec sc w st hw hsb name hn v vw out he (accepts_value_of_valid out hv)
  | call.write_array name range vw, w, st, hw, hsb, hok => by
    simp only [call_ok] at hok
    simp only [run_call]
    exact write_array_call_spec sc w st hw hsb name hok.1 range vw hok.2
  | call.nested_object name body, w, st, hw, hsb, hok => by
    simp only [call_ok] at hok
    obtain ⟨n1, n2, n3, n4, n5⟩ := nested_spec sc w st name false
    simp only [Bool.false_eq_true, if_false] at n1 n2 n3 n4 n5
    have ih := run_calls_spec sc body
      (if w.m_array then array_writer.nested_object w st
        else object_writer.nested_object sc w st name).2.1
      (if w.m_array then array_writer.nested_object w st
        else object_writer.nested_object sc w st name).2.2
      (by rw [n2]; simp) (by rw [n5]; exact hsb) (by rw [n4]; exact hok.2)
    have h := nested_call_spec sc w st hsb name hok.1 false _
      (by simp only [Bool.false_eq_true, if_false]) _ ih.2
    simp only [run_call]
    exact ⟨n1, by rw [n1]; exact h⟩
  | call.nested_array name body, w, st, hw, hsb, hok => by
    simp only [call_ok] at hok
    obtain ⟨n1, n2, n3, n4, n5⟩ := nested_spec sc w st name true
    simp only [if_true] at n1 n2 n3 n4 n5
    have ih := run_calls_spec sc body
      (if w.m_array then array_writer.nested_array w st
        else object_writer.nested_array sc w st name).2.1
      (if w.m_array then array_writer.nested_array w st
        else object_writer.nested_array sc w st name).2.2
      (by rw [n2]; simp) (by rw [n5]; exact hsb) (by rw [n4]; exact hok.2)
    have h := nested_call_spec sc w st hsb name hok.1 true _
      (by simp only [if_true]) _ ih.2
    simp only [run_call]
    exact ⟨n1, by rw [n1]; exact h⟩
theorem run_calls_spec {V : Type} (sc : Bool) :
    ∀ (cs : List (call V)) (w : writer) (st : ostream), w.m_status ≠ status.CLOSED →
      st.showbase = false → calls_ok st.uppercase false cs →
      (run_calls sc w st cs).1.m_status ≠ status.CLOSED ∧ step_ok w st (run_calls sc w st cs)
  | [], w, st, hw, _, _ => by
    simp only [run_calls]
    exact ⟨hw, step_ok_refl w st⟩
  | c :: cs, w, st, hw, hsb, hok => by
    simp only [calls_ok] at hok
    obtain ⟨h1, h2⟩ := run_call_spec sc c w st hw hsb hok.1
    have ih := run_calls_spec sc cs (run_call sc w st c).1 (run_call sc w st c).2
      (by rw [h1]; simp) (by rw [h2.2.1]; exact hsb) (by rw [h2.1]; exact hok.2)
    simp only [run_calls]
    exact ⟨ih.1, step_ok_trans w st _ _ h2 ih.2⟩
end

/-- The recogniser accepts the outputs the tests of the repository expect and rejects
texts with a leading, doubled or trailing comma, a missing comma or colon, an unquoted
key, unbalanced or mismatched brackets, and malformed literals, numbers and strings. -/
theorem json_valid_examples :
    json_valid (bytes ("[\"value1\",\x7b\"field2\":\"value2\",\"nested2\":[\"value3\"," ++
      "\"value4\",[\"value5\",\x7b\x7d],\"value6\"],\"nestedempty\":[]\x7d]")) = true ∧
    json_valid (bytes "\x7b\"int\":42,\"d\":-4.2e+1,\"t\":true,\"n\":null\x7d") = true ∧
    json_valid (bytes " [ 1 , \"x\\n\\u00e9\" , \x7b \"k\" : [ ] \x7d ] ") = true ∧
    json_valid (bytes "[1,]") = false ∧ json_valid (bytes "[,1]") = false ∧
    json_valid (bytes "[1,,2]") = false ∧ json_valid (bytes "[1 2]") = false ∧
    json_valid (bytes "[1\x7d") = false ∧ json_valid (bytes "\x7b\"a\":1]") = false ∧
    json_valid (bytes "\x7b\"a\" 1\x7d") = false ∧ json_valid (bytes "\x7ba:1\x7d") = false ∧
    json_valid (bytes "\x7b\"a\":1,\x7d") = false ∧ json_valid (bytes "[[]") = false ∧
    json_valid (bytes "[]]") = false ∧ json_valid (bytes "[][]") = false ∧
    json_valid (bytes "") = false ∧ json_valid (bytes "01") = false ∧
    json_valid (bytes "1.") = false ∧ json_valid (bytes "+1") = false ∧
    json_valid (bytes "0x1f") = false ∧ json_valid (bytes "nul") = false ∧
    json_valid (bytes "\"a\nb\"") = false ∧ json_valid (bytes "\"a\\qb\"") = false ∧
    json_valid (bytes "\"\\u00x1\"") = false ∧ json_valid (bytes "\"abc") = false := by
  decide

/-- For every well-formed sequence of calls on a fresh writer of either kind, on a sink
whose show-base flag is clear, with byte-string names and value writers that emit valid
JSON values, the bytes appended to the sink form one syntactically valid JSON value, and
the writer ends CLOSED. -/
theorem json_valid_of_calls {V : Type} (sc array : Bool) (st : ostream) (body : List (call V))
    (hsb : st.showbase = false) (hok : calls_ok st.uppercase false body) :
    ∃ t, (run_program sc array st body).2.data = st.data ++ t ∧ json_valid t = true ∧
      (run_program sc array st body).1.m_status = status.CLOSED := by
  obtain ⟨h1, _, _, tb, h3, h4⟩ := run_calls_spec sc body (writer.new st array) st
    (by simp [writer.new]) hsb hok
  refine ⟨tb ++ (run_calls sc (writer.new st array) st body).1.tail, ?_, ?_,
    writer.close_status _ _⟩
  · show ((run_calls sc (writer.new st array) st body).1.close _).2.data = _
    rw [writer.close_data, h3, List.append_assoc]
  · obtain ⟨q2, s2, hr2, he2⟩ := h4 [] json_state.value [] ⟨Or.inl rfl, rfl⟩
    have hr3 := json_run_tail _ [] q2 s2 he2
    have hrun : json_run json_state.value []
        (tb ++ (run_calls sc (writer.new st array) st body).1.tail)
        = some (json_state.after_value, []) := by
      rw [json_run_append_of _ _ _ _ _ _ hr2]; exact hr3
    simp [json_valid, hrun, json_complete]

theorem nesting_program_ok : calls_ok false false nesting_program := by
  simp only [nesting_program, calls_ok, call_ok, and_true, List.mem_cons, List.mem_singleton,
    List.not_mem_nil, or_false]
  refine ⟨⟨by decide, _, emits_signed _ _ 32 _, by decide⟩,
    by decide, ⟨by decide, _, emits_signed _ _ 32 _, by decide⟩,
    ⟨by decide, ⟨by decide, _, emits_signed _ _ 32 _, by decide⟩,
      ⟨by decide, ⟨by decide, _, emits_signed _ _ 32 _, by decide⟩, by decide⟩,
      by decide, ?_⟩, by decide⟩
  intro x hx
  exact ⟨_, emits_signed _ _ 32 x, by rcases hx with rfl | rfl <;> decide⟩

theorem json_valid_of_calls_witness :
    (run_program true true (ostream.fresh 0) nesting_program).2.data
      = bytes ("[1,\x7b\"field2\":2,\"nested2\":[3,[5,\x7b\x7d],[6,-7]]," ++
          "\"nestedempty\":[]\x7d]") ∧
    ∃ t, (run_program true true (ostream.fresh 0) nesting_program).2.data
        = (ostream.fresh 0).data ++ t ∧ json_valid t = true ∧
      (run_program true true (ostream.fresh 0) nesting_program).1.m_status = status.CLOSED :=
  ⟨by decide,
    json_valid_of_calls true true (ostream.fresh 0) nesting_program rfl nesting_program_ok⟩

/-- C1: on a sink with `std::showbase` set, the well-formed sequence `write("\x01", null)`,
`close()` on a fresh object writer, whose value writer emits the valid JSON value `null`,
appends `{"\u00x1":null}`, which is not valid JSON. -/
theorem C1_invalid_json_with_showbase :
    calls_ok showbase_stream.uppercase showbase_stream.showbase control_name_program ∧
    (run_program false false showbase_stream control_name_program).2.data
      = bytes "\x7b\"\\u00x1\":null\x7d" ∧
    json_valid (run_program false false showbase_stream control_name_program).2.data = false ∧
    (run_program false false (ostream.fresh 0) control_name_program).2.data
      = bytes "\x7b\"\\u0001\":null\x7d" := by
  refine ⟨?_, by decide, by decide, by decide⟩
  simp only [control_name_program, calls_ok, call_ok, and_true]
  exact ⟨by decide, _, emits_null _ _, by decide⟩


/-! ## The escaper output as a string literal -/

theorem escaped_char_plain (sc up sb : Bool) (l : locale) (c : Nat) (h : plain_byte c) :
    escaped_char sc up sb l c = [c] := by
  obtain ⟨h1, h2, h3, h4, h5⟩ := h
  interval_cases c <;> first
    | exact absurd rfl h3
    | exact absurd rfl h4
    | exact absurd rfl h5
    | (cases sc <;> rfl)

theorem c_str_of_plain (s : List Nat) (hs : ∀ b ∈ s, plain_byte b) : c_str s = s := by
  unfold c_str
  rw [List.takeWhile_eq_self_iff]
  intro b hb
  have := (hs b hb).1
  simp; omega

/-- C12: for a byte string without `0`, without bytes in [1,31], without 127, quote and
backslash (bytes from 128 included), the text escaper appends exactly a quote, the string
and a quote, on every sink and whether `char` is signed or unsigned. -/
theorem C12_plain_bytes_verbatim (sc : Bool) (st : ostream) (s : List Nat)
    (hs : ∀ b ∈ s, plain_byte b) :
    (write_quoted_string sc st s).data = st.data ++ (bytes "\"" ++ s ++ bytes "\"") := by
  rw [write_quoted_string_eq]
  simp only [quoted_on, c_str_of_plain s hs]
  have e : s.flatMap (escaped_char sc st.uppercase st.showbase st.loc) = s.flatMap (fun c => [c])
      := List.flatMap_congr (fun b hb => escaped_char_plain sc _ _ _ b (hs b hb))
  rw [e]
  simp [bytes]

theorem C12_plain_bytes_verbatim_witness :
    (∀ b ∈ [228, 189, 160, 33, 195, 160, 126, 255], plain_byte b) ∧
    (write_quoted_string true showbase_stream [228, 189, 160, 33, 195, 160, 126, 255]).data
      = [34, 228, 189, 160, 33, 195, 160, 126, 255, 34] ∧
    (write_quoted_string false showbase_stream [228, 189, 160, 33, 195, 160, 126, 255]).data
      = [34, 228, 189, 160, 33, 195, 160, 126, 255, 34] :=
  ⟨by decide,
    C12_plain_bytes_verbatim true showbase_stream [228, 189, 160, 33, 195, 160, 126, 255]
      (by decide),
    C12_plain_bytes_verbatim false showbase_stream [228, 189, 160, 33, 195, 160, 126, 255]
      (by decide)⟩

theorem literal_body_escaped_char (sc up : Bool) (c : Nat) (h0 : 0 < c) (h1 : c < 256)
    (rest : List Nat) :
    literal_body literal_state.text (escaped_char sc up false locale.classic c ++ rest)
      = literal_body literal_state.text rest := by
  interval_cases c <;> cases sc <;> cases up <;> rfl

theorem literal_body_escaped (sc up : Bool) (s : List Nat) (hs : nul_free s) :
    literal_body literal_state.text
      (s.flatMap (escaped_char sc up false locale.classic) ++ [34]) = true := by
  induction s with
  | nil => rfl
  | cons c cs ih =>
    have hc := hs c (List.mem_cons_self _ _)
    rw [List.flatMap_cons, List.append_assoc, literal_body_escaped_char sc up c hc.1 hc.2]
    exact ih (fun b hb => hs b (List.mem_cons_of_mem _ hb))

/-- With the show-base flag of the sink clear and the classic locale, what the text
escaper appends for a NUL-free byte string is a well-formed string literal, whatever the
other flags are. -/
theorem well_formed_literal_of_showbase_clear (sc : Bool) (st : ostream) (s : List Nat)
    (hsb : st.showbase = false) (hl : st.loc = locale.classic) (hs : nul_free s) :
    ∃ t, (write_quoted_string sc st s).data = st.data ++ t ∧ well_formed_literal t = true := by
  refine ⟨quoted_on sc st s, by rw [write_quoted_string_eq], ?_⟩
  have h := literal_body_escaped sc st.uppercase s hs
  simp only [quoted_on, c_str_of_nul_free s hs, hsb, hl]
  simpa [well_formed_literal] using h

theorem well_formed_literal_of_showbase_clear_witness :
    ∃ t, (write_quoted_string true { ostream.fresh 0 with uppercase := true }
        (bytes "a\"\\\x1f\x7f\n")).data
      = ({ ostream.fresh 0 with uppercase := true } : ostream).data ++ t ∧
      well_formed_literal t = true :=
  well_formed_literal_of_showbase_clear true { ostream.fresh 0 with uppercase := true }
    (bytes "a\"\\\x1f\x7f\n") rfl rfl (by decide)

/-- C11: on a sink with `std::showbase` set the text escaper writes the NUL-free string
`"\x01"` as `"\u00x1"`, which is not a well-formed string literal: the backslash does not
begin an escape with four hex digits.  On a fresh stream it writes `"\u0001"`. -/
theorem C11_literal_ill_formed_with_showbase :
    nul_free [1] ∧
    (write_quoted_string false showbase_stream [1]).data = bytes "\"\\u00x1\"" ∧
    well_formed_literal (write_quoted_string false showbase_stream [1]).data = false ∧
    (write_quoted_string false (adjust_stream_settings showbase_stream) [1]).data
      = bytes "\"\\u00x1\"" ∧
    (write_quoted_string false (ostream.fresh 0) [1]).data = bytes "\"\\u0001\"" ∧
    well_formed_literal (bytes "\"\\u0001\"") = true := by
  decide


/-! ## Numbers -/

theorem foldl_digits_shift (b : List Nat) :
    ∀ x : Nat, b.foldl (fun a d => a * 10 + d) x
      = x * 10 ^ b.length + b.foldl (fun a d => a * 10 + d) 0 := by
  induction b with
  | nil => intro x; simp
  | cons d ds ih =>
    intro x
    simp only [List.foldl_cons, List.length_cons]
    rw [ih (x * 10 + d), ih (0 * 10 + d), pow_succ]
    ring

theorem digits_value_append (a b : List Nat) :
    digits_value (a ++ b) = digits_value a * 10 ^ b.length + digits_value b := by
  unfold digits_value
  rw [List.foldl_append, foldl_digits_shift b]

theorem digits_value_cons (d : Nat) (acc : List Nat) :
    digits_value (d :: acc) = d * 10 ^ acc.length + digits_value acc := by
  have h := digits_value_append [d] acc
  simpa [digits_value] using h

theorem to_digits_aux_value :
    ∀ (fuel v : Nat) (acc : List Nat), v < fuel →
      digits_value (to_digits_aux 10 fuel v acc) = v * 10 ^ acc.length + digits_value acc := by
  intro fuel
  induction fuel with
  | zero => intro v acc h; omega
  | succ n ih =>
    intro v acc h
    unfold to_digits_aux
    split_ifs with hz
    · have hv : v % 10 = v := by omega
      rw [digits_value_cons, hv]
    · have hlt : v / 10 < n := by omega
      rw [ih (v / 10) ((v % 10) :: acc) hlt, digits_value_cons, List.length_cons, pow_succ]
      have e : v * 10 ^ acc.length
          = v / 10 * (10 ^ acc.length * 10) + v % 10 * 10 ^ acc.length := by
        conv_lhs => rw [← Nat.div_add_mod v 10]
        ring
      omega

theorem to_digits_value (v : Nat) : digits_value (to_digits 10 v) = v := by
  have h := to_digits_aux_value (v + 1) v [] (by omega)
  simpa [to_digits, digits_value] using h

theorem to_digits_aux_head :
    ∀ (fuel v : Nat) (acc : List Nat), 0 < v → v < fuel →
      ∃ d rest, to_digits_aux 10 fuel v acc = d :: rest ∧ d ≠ 0 := by
  intro fuel
  induction fuel with
  | zero => intro v acc _ h; omega
  | succ n ih =>
    intro v acc hv h
    unfold to_digits_aux
    split_ifs with hz
    · exact ⟨v % 10, acc, rfl, by omega⟩
    · exact ih (v / 10) ((v % 10) :: acc) (by omega) (by omega)

theorem to_digits_aux_ne_nil (fuel v : Nat) (acc : List Nat) (h : 0 < fuel) :
    to_digits_aux 10 fuel v acc ≠ [] := by
  induction fuel generalizing v acc with
  | zero => omega
  | succ n ih =>
    unfold to_digits_aux
    split_ifs with hz
    · simp
    · cases n with
      | zero => simp [to_digits_aux]
      | succ m => exact ih _ _ (by omega)


theorem to_digits_ne_nil (v : Nat) : to_digits 10 v ≠ [] :=
  to_digits_aux_ne_nil (v + 1) v [] (by omega)

theorem to_digits_head (v : Nat) (hv : 0 < v) :
    ∃ d rest, to_digits 10 v = d :: rest ∧ d ≠ 0 :=
  to_digits_aux_head (v + 1) v [] hv (by omega)

theorem parse_digits_to_digits (v : Nat) :
    parse_digits ((to_digits 10 v).map (fun d => 48 + d)) = some v := by
  have hlt := to_digits_lt 10 (by decide) v
  have hall : ((to_digits 10 v).map (fun d => 48 + d)).all is_digit = true := by
    rw [List.all_eq_true]
    intro c hc
    obtain ⟨d, hd, rfl⟩ := List.mem_map.mp hc
    have := hlt d hd
    simp [is_digit]; omega
  have hne : (to_digits 10 v).map (fun d => 48 + d) ≠ [] := by
    simpa using to_digits_ne_nil v
  have hmap : ((to_digits 10 v).map (fun d => 48 + d)).map (fun c => c - 48) = to_digits 10 v
      := by
    rw [List.map_map]
    conv_rhs => rw [← List.map_id (to_digits 10 v)]
    apply List.map_congr_left
    intro d _
    simp
  unfold parse_digits
  rw [if_pos ⟨hne, hall⟩, hmap, to_digits_value]

theorem canonical_dec_repr (n : Int) : canonical_dec n (dec_repr n) := by
  refine ⟨(to_digits 10 n.natAbs).map (fun d => 48 + d), rfl, ?_, ?_, ?_, ?_⟩
  · simpa using to_digits_ne_nil n.natAbs
  · intro c hc
    obtain ⟨d, hd, rfl⟩ := List.mem_map.mp hc
    have := to_digits_lt 10 (by decide) n.natAbs d hd
    omega
  · intro hh
    by_cases hz : n.natAbs = 0
    · rw [hz]; rfl
    · obtain ⟨d, rest, hd, hd0⟩ := to_digits_head n.natAbs (Nat.pos_of_ne_zero hz)
      rw [hd] at hh
      simp at hh
      exact absurd hh hd0
  · have hp := parse_digits_to_digits n.natAbs
    unfold dec_repr
    by_cases hn : n < 0
    · simp only [hn, if_true, List.singleton_append, parse_dec, hp, Option.some.injEq,
        Int.ofNat_eq_coe]
      omega
    · simp only [hn, if_false, List.nil_append]
      obtain ⟨c, rest, hc⟩ := List.exists_cons_of_ne_nil
        (show (to_digits 10 n.natAbs).map (fun d => 48 + d) ≠ [] by
          simpa using to_digits_ne_nil n.natAbs)
      have hc45 : c ≠ 45 := by
        have hmem : c ∈ (to_digits 10 n.natAbs).map (fun d => 48 + d) := by
          rw [hc]; exact List.mem_cons_self _ _
        obtain ⟨d, _, rfl⟩ := List.mem_map.mp hmem
        omega
      rw [hc] at hp ⊢
      simp only [parse_dec, hc45, if_false, hp, Option.some.injEq, Int.ofNat_eq_coe]
      omega

theorem dec_repr_no_plus (n : Int) : 43 ∉ dec_repr n := by
  intro h
  unfold dec_repr at h
  rcases List.mem_append.mp h with h | h
  · split_ifs at h <;> simp at h
  · obtain ⟨d, _, hd⟩ := List.mem_map.mp h
    omega


theorem array_write_token {V : Type} (sc : Bool) (w : writer) (st : ostream) (v : V)
    (vw : value_writer V) (out : List Nat) (he : emits st.uppercase st.showbase vw v out) :
    (array_writer.write sc w st v vw).2.data = st.data ++ w.token_bytes out := by
  unfold writer.token_bytes array_writer.write
  by_cases hw : w.m_status = status.CLOSED
  · simp [writer.write_helper, hw]
  · rw [if_neg hw]
    exact (writer.write_none_step sc w st v vw out hw he).2.1

theorem object_write_token {V : Type} (sc : Bool) (w : writer) (st : ostream)
    (name : List Nat) (v : V) (vw : value_writer V) (out : List Nat)
    (he : emits st.uppercase st.showbase vw v out) :
    (object_writer.write sc w st (some name) v vw).2.data
      = st.data ++ w.token_bytes (quote sc st name ++ [58] ++ out) := by
  unfold writer.token_bytes object_writer.write
  by_cases hw : w.m_status = status.CLOSED
  · simp [writer.write_helper, hw]
  · rw [if_neg hw]
    exact (writer.write_some_step sc w st name v vw out hw he).2.1

/-- C14: sink flag independence.  For every writer and integer, `write` on an array writer
appends the same bytes whatever the formatting state of the sink is: the bracket or comma
and the decimal token, as on a sink in its default state.  On an object writer the bytes
are the same in two states that differ in radix, show-plus, show-point, width and fill.
After hex, width 10, fill `_` and show-plus, 42 is written as `42`. -/
theorem C14_sink_flag_independence (sc : Bool) (w : writer) (st1 st2 : ostream) (n : Int)
    (nbits : Nat) (m : Nat) (name : List Nat) (base : fmt_base) (sp spt : Bool)
    (wd fl : Nat) :
    (array_writer.write sc w st1 n (default_value_writer_signed nbits)).2.data
      = st1.data ++ w.token_bytes (dec_repr n) ∧
    (array_writer.write sc w st2 n (default_value_writer_signed nbits)).2.data
      = st2.data ++ w.token_bytes (dec_repr n) ∧
    (array_writer.write sc w st1 m default_value_writer_unsigned).2.data
      = st1.data ++ w.token_bytes (dec_repr m) ∧
    (array_writer.write sc w st2 m default_value_writer_unsigned).2.data
      = st2.data ++ w.token_bytes (dec_repr m) ∧
    (array_writer.write sc w (ostream.fresh 0) n (default_value_writer_signed nbits)).2.data
      = w.token_bytes (dec_repr n) ∧
    (object_writer.write sc w (st1.reformat base sp spt wd fl) (some name) n
        (default_value_writer_signed nbits)).2.data
      = st1.data ++ w.token_bytes (quote sc st1 name ++ bytes ":" ++ dec_repr n) ∧
    (object_writer.write sc w st1 (some name) n (default_value_writer_signed nbits)).2.data
      = st1.data ++ w.token_bytes (quote sc st1 name ++ bytes ":" ++ dec_repr n) ∧
    (array_writer.write true (array_writer.new (ostream.fresh 0))
        ((ostream.fresh 0).reformat fmt_base.hex true false 10 95) 42
        (default_value_writer_signed 32)).2.data = bytes "[42" := by
  refine ⟨array_write_token sc w st1 n _ _ (emits_signed _ _ nbits n),
    array_write_token sc w st2 n _ _ (emits_signed _ _ nbits n),
    array_write_token sc w st1 m _ _ (emits_unsigned _ _ m),
    array_write_token sc w st2 m _ _ (emits_unsigned _ _ m), ?_, ?_,
    object_write_token sc w st1 name n _ _ (emits_signed _ _ nbits n), by decide⟩
  · have h := array_write_token sc w (ostream.fresh 0) n _ _ (emits_signed _ _ nbits n)
    simpa [ostream.fresh] using h
  · have h := object_write_token sc w (st1.reformat base sp spt wd fl) name n _ _
      (emits_signed _ _ nbits n)
    rw [h]
    rw [quote_congr sc st1 (st1.reformat base sp spt wd fl) name rfl rfl]
    rfl

/-- C17: `write(n)` for an integer of a signed or an unsigned type emits as its value token
the canonical decimal representation of `n`: a minus sign exactly when `n` is negative, no
plus sign, digits only, no leading zero (0 is written `0`), and the token reads back as
`n`. -/
theorem C17_integer_token (sc : Bool) (w : writer) (st : ostream)
    (hw : w.m_status ≠ status.CLOSED) (n : Int) (nbits : Nat) (m : Nat) (name : List Nat) :
    (array_writer.write sc w st n (default_value_writer_signed nbits)).2.data
      = st.data ++ (w.lead ++ dec_repr n) ∧
    (array_writer.write sc w st m default_value_writer_unsigned).2.data
      = st.data ++ (w.lead ++ dec_repr m) ∧
    (object_writer.write sc w st (some name) n (default_value_writer_signed nbits)).2.data
      = st.data ++ (w.lead ++ (quote sc st name ++ bytes ":" ++ dec_repr n)) ∧
    (object_writer.write sc w st (some name) m default_value_writer_unsigned).2.data
      = st.data ++ (w.lead ++ (quote sc st name ++ bytes ":" ++ dec_repr m)) ∧
    canonical_dec n (dec_repr n) ∧ canonical_dec m (dec_repr m) ∧
    43 ∉ dec_repr n ∧ 43 ∉ dec_repr m ∧ dec_repr 0 = bytes "0" :=
  ⟨(writer.write_none_step sc w st n _ _ hw (emits_signed _ _ nbits n)).2.1,
   (writer.write_none_step sc w st m _ _ hw (emits_unsigned _ _ m)).2.1,
   (writer.write_some_step sc w st name n _ _ hw (emits_signed _ _ nbits n)).2.1,
   (writer.write_some_step sc w st name m _ _ hw (emits_unsigned _ _ m)).2.1,
   canonical_dec_repr n, canonical_dec_repr m, dec_repr_no_plus n, dec_repr_no_plus m,
   by decide⟩

theorem C17_integer_token_witness :
    (array_writer.new showbase_stream).m_status ≠ status.CLOSED ∧
    (array_writer.write true (array_writer.new showbase_stream)
        (showbase_stream.reformat fmt_base.oct true true 7 42) (-120)
        (default_value_writer_signed 32)).2.data = bytes "[-120" ∧
    parse_dec (bytes "-120") = some (-120) :=
  ⟨by decide,
    ((C17_integer_token true (array_writer.new showbase_stream)
      (showbase_stream.reformat fmt_base.oct true true 7 42) (by decide) (-120) 32 7
      []).1).trans (by decide),
    by decide⟩


theorem emits_floating_not_finite (up sb : Bool) (put_float : ostream → floating → ostream)
    (v : floating) (hv : v.isfinite = false) :
    emits up sb (default_value_writer_floating put_float) v (bytes "null") := by
  intro st h hu hs
  have e : default_value_writer_floating put_float st v = default_value_writer_null st () := by
    simp [default_value_writer_floating, hv]
  rw [e]
  exact emits_null up sb st h hu hs

/-- C13: for a floating-point value that is not finite (an infinity of either sign or any
NaN) the default floating-point value writer emits exactly `null`, whatever the formatting
of the stream for floating-point values is; only for a finite value does it hand the value
to the formatted output of the stream. -/
theorem C13_non_finite_is_null (sc : Bool) (put_float : ostream → floating → ostream)
    (w : writer) (st : ostream) (v : floating) (hv : v.isfinite = false) :
    (∀ up sb, emits up sb (default_value_writer_floating put_float) v (bytes "null")) ∧
    (array_writer.write sc w st v (default_value_writer_floating put_float)).2.data
      = st.data ++ w.token_bytes (bytes "null") ∧
    (∀ name, (object_writer.write sc w st (some name) v
        (default_value_writer_floating put_float)).2.data
      = st.data ++ w.token_bytes (quote sc st name ++ bytes ":" ++ bytes "null")) ∧
    (∀ negative payload, (floating.infinity negative).isfinite = false ∧
      (floating.nan negative payload).isfinite = false) ∧
    (∀ (x : floating) (s : ostream), x.isfinite = true →
      default_value_writer_floating put_float s x = put_float s x) :=
  ⟨fun up sb => emits_floating_not_finite up sb put_float v hv,
   array_write_token sc w st v _ _ (emits_floating_not_finite _ _ put_float v hv),
   fun name => object_write_token sc w st name v _ _
     (emits_floating_not_finite _ _ put_float v hv),
   fun _ _ => ⟨rfl, rfl⟩,
   fun x s hx => by simp [default_value_writer_floating, hx]⟩

theorem C13_non_finite_is_null_witness :
    (floating.nan true 5).isfinite = false ∧
    (array_writer.write false (array_writer.new (ostream.fresh 0))
        ((ostream.fresh 0).reformat fmt_base.hex true true 9 42) (floating.nan true 5)
        (default_value_writer_floating (fun s _ => s.put_str (bytes "nan")))).2.data
      = bytes "[null" :=
  ⟨rfl,
    ((C13_non_finite_is_null false (fun s _ => s.put_str (bytes "nan"))
      (array_writer.new (ostream.fresh 0))
      ((ostream.fresh 0).reformat fmt_base.hex true true 9 42) (floating.nan true 5)
      rfl).2.1).trans (by decide)⟩

/-- The test `invalid_floats`: the three non-finite values are written as `null`, here
on a stream whose own formatted output would print `inf`. -/
theorem invalid_floats_output :
    ((object_writer.write_fields true (object_writer.new (ostream.fresh 0)) (ostream.fresh 0)
        (invalid_float_fields (fun s _ => s.put_str (bytes "inf")))).1.close
      (object_writer.write_fields true (object_writer.new (ostream.fresh 0)) (ostream.fresh 0)
        (invalid_float_fields (fun s _ => s.put_str (bytes "inf")))).2).2.data
      = bytes "\x7b\"posinfinity\":null,\"neginfinity\":null,\"nan\":null\x7d" := by
  decide


/-! ## Nest operations -/

theorem object_nested_object_eq (sc : Bool) (w : writer) (st : ostream) (name : List Nat) :
    object_writer.nested_object sc w st name
      = ({ w with m_status := status.OPEN },
         { m_array := false, m_status := status.EMPTY, m_stream := st.id },
         st.after_name sc w name) := by
  have hadj := adjust_stream_settings_adjusted st
  have hnf := writer.next_field_eq w _ hadj
  have hfn := writer.write_field_name_eq sc _ (ostream.adjusted_write _ hadj w.lead) name
  simp only [object_writer.nested_object, hnf, hfn]
  simp [ostream.after_name, ostream.write, writer.new, adjust_stream_settings_data, quote,
    quoted_on]
  rfl

theorem object_nested_array_eq (sc : Bool) (w : writer) (st : ostream) (name : List Nat) :
    object_writer.nested_array sc w st name
      = ({ w with m_status := status.OPEN },
         { m_array := true, m_status := status.EMPTY, m_stream := st.id },
         st.after_name sc w name) := by
  have hadj := adjust_stream_settings_adjusted st
  have hnf := writer.next_field_eq w _ hadj
  have hfn := writer.write_field_name_eq sc _ (ostream.adjusted_write _ hadj w.lead) name
  simp only [object_writer.nested_array, hnf, hfn]
  simp [ostream.after_name, ostream.write, writer.new, adjust_stream_settings_data, quote,
    quoted_on]
  rfl

theorem array_nested_object_eq (w : writer) (st : ostream) :
    array_writer.nested_object w st
      = ({ w with m_status := status.OPEN },
         { m_array := false, m_status := status.EMPTY, m_stream := st.id },
         st.after_lead w) := by
  have hnf := writer.next_field_eq w _ (adjust_stream_settings_adjusted st)
  simp only [array_writer.nested_object, hnf]
  rfl

theorem array_nested_array_eq (w : writer) (st : ostream) :
    array_writer.nested_array w st
      = ({ w with m_status := status.OPEN },
         { m_array := true, m_status := status.EMPTY, m_stream := st.id },
         st.after_lead w) := by
  have hnf := writer.next_field_eq w _ (adjust_stream_settings_adjusted st)
  simp only [array_writer.nested_array, hnf]
  rfl

theorem write_helper_some_eq {V : Type} (sc : Bool) (w : writer) (st : ostream)
    (name : List Nat) (v : V) (vw : value_writer V) (hw : w.m_status ≠ status.CLOSED) :
    w.write_helper sc st (some name) v vw
      = ({ w with m_status := status.OPEN }, vw (st.after_name sc w name) v) :=
  writer.write_helper_some sc w st name v vw hw

theorem write_helper_none_eq {V : Type} (sc : Bool) (w : writer) (st : ostream)
    (v : V) (vw : value_writer V) (hw : w.m_status ≠ status.CLOSED) :
    w.write_helper sc st none v vw
      = ({ w with m_status := status.OPEN }, vw (st.after_lead w) v) :=
  writer.write_helper_none sc w st v vw hw


/-- C20: on a writer that is EMPTY or OPEN each nest operation emits the preamble of a
write (the opening bracket when EMPTY, a comma when OPEN, then for an object writer the
quoted name and a colon) and nothing else, leaves the parent OPEN with its kind and stream
unchanged, and returns a child that is EMPTY, has the requested kind and is bound to the
stream of the parent.  Parent and stream are as after a write whose value writer writes
nothing. -/
theorem C20_nest_operations (sc : Bool) (w : writer) (st : ostream) (name : List Nat)
    (hw : w.m_status ≠ status.CLOSED) (hb : w.m_stream = st.id) :
    ((object_writer.nested_object sc w st name).1 = { w with m_status := status.OPEN } ∧
     (object_writer.nested_object sc w st name).2.1
       = { m_array := false, m_status := status.EMPTY, m_stream := w.m_stream } ∧
     (object_writer.nested_object sc w st name).2.2.data
       = st.data ++ (w.lead ++ (quote sc st name ++ bytes ":")) ∧
     ((object_writer.nested_object sc w st name).1,
       (object_writer.nested_object sc w st name).2.2)
       = object_writer.write sc w st (some name) () (fun s _ => s)) ∧
    ((object_writer.nested_array sc w st name).1 = { w with m_status := status.OPEN } ∧
     (object_writer.nested_array sc w st name).2.1
       = { m_array := true, m_status := status.EMPTY, m_stream := w.m_stream } ∧
     (object_writer.nested_array sc w st name).2.2.data
       = st.data ++ (w.lead ++ (quote sc st name ++ bytes ":")) ∧
     ((object_writer.nested_array sc w st name).1,
       (object_writer.nested_array sc w st name).2.2)
       = object_writer.write sc w st (some name) () (fun s _ => s)) ∧
    ((array_writer.nested_object w st).1 = { w with m_status := status.OPEN } ∧
     (array_writer.nested_object w st).2.1
       = { m_array := false, m_status := status.EMPTY, m_stream := w.m_stream } ∧
     (array_writer.nested_object w st).2.2.data = st.data ++ w.lead ∧
     ((array_writer.nested_object w st).1, (array_writer.nested_object w st).2.2)
       = array_writer.write sc w st () (fun s _ => s)) ∧
    ((array_writer.nested_array w st).1 = { w with m_status := status.OPEN } ∧
     (array_writer.nested_array w st).2.1
       = { m_array := true, m_status := status.EMPTY, m_stream := w.m_stream } ∧
     (array_writer.nested_array w st).2.2.data = st.data ++ w.lead ∧
     ((array_writer.nested_array w st).1, (array_writer.nested_array w st).2.2)
       = array_writer.write sc w st () (fun s _ => s)) ∧
    (w.m_status = status.EMPTY → w.lead = [if w.m_array then 91 else 123]) ∧
    (w.m_status = status.OPEN → w.lead = bytes ",") := by
  refine ⟨?_, ?_, ?_, ?_, ?_, ?_⟩
  · rw [object_nested_object_eq, ← hb]
    exact ⟨rfl, rfl, rfl, (write_helper_some_eq sc w st name () (fun s _ => s) hw).symm⟩
  · rw [object_nested_array_eq, ← hb]
    exact ⟨rfl, rfl, rfl, (write_helper_some_eq sc w st name () (fun s _ => s) hw).symm⟩
  · rw [array_nested_object_eq, ← hb]
    exact ⟨rfl, rfl, rfl, (write_helper_none_eq sc w st () (fun s _ => s) hw).symm⟩
  · rw [array_nested_array_eq, ← hb]
    exact ⟨rfl, rfl, rfl, (write_helper_none_eq sc w st () (fun s _ => s) hw).symm⟩
  · intro h
    unfold writer.lead
    rw [h]
    cases w.m_array <;> rfl
  · intro h
    unfold writer.lead
    rw [h]
    rfl

theorem C20_nest_operations_witness :
    (object_writer.new (ostream.fresh 7)).m_status ≠ status.CLOSED ∧
    (object_writer.new (ostream.fresh 7)).m_stream = (ostream.fresh 7).id ∧
    (object_writer.nested_array true (object_writer.new (ostream.fresh 7)) (ostream.fresh 7)
        (bytes "nums")).2.2.data = bytes "\x7b\"nums\":" ∧
    (object_writer.nested_array true (object_writer.new (ostream.fresh 7)) (ostream.fresh 7)
        (bytes "nums")).2.1
      = { m_array := true, m_status := status.EMPTY, m_stream := 7 } :=
  ⟨by decide, rfl,
    ((C20_nest_operations true (object_writer.new (ostream.fresh 7)) (ostream.fresh 7)
      (bytes "nums") (by decide) rfl).2.1.2.2.1).trans (by decide),
    (C20_nest_operations true (object_writer.new (ostream.fresh 7)) (ostream.fresh 7)
      (bytes "nums") (by decide) rfl).2.1.2.1⟩


theorem object_nested_array_path_eq {V : Type} (sc : Bool) (w : writer) (st : ostream)
    (name : List Nat) (xs : List V) (vw : value_writer V) :
    object_writer.nested_array_path sc w st name xs vw
      = ({ w with m_status := status.OPEN }, write_array sc (st.after_name sc w name) xs vw) := by
  unfold object_writer.nested_array_path
  rw [object_nested_array_eq]
  rfl

theorem array_nested_array_path_eq {V : Type} (sc : Bool) (w : writer) (st : ostream)
    (xs : List V) (vw : value_writer V) :
    array_writer.nested_array_path sc w st xs vw
      = ({ w with m_status := status.OPEN }, write_array sc (st.after_lead w) xs vw) := by
  unfold array_writer.nested_array_path
  rw [array_nested_array_eq]
  rfl

theorem object_write_array_eq {V : Type} (sc : Bool) (w : writer) (st : ostream)
    (name : List Nat) (xs : List V) (vw : value_writer V) (hw : w.m_status ≠ status.CLOSED) :
    object_writer.write_array sc w st (some name) xs vw
      = ({ w with m_status := status.OPEN }, write_array sc (st.after_name sc w name) xs vw) :=
  write_helper_some_eq sc w st name xs (range_writer sc vw) hw

theorem array_write_array_eq {V : Type} (sc : Bool) (w : writer) (st : ostream)
    (xs : List V) (vw : value_writer V) (hw : w.m_status ≠ status.CLOSED) :
    array_writer.write_array sc w st xs vw
      = ({ w with m_status := status.OPEN }, write_array sc (st.after_lead w) xs vw) :=
  write_helper_none_eq sc w st xs (range_writer sc vw) hw

theorem write_array_after_name_data {V : Type} (sc : Bool) (w : writer) (st : ostream)
    (name : List Nat) (xs : List V) (vw : value_writer V) (e : V → List Nat)
    (he : ∀ x ∈ xs, emits st.uppercase st.showbase vw x (e x)) :
    (write_array sc (st.after_name sc w name) xs vw).data
      = st.data ++ (w.lead ++ (quote sc st name ++ [58]
          ++ ([91] ++ List.intercalate [44] (xs.map e) ++ [93]))) := by
  rw [(write_array_spec sc (st.after_name sc w name) xs vw e he).1]
  simp [ostream.after_name]

theorem write_array_after_lead_data {V : Type} (sc : Bool) (w : writer) (st : ostream)
    (xs : List V) (vw : value_writer V) (e : V → List Nat)
    (he : ∀ x ∈ xs, emits st.uppercase st.showbase vw x (e x)) :
    (write_array sc (st.after_lead w) xs vw).data
      = st.data ++ (w.lead ++ ([91] ++ List.intercalate [44] (xs.map e) ++ [93])) := by
  rw [(write_array_spec sc (st.after_lead w) xs vw e he).1]
  simp [ostream.after_lead, ostream.write, adjust_stream_settings_data]

theorem emits_string_quote (sc : Bool) (st : ostream) (x : List Nat) :
    emits st.uppercase st.showbase (default_value_writer_string sc) x (quote sc st x) := by
  have h := emits_string sc st.uppercase st.showbase x
  simpa [quote, quoted_on, adjust_stream_settings, ostream.imbue, ostream.dec, ostream.setw]
    using h

/-- C15: on a fresh object writer, `nested_array(f)`, then `write(x, enc)` on the child for
each element in order, then `close()` on the child and on the parent, appends an opening
brace, the quoted name, a colon, the array of the encodings and a closing brace; for the
name `nums` and the elements 1, 2, 3 the output is `{"nums":[1,2,3]}`. -/
theorem C15_nested_array_field {V : Type} (sc : Bool) (st : ostream) (f : List Nat)
    (xs : List V) (vw : value_writer V) (e : V → List Nat)
    (he : ∀ x ∈ xs, emits st.uppercase st.showbase vw x (e x)) :
    ((object_writer.nested_array_path sc (object_writer.new st) st f xs vw).1.close
        (object_writer.nested_array_path sc (object_writer.new st) st f xs vw).2).2.data
      = st.data ++ (bytes "\x7b" ++ quote sc st f ++ bytes ":[" ++
          List.intercalate (bytes ",") (xs.map e) ++ bytes "]\x7d") ∧
    ((object_writer.nested_array_path true (object_writer.new (ostream.fresh 0))
          (ostream.fresh 0) (bytes "nums") [1, 2, 3] (default_value_writer_signed 32)).1.close
        (object_writer.nested_array_path true (object_writer.new (ostream.fresh 0))
          (ostream.fresh 0) (bytes "nums") [1, 2, 3] (default_value_writer_signed 32)).2).2.data
      = bytes "\x7b\"nums\":[1,2,3]\x7d" := by
  refine ⟨?_, by decide⟩
  rw [object_nested_array_path_eq, writer.close_data,
    write_array_after_name_data sc _ st f xs vw e he]
  simp [writer.lead, writer.tail, object_writer.new, writer.new, bytes]

theorem C15_nested_array_field_witness :
    ((object_writer.nested_array_path false (object_writer.new showbase_stream)
          showbase_stream (bytes "n\x01") [bytes "a", bytes "b\n"]
          (default_value_writer_string false)).1.close
        (object_writer.nested_array_path false (object_writer.new showbase_stream)
          showbase_stream (bytes "n\x01") [bytes "a", bytes "b\n"]
          (default_value_writer_string false)).2).2.data
      = bytes "\x7b\"n\\u00x1\":[\"a\",\"b\\n\"]\x7d" :=
  ((C15_nested_array_field false showbase_stream (bytes "n\x01") [bytes "a", bytes "b\n"]
      (default_value_writer_string false) (quote false showbase_stream)
      (fun x _ => emits_string_quote false showbase_stream x)).1).trans (by decide)

/-- C16: array as a field.  `write_array(f, begin, end)` with strings on a fresh object
writer that is then closed appends an opening brace, the quoted name, a colon, the array
of the quoted strings and a closing brace; the positional form on a fresh array writer
appends the array inside an array.  For the name `elements` and the strings `nitrogen` and
`oxygen` the object output is `{"elements":["nitrogen","oxygen"]}`. -/
theorem C16_array_as_field (sc : Bool) (st : ostream) (f : List Nat) (xs : List (List Nat)) :
    ((object_writer.write_array sc (object_writer.new st) st (some f) xs
          (default_value_writer_string sc)).1.close
        (object_writer.write_array sc (object_writer.new st) st (some f) xs
          (default_value_writer_string sc)).2).2.data
      = st.data ++ (bytes "\x7b" ++ quote sc st f ++ bytes ":[" ++
          List.intercalate (bytes ",") (xs.map (quote sc st)) ++ bytes "]\x7d") ∧
    ((array_writer.write_array sc (array_writer.new st) st xs
          (default_value_writer_string sc)).1.close
        (array_writer.write_array sc (array_writer.new st) st xs
          (default_value_writer_string sc)).2).2.data
      = st.data ++ (bytes "[[" ++ List.intercalate (bytes ",") (xs.map (quote sc st))
          ++ bytes "]]") ∧
    ((object_writer.write_array true (object_writer.new (ostream.fresh 0)) (ostream.fresh 0)
          (some (bytes "elements")) [bytes "nitrogen", bytes "oxygen"]
          (default_value_writer_string true)).1.close
        (object_writer.write_array true (object_writer.new (ostream.fresh 0)) (ostream.fresh 0)
          (some (bytes "elements")) [bytes "nitrogen", bytes "oxygen"]
          (default_value_writer_string true)).2).2.data
      = bytes "\x7b\"elements\":[\"nitrogen\",\"oxygen\"]\x7d" ∧
    ((array_writer.write_array true (array_writer.new (ostream.fresh 0)) (ostream.fresh 0)
          [bytes "nitrogen", bytes "oxygen"] (default_value_writer_string true)).1.close
        (array_writer.write_array true (array_writer.new (ostream.fresh 0)) (ostream.fresh 0)
          [bytes "nitrogen", bytes "oxygen"] (default_value_writer_string true)).2).2.data
      = bytes "[[\"nitrogen\",\"oxygen\"]]" ∧
    (∀ x, (write_quoted_string sc (adjust_stream_settings st) x).data
      = st.data ++ quote sc st x) ∧
    (st.uppercase = false → st.showbase = false → ∀ x, nul_free x →
      quote sc st x = bytes "\"" ++ x.flatMap esc ++ bytes "\"") := by
  refine ⟨?_, ?_, by decide, by decide, quote_eq_escaper sc st,
    fun hu hsb x hx => quote_canonical sc st x hu hsb hx⟩
  · rw [object_write_array_eq sc _ st f xs _ (by simp [object_writer.new, writer.new]),
      writer.close_data,
      write_array_after_name_data sc _ st f xs _ (quote sc st)
        (fun x _ => emits_string_quote sc st x)]
    simp [writer.lead, writer.tail, object_writer.new, writer.new, bytes]
  · rw [array_write_array_eq sc _ st xs _ (by simp [array_writer.new, writer.new]),
      writer.close_data,
      write_array_after_lead_data sc _ st xs _ (quote sc st)
        (fun x _ => emits_string_quote sc st x)]
    simp [writer.lead, writer.tail, array_writer.new, writer.new, bytes]

theorem C16_array_as_field_witness :
    ((object_writer.write_array true (object_writer.new uppercase_stream) uppercase_stream
          (some (bytes "k")) [bytes "a\x1f", []] (default_value_writer_string true)).1.close
        (object_writer.write_array true (object_writer.new uppercase_stream) uppercase_stream
          (some (bytes "k")) [bytes "a\x1f", []] (default_value_writer_string true)).2).2.data
      = bytes "\x7b\"k\":[\"a\\u001F\",\"\"]\x7d" ∧
    quote true (ostream.fresh 0) (bytes "a\"\x1f")
      = bytes "\"" ++ (bytes "a\"\x1f").flatMap esc ++ bytes "\"" :=
  ⟨((C16_array_as_field true uppercase_stream (bytes "k") [bytes "a\x1f", []]).1).trans
      (by decide),
    (C16_array_as_field true (ostream.fresh 0) [] []).2.2.2.2.2 rfl rfl (bytes "a\"\x1f")
      (by decide)⟩


/-! ## The hex escape and the display flags of the sink -/

theorem esc_control (c : Nat) (hc : (1 ≤ c ∧ c ≤ 31) ∨ c = 127) (h10 : c ≠ 10)
    (h13 : c ≠ 13) (h9 : c ≠ 9) :
    esc c = bytes "\\u00" ++ [lower_hex (c / 16), lower_hex (c % 16)] := by
  have h34 : c ≠ 34 := by omega
  have h92 : c ≠ 92 := by omega
  unfold esc
  rw [if_neg h34, if_neg h92, if_neg h10, if_neg h13, if_neg h9, if_pos hc]

theorem control_escape_of_flags_clear (sc : Bool) (w : writer) (st : ostream) (c : Nat)
    (hu : st.uppercase = false) (hsb : st.showbase = false)
    (hc : (1 ≤ c ∧ c ≤ 31) ∨ c = 127) (h10 : c ≠ 10) (h13 : c ≠ 13) (h9 : c ≠ 9) :
    (array_writer.write sc w st [c] (default_value_writer_string sc)).2.data
      = st.data ++ w.token_bytes
          (bytes "\"\\u00" ++ [lower_hex (c / 16), lower_hex (c % 16)] ++ bytes "\"") := by
  rw [array_write_token sc w st [c] _ _ (emits_string_quote sc st [c]),
    quote_canonical sc st [c] hu hsb (by intro b hb; simp at hb; omega)]
  simp [esc_control c hc h10 h13 h9, bytes]

theorem control_escape_of_flags_clear_witness :
    (array_writer.write true (array_writer.new (ostream.fresh 0))
        ((ostream.fresh 0).reformat fmt_base.oct true true 9 95) [127]
        (default_value_writer_string true)).2.data
      = bytes "[\"\\u007f\"" :=
  (control_escape_of_flags_clear true (array_writer.new (ostream.fresh 0))
    ((ostream.fresh 0).reformat fmt_base.oct true true 9 95) 127 rfl rfl (by decide)
    (by decide) (by decide) (by decide)).trans (by decide)

/-- C18: a string holding the control character 0x1f, written through `write` on a fresh
array writer, gets the escape `\u001F` when the sink has `std::uppercase` set and `\u0x1f`
when it has `std::showbase` set, not the six characters `\u001f` it gets on a sink in its
default state. -/
theorem C18_escape_depends_on_display_flags :
    (array_writer.write false (array_writer.new uppercase_stream) uppercase_stream
        (bytes "\x1f") (default_value_writer_string false)).2.data = bytes "[\"\\u001F\"" ∧
    (array_writer.write false (array_writer.new showbase_stream) showbase_stream
        (bytes "\x1f") (default_value_writer_string false)).2.data = bytes "[\"\\u0x1f\"" ∧
    (array_writer.write false (array_writer.new (ostream.fresh 0)) (ostream.fresh 0)
        (bytes "\x1f") (default_value_writer_string false)).2.data = bytes "[\"\\u001f\"" ∧
    esc 31 = bytes "\\u001f" := by
  decide

/-! ## The formatting state the escaper leaves -/

/-- C19, counterexample to the width part: the escaper called on a sink whose field
width is 5, with the string `a`, leaves the width at 5, together with the fill character
`0` it sets, so the integer 42 written to the sink next is padded to `00042`. -/
theorem C19_width_survives_plain_string :
    nul_free (bytes "a") ∧
    (write_quoted_string false width_stream (bytes "a")).basefield = fmt_base.dec ∧
    (write_quoted_string false width_stream (bytes "a")).width = 5 ∧
    (default_value_writer_signed 32
        (write_quoted_string false width_stream (bytes "a")) 42).data
      = bytes "\"a\"00042" := by
  decide

/-- C19, amended: after the escaper has written `s` the radix of the sink is decimal, for
every string and every state of the sink; the field width is 0 when `s` has a character
written as a hex escape and is otherwise the width at entry, which is 0 whenever the
escaper is reached through a writer, where `adjust_stream_settings` runs first.  An integer
written with `write` after a key, or as the value after a string value, is its unpadded
decimal representation, for example 42 as `42` after a key and a value with hex escapes. -/
theorem C19_escaper_restores_decimal (sc : Bool) (st : ostream) (s : List Nat) (w : writer)
    (n : Int) (nbits : Nat) :
    (write_quoted_string sc st s).basefield = fmt_base.dec ∧
    (write_quoted_string sc st s).width = (if has_control sc s = true then 0 else st.width) ∧
    (write_quoted_string sc (adjust_stream_settings st) s).basefield = fmt_base.dec ∧
    (write_quoted_string sc (adjust_stream_settings st) s).width = 0 ∧
    (object_writer.write sc w st (some s) n (default_value_writer_signed nbits)).2.data
      = st.data ++ w.token_bytes (quote sc st s ++ bytes ":" ++ dec_repr n) ∧
    (array_writer.write sc (array_writer.write sc w st s (default_value_writer_string sc)).1
        (array_writer.write sc w st s (default_value_writer_string sc)).2 n
        (default_value_writer_signed nbits)).2.data
      = (array_writer.write sc w st s (default_value_writer_string sc)).2.data
          ++ (array_writer.write sc w st s (default_value_writer_string sc)).1.token_bytes
              (dec_repr n) ∧
    (array_writer.write sc w st s (default_value_writer_string sc)).2.data
      = st.data ++ w.token_bytes (quote sc st s) ∧
    (object_writer.write true (object_writer.new width_stream) width_stream
        (some (bytes "k\x01")) 42 (default_value_writer_signed 32)).2.data
      = bytes "\x7b\"k\\u0001\":42" ∧
    (array_writer.write true
        (array_writer.write true (array_writer.new width_stream) width_stream (bytes "v\x7f")
          (default_value_writer_string true)).1
        (array_writer.write true (array_writer.new width_stream) width_stream (bytes "v\x7f")
          (default_value_writer_string true)).2 42 (default_value_writer_signed 32)).2.data
      = bytes "[\"v\\u007f\",42" := by
  refine ⟨?_, ?_, ?_, ?_, ?_, ?_, ?_, by decide, by decide⟩
  · rw [write_quoted_string_eq]
  · rw [write_quoted_string_eq]
  · rw [write_quoted_string_eq]
  · rw [write_quoted_string_eq]
    simp [adjust_stream_settings, ostream.setw, ostream.dec, ostream.imbue]
  · exact object_write_token sc w st s n _ _ (emits_signed _ _ nbits n)
  · exact array_write_token sc _ _ n _ _ (emits_signed _ _ nbits n)
  · exact array_write_token sc w st s _ _ (emits_string_quote sc st s)


/-! ## write_array and the explicit nesting path -/

/-- C22: on a writer that is EMPTY or OPEN, `write_array` is the explicit nesting path:
the field form on an object writer gives the same parent and the same stream (the bytes
and the formatting state) as `nested_array(name)`, `write(x, enc)` on the child for each
element in order and `close()` on the child, and the positional form on an array writer
the same as `nested_array()` followed by these calls; the parent is OPEN after both. -/
theorem C22_write_array_is_nesting_path {V : Type} (sc : Bool) (w : writer) (st : ostream)
    (name : List Nat) (xs : List V) (enc : value_writer V)
    (hw : w.m_status ≠ status.CLOSED) :
    object_writer.write_array sc w st (some name) xs enc
      = object_writer.nested_array_path sc w st name xs enc ∧
    array_writer.write_array sc w st xs enc = array_writer.nested_array_path sc w st xs enc ∧
    (object_writer.write_array sc w st (some name) xs enc).1.m_status = status.OPEN ∧
    (object_writer.nested_array_path sc w st name xs enc).1.m_status = status.OPEN ∧
    (array_writer.write_array sc w st xs enc).1.m_status = status.OPEN ∧
    (array_writer.nested_array_path sc w st xs enc).1.m_status = status.OPEN := by
  rw [object_write_array_eq sc w st name xs enc hw, array_write_array_eq sc w st xs enc hw,
    object_nested_array_path_eq, array_nested_array_path_eq]
  exact ⟨rfl, rfl, rfl, rfl, rfl, rfl⟩

theorem C22_write_array_is_nesting_path_witness :
    (object_writer.write false (object_writer.new showbase_stream) showbase_stream
        (some (bytes "a")) true default_value_writer_bool).1.m_status ≠ status.CLOSED ∧
    (object_writer.write_array false
        (object_writer.write false (object_writer.new showbase_stream) showbase_stream
          (some (bytes "a")) true default_value_writer_bool).1
        (object_writer.write false (object_writer.new showbase_stream) showbase_stream
          (some (bytes "a")) true default_value_writer_bool).2
        (some (bytes "k\x02")) [bytes "x", bytes "\x7f"] (default_value_writer_string false)
      = object_writer.nested_array_path false
        (object_writer.write false (object_writer.new showbase_stream) showbase_stream
          (some (bytes "a")) true default_value_writer_bool).1
        (object_writer.write false (object_writer.new showbase_stream) showbase_stream
          (some (bytes "a")) true default_value_writer_bool).2
        (bytes "k\x02") [bytes "x", bytes "\x7f"] (default_value_writer_string false)) ∧
    (object_writer.nested_array_path false
        (object_writer.write false (object_writer.new showbase_stream) showbase_stream
          (some (bytes "a")) true default_value_writer_bool).1
        (object_writer.write false (object_writer.new showbase_stream) showbase_stream
          (some (bytes "a")) true default_value_writer_bool).2
        (bytes "k\x02") [bytes "x", bytes "\x7f"] (default_value_writer_string false)).2.data
      = bytes "\x7b\"a\":true,\"k\\u00x2\":[\"x\",\"\\u0x7f\"]" ∧
    (array_writer.write_array false (array_writer.new (ostream.fresh 0)) (ostream.fresh 0)
        [3, -4] (default_value_writer_signed 32)
      = array_writer.nested_array_path false (array_writer.new (ostream.fresh 0))
        (ostream.fresh 0) [3, -4] (default_value_writer_signed 32)) ∧
    (array_writer.nested_array_path false (array_writer.new (ostream.fresh 0))
        (ostream.fresh 0) [3, -4] (default_value_writer_signed 32)).2.data
      = bytes "[[3,-4]" :=
  ⟨by decide,
    (C22_write_array_is_nesting_path false
      (object_writer.write false (object_writer.new showbase_stream) showbase_stream
          (some (bytes "a")) true default_value_writer_bool).1
      (object_writer.write false (object_writer.new showbase_stream) showbase_stream
          (some (bytes "a")) true default_value_writer_bool).2
      (bytes "k\x02") [bytes "x", bytes "\x7f"] (default_value_writer_string false)
      (by decide)).1,
    by decide,
    (C22_write_array_is_nesting_path false (array_writer.new (ostream.fresh 0))
      (ostream.fresh 0) [] [3, -4] (default_value_writer_signed 32) (by decide)).2.1,
    by decide⟩

theorem write_array_closed_not_nesting_path :
    ((array_writer.new (ostream.fresh 0)).close (ostream.fresh 0)).1.m_status = status.CLOSED ∧
    (array_writer.write_array false ((array_writer.new (ostream.fresh 0)).close (ostream.fresh 0)).1
        ((array_writer.new (ostream.fresh 0)).close (ostream.fresh 0)).2 [7]
        (default_value_writer_signed 32)).2.data = bytes "[]" ∧
    (array_writer.nested_array_path false
        ((array_writer.new (ostream.fresh 0)).close (ostream.fresh 0)).1
        ((array_writer.new (ostream.fresh 0)).close (ostream.fresh 0)).2 [7]
        (default_value_writer_signed 32)).2.data = bytes "[][7]" := by
  decide


/-! ## The staging buffer: bounds and flushes -/

theorem buffered_writer.put_eq_store (Size : Nat) (bw : buffered_writer) (st : ostream)
    (c : Nat) :
    buffered_writer.put Size bw st c
      = ({ m_buffer := bw.m_buffer.set (bw.store_index Size) c,
           m_offset := bw.store_index Size + 1 },
         if bw.m_offset = Size then st.write (bw.m_buffer.take bw.m_offset) else st) := by
  unfold buffered_writer.put buffered_writer.store_index
  by_cases h : bw.m_offset = Size
  · simp [h, buffered_writer.flush]
  · simp [h]

theorem buffered_writer.store_index_lt (Size : Nat) (hS : 0 < Size) (bw : buffered_writer)
    (h : bw.inv Size) :
    bw.store_index Size < Size ∧ bw.store_index Size < bw.m_buffer.length := by
  obtain ⟨h1, h2⟩ := h
  unfold buffered_writer.store_index
  by_cases hfull : bw.m_offset = Size
  · rw [if_pos hfull]; omega
  · rw [if_neg hfull]; omega

theorem buffered_writer.call_inv (Size : Nat) (hS : 0 < Size) (bw : buffered_writer)
    (st : ostream) (c : buffered_call) (h : bw.inv Size) : (bw.call Size st c).1.inv Size := by
  cases c with
  | put_char c => exact (buffered_writer.put_spec Size hS bw st c h).1
  | put_literal str => exact (buffered_writer.put_str_spec Size hS str bw st h).1
  | flush => exact (buffered_writer.flush_spec Size bw st h).1

theorem buffered_writer.calls_inv (Size : Nat) (hS : 0 < Size) (cs : List buffered_call) :
    ∀ (bw : buffered_writer) (st : ostream), bw.inv Size →
      (buffered_writer.calls Size cs bw st).1.inv Size := by
  induction cs with
  | nil => intro bw st h; exact h
  | cons c cs ih =>
    intro bw st h
    exact ih _ _ (buffered_writer.call_inv Size hS bw st c h)

theorem buffered_writer.flush_logged_spec (Size : Nat) (bw : buffered_writer) (st : ostream)
    (log : List (List Nat)) (h : bw.inv Size) (hp : 0 < bw.m_offset)
    (hl : ∀ ch ∈ log, good_chunk Size ch) :
    (bw.flush_logged st log).1.inv Size ∧ (bw.flush_logged st log).1.m_offset = 0 ∧
    (∀ ch ∈ (bw.flush_logged st log).2.2, good_chunk Size ch) ∧
    ((bw.flush_logged st log).1, (bw.flush_logged st log).2.1) = bw.flush st := by
  obtain ⟨h1, h2⟩ := h
  refine ⟨⟨Nat.zero_le _, h2⟩, rfl, ?_, rfl⟩
  intro ch hch
  simp only [buffered_writer.flush_logged, List.mem_append, List.mem_singleton] at hch
  rcases hch with hch | rfl
  · exact hl ch hch
  · simp only [good_chunk, List.length_take]; omega

theorem buffered_writer.put_logged_spec (Size : Nat) (hS : 0 < Size) (bw : buffered_writer)
    (st : ostream) (log : List (List Nat)) (c : Nat) (h : bw.inv Size)
    (hl : ∀ ch ∈ log, good_chunk Size ch) :
    (buffered_writer.put_logged Size bw st log c).1.inv Size ∧
    0 < (buffered_writer.put_logged Size bw st log c).1.m_offset ∧
    (∀ ch ∈ (buffered_writer.put_logged Size bw st log c).2.2, good_chunk Size ch) ∧
    ((buffered_writer.put_logged Size bw st log c).1,
      (buffered_writer.put_logged Size bw st log c).2.1) = buffered_writer.put Size bw st c := by
  unfold buffered_writer.put_logged buffered_writer.put
  by_cases hfull : bw.m_offset = Size
  · have hf := buffered_writer.flush_logged_spec Size bw st log h (by omega) hl
    rw [if_pos hfull, if_pos hfull]
    refine ⟨⟨?_, ?_⟩, Nat.succ_pos _, hf.2.2.1, ?_⟩
    · show (bw.flush_logged st log).1.m_offset + 1 ≤ Size
      rw [hf.2.1]; omega
    · show ((bw.flush_logged st log).1.m_buffer.set _ c).length = Size
      rw [List.length_set]; exact hf.1.2
    · rfl
  · obtain ⟨h1, h2⟩ := h
    rw [if_neg hfull, if_neg hfull]
    refine ⟨⟨?_, ?_⟩, Nat.succ_pos _, hl, rfl⟩
    · show bw.m_offset + 1 ≤ Size
      omega
    · show (bw.m_buffer.set _ c).length = Size
      rw [List.length_set]; exact h2

theorem buffered_writer.put_str_logged_spec (Size : Nat) (hS : 0 < Size) (str : List Nat) :
    ∀ (bw : buffered_writer) (st : ostream) (log : List (List Nat)), bw.inv Size →
    (∀ ch ∈ log, good_chunk Size ch) →
    (buffered_writer.put_str_logged Size bw st log str).1.inv Size ∧
    (str ≠ [] → 0 < (buffered_writer.put_str_logged Size bw st log str).1.m_offset) ∧
    (∀ ch ∈ (buffered_writer.put_str_logged Size bw st log str).2.2, good_chunk Size ch) ∧
    ((buffered_writer.put_str_logged Size bw st log str).1,
      (buffered_writer.put_str_logged Size bw st log str).2.1)
        = buffered_writer.put_str Size bw st str := by
  induction str with
  | nil =>
    intro bw st log h hl
    exact ⟨h, fun hne => absurd rfl hne, hl, rfl⟩
  | cons c cs ih =>
    intro bw st log h hl
    have hp := buffered_writer.put_logged_spec Size hS bw st log c h hl
    have hr := ih (buffered_writer.put_logged Size bw st log c).1
      (buffered_writer.put_logged Size bw st log c).2.1
      (buffered_writer.put_logged Size bw st log c).2.2 hp.1 hp.2.2.1
    have e : buffered_writer.put_str_logged Size bw st log (c :: cs)
        = buffered_writer.put_str_logged Size (buffered_writer.put_logged Size bw st log c).1
            (buffered_writer.put_logged Size bw st log c).2.1
            (buffered_writer.put_logged Size bw st log c).2.2 cs := rfl
    have e2 : buffered_writer.put_str Size bw st (c :: cs)
        = buffered_writer.put_str Size (buffered_writer.put Size bw st c).1
            (buffered_writer.put Size bw st c).2 cs := rfl
    rw [e, e2]
    refine ⟨hr.1, ?_, hr.2.2.1, ?_⟩
    · intro _
      by_cases hcs : cs = []
      · subst hcs; exact hp.2.1
      · exact hr.2.1 hcs
    · rw [hr.2.2.2, ← hp.2.2.2]


theorem write_quoted_char_logged_spec (sc : Bool) (bw : buffered_writer) (st : ostream)
    (log : List (List Nat)) (c : Nat) (h : bw.inv 128) (hl : ∀ ch ∈ log, good_chunk 128 ch) :
    (write_quoted_char_logged sc bw st log c).1.inv 128 ∧
    (∀ ch ∈ (write_quoted_char_logged sc bw st log c).2.2, good_chunk 128 ch) ∧
    ((write_quoted_char_logged sc bw st log c).1, (write_quoted_char_logged sc bw st log c).2.1)
      = write_quoted_char sc bw st c := by
  have lit : ∀ str : List Nat,
      (buffered_writer.put_str_logged 128 bw st log str).1.inv 128 ∧
      (∀ ch ∈ (buffered_writer.put_str_logged 128 bw st log str).2.2, good_chunk 128 ch) ∧
      ((buffered_writer.put_str_logged 128 bw st log str).1,
        (buffered_writer.put_str_logged 128 bw st log str).2.1)
          = buffered_writer.put_str 128 bw st str := fun str =>
    have q := buffered_writer.put_str_logged_spec 128 (by decide) str bw st log h hl
    ⟨q.1, q.2.2.1, q.2.2.2⟩
  unfold write_quoted_char_logged write_quoted_char
  simp only
  split_ifs
  · exact lit _
  · exact lit _
  · exact lit _
  · exact lit _
  · exact lit _
  · have q := buffered_writer.put_str_logged_spec 128 (by decide) [92, 117] bw st log h hl
    have f := buffered_writer.flush_logged_spec 128 _
      (buffered_writer.put_str_logged 128 bw st log [92, 117]).2.1
      (buffered_writer.put_str_logged 128 bw st log [92, 117]).2.2 q.1 (q.2.1 (by simp))
      q.2.2.1
    refine ⟨f.1, f.2.2.1, ?_⟩
    rw [← q.2.2.2]
    dsimp only
    rw [← f.2.2.2]
  · have q := buffered_writer.put_logged_spec 128 (by decide) bw st log c h hl
    exact ⟨q.1, q.2.2.1, q.2.2.2⟩

theorem write_quoted_loop_logged_spec (sc : Bool) (str : List Nat) :
    ∀ (bw : buffered_writer) (st : ostream) (log : List (List Nat)), bw.inv 128 →
    (∀ ch ∈ log, good_chunk 128 ch) →
    (write_quoted_loop_logged sc str bw st log).1.inv 128 ∧
    (∀ ch ∈ (write_quoted_loop_logged sc str bw st log).2.2, good_chunk 128 ch) ∧
    ((write_quoted_loop_logged sc str bw st log).1,
      (write_quoted_loop_logged sc str bw st log).2.1) = write_quoted_loop sc str bw st := by
  induction str with
  | nil => intro bw st log h hl; exact ⟨h, hl, rfl⟩
  | cons c cs ih =>
    intro bw st log h hl
    by_cases hc : c = 0
    · simp only [write_quoted_loop_logged, write_quoted_loop, hc, if_true]
      exact ⟨h, hl, trivial⟩
    · simp only [write_quoted_loop_logged, write_quoted_loop, hc, if_false]
      have hp := write_quoted_char_logged_spec sc bw st log c h hl
      have hr := ih _ (write_quoted_char_logged sc bw st log c).2.1 _ hp.1 hp.2.1
      refine ⟨hr.1, hr.2.1, ?_⟩
      rw [hr.2.2, ← hp.2.2]

theorem write_quoted_string_logged_spec (sc : Bool) (st : ostream) (str : List Nat) :
    (write_quoted_string_logged sc st str).1 = write_quoted_string sc st str ∧
    ∀ ch ∈ (write_quoted_string_logged sc st str).2, good_chunk 128 ch := by
  unfold write_quoted_string_logged write_quoted_string
  simp only
  have h0 := buffered_writer.put_logged_spec 128 (by decide) (buffered_writer.new 128)
    (((st.hex).right).setfill 48) [] 34 (buffered_writer.inv_new 128) (by simp)
  rw [← h0.2.2.2]
  generalize buffered_writer.put_logged 128 (buffered_writer.new 128)
    (((st.hex).right).setfill 48) [] 34 = p0 at h0 ⊢
  dsimp only
  have h1 := write_quoted_loop_logged_spec sc str p0.1 p0.2.1 p0.2.2 h0.1 h0.2.2.1
  rw [← h1.2.2]
  generalize write_quoted_loop_logged sc str p0.1 p0.2.1 p0.2.2 = p1 at h1 ⊢
  dsimp only
  have h2 := buffered_writer.put_logged_spec 128 (by decide) p1.1 p1.2.1 p1.2.2 34 h1.1 h1.2.1
  rw [← h2.2.2.2]
  generalize buffered_writer.put_logged 128 p1.1 p1.2.1 p1.2.2 34 = p2 at h2 ⊢
  dsimp only
  have h3 := buffered_writer.flush_logged_spec 128 p2.1 p2.2.1 p2.2.2 h2.1 h2.2.1 h2.2.2.1
  rw [← h3.2.2.2]
  exact ⟨rfl, h3.2.2.1⟩

theorem buffered_writer.put_str_eq_calls (Size : Nat) (str : List Nat) (bw : buffered_writer)
    (st : ostream) :
    buffered_writer.put_str Size bw st str
      = buffered_writer.calls Size (str.map buffered_call.put_char) bw st := by
  unfold buffered_writer.put_str buffered_writer.calls
  rw [List.foldl_map]
  rfl


/-- C23: a `buffered_writer<Size>` with `Size > 0` has `m_offset <= Size` and a buffer of
`Size` bytes after construction and after every sequence of `operator<<` (character or
string literal, which is the sequence of its characters) and `flush` calls; so the store of
a following `operator<<(char)` is at an index below `Size`, inside the buffer, and leaves
`m_offset` at that index plus one.  Every flush of the text escaper hands the stream at
least one byte and at most 128. -/
theorem C23_buffer_bounds (Size : Nat) (hS : 0 < Size) (cs : List buffered_call)
    (st : ostream) (c : Nat) (str : List Nat) (sc : Bool) (s : List Nat) :
    (buffered_writer.new Size).m_offset = 0 ∧
    (buffered_writer.new Size).m_buffer.length = Size ∧
    (buffered_writer.calls Size cs (buffered_writer.new Size) st).1.m_offset ≤ Size ∧
    (buffered_writer.calls Size cs (buffered_writer.new Size) st).1.m_buffer.length = Size ∧
    (buffered_writer.calls Size cs (buffered_writer.new Size) st).1.store_index Size < Size ∧
    (buffered_writer.calls Size cs (buffered_writer.new Size) st).1.store_index Size
      < (buffered_writer.calls Size cs (buffered_writer.new Size) st).1.m_buffer.length ∧
    (buffered_writer.put Size (buffered_writer.calls Size cs (buffered_writer.new Size) st).1
        (buffered_writer.calls Size cs (buffered_writer.new Size) st).2 c).1
      = { m_buffer :=
            (buffered_writer.calls Size cs (buffered_writer.new Size) st).1.m_buffer.set
              ((buffered_writer.calls Size cs (buffered_writer.new Size) st).1.store_index Size)
              c,
          m_offset :=
            (buffered_writer.calls Size cs (buffered_writer.new Size) st).1.store_index Size
              + 1 } ∧
    buffered_writer.put_str Size (buffered_writer.calls Size cs (buffered_writer.new Size) st).1
        (buffered_writer.calls Size cs (buffered_writer.new Size) st).2 str
      = buffered_writer.calls Size (cs ++ str.map buffered_call.put_char)
          (buffered_writer.new Size) st ∧
    (write_quoted_string_logged sc st s).1 = write_quoted_string sc st s ∧
    (∀ chunk ∈ (write_quoted_string_logged sc st s).2,
      1 ≤ chunk.length ∧ chunk.length ≤ 128) := by
  have hi := buffered_writer.calls_inv Size hS cs (buffered_writer.new Size) st
    (buffered_writer.inv_new Size)
  have hs := buffered_writer.store_index_lt Size hS _ hi
  refine ⟨rfl, (buffered_writer.inv_new Size).2, hi.1, hi.2, hs.1, hs.2, ?_, ?_,
    (write_quoted_string_logged_spec sc st s).1, (write_quoted_string_logged_spec sc st s).2⟩
  · rw [buffered_writer.put_eq_store]
  · rw [buffered_writer.put_str_eq_calls]
    unfold buffered_writer.calls
    rw [List.foldl_append]

theorem C23_buffer_bounds_witness :
    (0 : Nat) < 2 ∧
    (buffered_writer.calls 2
        [buffered_call.put_literal [104, 105, 33], buffered_call.flush,
          buffered_call.put_char 63, buffered_call.put_char 64]
        (buffered_writer.new 2) (ostream.fresh 0))
      = ({ m_buffer := [63, 64], m_offset := 2 }, (ostream.fresh 0).write [104, 105, 33]) ∧
    (buffered_writer.calls 2
        [buffered_call.put_literal [104, 105, 33], buffered_call.flush,
          buffered_call.put_char 63, buffered_call.put_char 64]
        (buffered_writer.new 2) (ostream.fresh 0)).1.store_index 2 < 2 ∧
    (∀ chunk ∈ (write_quoted_string_logged false (ostream.fresh 0) [97, 1, 98]).2,
      1 ≤ chunk.length ∧ chunk.length ≤ 128) :=
  ⟨by decide, by decide,
    (C23_buffer_bounds 2 (by decide)
      [buffered_call.put_literal [104, 105, 33], buffered_call.flush,
        buffered_call.put_char 63, buffered_call.put_char 64]
      (ostream.fresh 0) 0 [] false [97, 1, 98]).2.2.2.2.1,
    (C23_buffer_bounds 2 (by decide) [] (ostream.fresh 0) 0 [] false [97, 1, 98]).2.2.2.2.2.2.2.2.2⟩

theorem buffered_writer_flushes_example :
    (write_quoted_string_logged false (ostream.fresh 0) [97, 1, 98]).2
      = [bytes "\"a\\u", bytes "b\""] ∧
    (write_quoted_string_logged false (ostream.fresh 0) [97, 1, 98]).1.data
      = bytes "\"a\\u0001b\"" := by
  decide

/-! ## The staging buffer is not observable -/

set_option maxRecDepth 100000 in
/-- C21: the escaper with its 128-byte staging buffer leaves the stream as the escaper
without the buffer does, which writes each escaped character to the stream directly: the
bytes appended are the opening quote, the escapes of the characters in order and the
closing quote, for every string and every state of the stream.  For 126 letters the single
flush hands over 128 bytes; for 126 letters, the control character 1 and a letter the
backslash of the escape is the last byte of the first flush and the `u` the only byte of
the second, and the output is the same as without the buffer. -/
theorem C21_staging_buffer_unobservable (sc : Bool) (st : ostream) (s : List Nat) :
    write_quoted_string sc st s = write_quoted_string_direct sc st s ∧
    (write_quoted_string sc st s).data = st.data ++ quoted_on sc st s ∧
    (write_quoted_string_direct sc st s).data = st.data ++ quoted_on sc st s ∧
    (write_quoted_string_logged false (ostream.fresh 0) filling_string).2
      = [[34] ++ List.replicate 126 97 ++ [34]] ∧
    (write_quoted_string false (ostream.fresh 0) filling_string).data
      = [34] ++ List.replicate 126 97 ++ [34] ∧
    (write_quoted_string_logged false (ostream.fresh 0) straddling_string).2
      = [[34] ++ List.replicate 126 97 ++ [92], [117], bytes "b\""] ∧
    (write_quoted_string false (ostream.fresh 0) straddling_string).data
      = [34] ++ List.replicate 126 97 ++ bytes "\\u0001b\"" ∧
    (write_quoted_string_direct false (ostream.fresh 0) straddling_string).data
      = [34] ++ List.replicate 126 97 ++ bytes "\\u0001b\"" := by
  have h := write_quoted_string_eq sc st s
  refine ⟨write_quoted_string_eq_direct sc st s, ?_, ?_, by decide, by decide, by decide,
    by decide, by decide⟩
  · rw [h]
  · rw [← write_quoted_string_eq_direct, h]


theorem write_quoted_char_formatted_eq (sc : Bool) (st : ostream) (c : Nat)
    (hw : st.width = 0) :
    write_quoted_char_formatted sc st c = write_quoted_char_direct sc st c ∧
    (write_quoted_char_direct sc st c).width = 0 := by
  unfold write_quoted_char_formatted write_quoted_char_direct
  simp only
  split_ifs
  · exact ⟨ostream.put_str_of_width_zero st hw _, hw⟩
  · exact ⟨ostream.put_str_of_width_zero st hw _, hw⟩
  · exact ⟨ostream.put_str_of_width_zero st hw _, hw⟩
  · exact ⟨ostream.put_str_of_width_zero st hw _, hw⟩
  · exact ⟨ostream.put_str_of_width_zero st hw _, hw⟩
  · exact ⟨by rw [ostream.put_str_of_width_zero st hw], rfl⟩
  · exact ⟨ostream.put_char_of_width_zero st hw _, hw⟩

theorem write_quoted_loop_formatted_eq (sc : Bool) (s : List Nat) :
    ∀ st : ostream, st.width = 0 →
      write_quoted_loop_formatted sc s st = write_quoted_loop_direct sc s st ∧
      (write_quoted_loop_direct sc s st).width = 0 := by
  induction s with
  | nil => intro st hw; exact ⟨rfl, hw⟩
  | cons c cs ih =>
    intro st hw
    by_cases hc : c = 0
    · simp only [write_quoted_loop_formatted, write_quoted_loop_direct, hc, if_true]
      exact ⟨trivial, hw⟩
    · simp only [write_quoted_loop_formatted, write_quoted_loop_direct, hc, if_false]
      have h := write_quoted_char_formatted_eq sc st c hw
      rw [h.1]
      exact ih _ h.2

theorem write_quoted_string_eq_formatted (sc : Bool) (st : ostream) (s : List Nat)
    (hw : st.width = 0) :
    write_quoted_string sc st s = write_quoted_string_formatted sc st s := by
  rw [write_quoted_string_eq_direct]
  unfold write_quoted_string_formatted write_quoted_string_direct
  simp only
  have h0 : (((st.hex).right).setfill 48).width = 0 := hw
  rw [ostream.put_char_of_width_zero _ h0]
  have h1 := write_quoted_loop_formatted_eq sc s
    ((((st.hex).right).setfill 48).write [34]) h0
  rw [h1.1, ostream.put_char_of_width_zero _ h1.2]

theorem write_quoted_string_eq_formatted_witness :
    (adjust_stream_settings width_stream).width = 0 ∧
    write_quoted_string true (adjust_stream_settings width_stream) (bytes "a\x01\"")
      = write_quoted_string_formatted true (adjust_stream_settings width_stream)
          (bytes "a\x01\"") ∧
    (write_quoted_string true width_stream (bytes "a")).data = bytes "\"a\"" ∧
    (write_quoted_string_formatted true width_stream (bytes "a")).data = bytes "0000\"a\"" :=
  ⟨rfl,
    write_quoted_string_eq_formatted true (adjust_stream_settings width_stream)
      (bytes "a\x01\"") rfl,
    by decide, by decide⟩

theorem buffered_writer_size_zero :
    (buffered_writer.put 0 (buffered_writer.new 0) (ostream.fresh 0) 97).1.m_offset = 1 ∧
    (buffered_writer.put 0 (buffered_writer.new 0) (ostream.fresh 0) 97).1.m_buffer = [] := by
  decide

end minijson
